import Mathlib

/-!
# PassVault: encrypted local vault

Shallow embedding of the vault subsystem of `script.js` (encryption engine, vault store, the
merge of imported records, password generators, strength score and expiration status) with
the properties proved about it.
-/

namespace PassVault

/-! ## Base64 (`btoa`, `atob`) -/

abbrev Byte := Fin 256
abbrev Bytes := List Byte

def b64Char (n : Nat) : Char :=
  if n < 26 then Char.ofNat (65 + n)
  else if n < 52 then Char.ofNat (97 + (n - 26))
  else if n < 62 then Char.ofNat (48 + (n - 52))
  else if n = 62 then '+'
  else '/'

def b64Value (c : Char) : Option Nat :=
  let n := c.toNat
  if 65 ≤ n ∧ n ≤ 90 then some (n - 65)
  else if 97 ≤ n ∧ n ≤ 122 then some (n - 97 + 26)
  else if 48 ≤ n ∧ n ≤ 57 then some (n - 48 + 52)
  else if c = '+' then some 62
  else if c = '/' then some 63
  else none

def b64Body : Bytes → List Nat
  | [] => []
  | [a] => [a.val / 4, (a.val % 4) * 16]
  | [a, b] => [a.val / 4, (a.val % 4) * 16 + b.val / 16, (b.val % 16) * 4]
  | a :: b :: c :: rest =>
    a.val / 4 :: ((a.val % 4) * 16 + b.val / 16) :: ((b.val % 16) * 4 + c.val / 64)
      :: c.val % 64 :: b64Body rest

def b64Pad (n : Nat) : List Char := List.replicate ((3 - n % 3) % 3) '='

def b64Encode (bs : Bytes) : List Char := (b64Body bs).map b64Char ++ b64Pad bs.length

def isAsciiWhitespace (c : Char) : Bool :=
  c == '\t' || c == '\n' || c == '\x0c' || c == '\r' || c == ' '

def stripRev : List Char → List Char
  | '=' :: '=' :: t => t
  | '=' :: t => t
  | r => r

def stripPadding (cs : List Char) : List Char :=
  if cs.length % 4 = 0 then (stripRev cs.reverse).reverse else cs

def toByte (n : Nat) : Byte := ⟨n % 256, Nat.mod_lt _ (by decide)⟩

def b64Unpack : List Nat → Bytes
  | s1 :: s2 :: s3 :: s4 :: rest =>
    toByte (s1 * 4 + s2 / 16) :: toByte ((s2 % 16) * 16 + s3 / 4) :: toByte ((s3 % 4) * 64 + s4)
      :: b64Unpack rest
  | [s1, s2, s3] => [toByte (s1 * 4 + s2 / 16), toByte ((s2 % 16) * 16 + s3 / 4)]
  | [s1, s2] => [toByte (s1 * 4 + s2 / 16)]
  | _ => []

def b64Values : List Char → Option (List Nat)
  | [] => some []
  | c :: cs =>
    match b64Value c, b64Values cs with
    | some v, some vs => some (v :: vs)
    | _, _ => none

def b64Decode (s : List Char) : Option Bytes :=
  let d := stripPadding (s.filter (fun c => !isAsciiWhitespace c))
  if d.length % 4 = 1 then none
  else (b64Values d).map b64Unpack

/-! ## JavaScript runtime: exceptions, observable events, the world -/

/-- Exceptions the vault code can meet. `error m` is `new Error(m)` thrown by the program itself;
the others are raised by the browser. -/
inductive JsError
  | error (message : String)
  | invalidCharacter
  | operationError
  | dataError
  | syntaxError
  | typeError
  | quotaExceeded
  | securityError
  | rangeError
  deriving DecidableEq, Repr

deriving instance DecidableEq for Except

/-- Calls to the browser that the vault code makes, in the order they are made. -/
inductive Event
  | getItem (key : String)
  | setItem (key value : String)
  | deriveKey (password : String) (salt : Bytes) (iterations : Nat)
  | importKey (keyData : Bytes)
  | gcmEncrypt (key iv plaintext : Bytes)
  | gcmDecrypt (key iv ciphertext : Bytes)
  | showNotification (message : String)
  deriving DecidableEq, Repr

/-- A credential record. A field is `none` when the JavaScript object does not carry it. -/
structure Record where
  id : Option String
  site : Option String
  username : Option String
  password : Option String
  createdAt : Option String
  updatedAt : Option String
  deriving DecidableEq, Repr

/-- Contents of `localStorage`: the value last stored under each key. -/
abbrev Storage := List (String × String)

def Storage.get (st : Storage) (key : String) : Option String :=
  (st.find? (fun kv => kv.1 == key)).map (fun kv => kv.2)

def Storage.set (st : Storage) (key value : String) : Storage :=
  (key, value) :: st.filter (fun kv => !(kv.1 == key))

/-- The mutable state the vault code runs in: `localStorage`, the global `passwordDatabase`,
the trace of browser calls made so far (latest last), and whether the document holds the
element `#notificationToast` with its `#toastMessage` and `#toastIcon` children. -/
structure World where
  storage : Storage
  passwordDatabase : List Record
  log : List Event
  toastInDocument : Bool
  deriving DecidableEq, Repr

/-- A JavaScript computation: from a world it either returns a value or throws, and leaves a
world behind either way. -/
def JS (α : Type) : Type := World → Except JsError α × World

def JS.pure {α : Type} (a : α) : JS α := fun w => (.ok a, w)

def JS.bind {α β : Type} (m : JS α) (f : α → JS β) : JS β := fun w =>
  match m w with
  | (.ok a, w1) => f a w1
  | (.error e, w1) => (.error e, w1)

instance : Monad JS where
  pure := JS.pure
  bind := JS.bind

/-- The statement `throw e`. -/
def JS.throw {α : Type} (e : JsError) : JS α := fun w => (.error e, w)

/-- The statement `try { body } catch (error) { handler(error) }`. -/
def JS.tryCatch {α : Type} (body : JS α) (handler : JsError → JS α) : JS α := fun w =>
  match body w with
  | (.ok a, w1) => (.ok a, w1)
  | (.error e, w1) => handler e w1

def JS.logEvent (e : Event) : JS Unit := fun w => (.ok (), { w with log := w.log ++ [e] })

def JS.ofOption {α : Type} (e : JsError) : Option α → JS α
  | some a => JS.pure a
  | none => JS.throw e

def getPasswordDatabase : JS (List Record) := fun w => (.ok w.passwordDatabase, w)

def setPasswordDatabase (db : List Record) : JS Unit := fun w =>
  (.ok (), { w with passwordDatabase := db })

/-! ## Browser services the code calls -/

/-- The local-storage package `{iv, data}`: two arrays of numbers. -/
structure LocalPackage where
  iv : List Nat
  data : List Nat
  deriving DecidableEq, Repr

/-- The browser services the vault relies on, for payloads of type `P`.
* `pbkdf2 password salt iterations`: `importKey('raw', password, 'PBKDF2')` followed by
  `deriveKey` to an AES-GCM 256 key; `none` when the promise rejects.
* `gcmEncrypt key iv plaintext`, `gcmDecrypt key iv ciphertext`: `crypto.subtle.encrypt` and
  `crypto.subtle.decrypt` with `name: 'AES-GCM'`; `none` when the promise rejects.
* `jsonEncode p`: `encoder.encode(JSON.stringify(p))`; `jsonDecode b`:
  `JSON.parse(decoder.decode(b))`, `none` when it throws.
* `stringifyLocal`, `parseLocal`: `JSON.stringify` and `JSON.parse` on the local-storage
  package; `parseLocal` is `none` when `JSON.parse` throws or yields `null`.
* `storageDenied`: every `localStorage` access throws; `quotaExceeded st k v`: storing `v`
  under `k` in storage `st` throws.
* `argumentLimit`: the largest number of arguments the engine accepts in one call; a spread
  call `f(...array)` with a longer array throws `RangeError`. -/
structure Platform (P : Type) where
  pbkdf2 : String → Bytes → Nat → Option Bytes
  gcmEncrypt : Bytes → Bytes → Bytes → Option Bytes
  gcmDecrypt : Bytes → Bytes → Bytes → Option Bytes
  jsonEncode : P → Option Bytes
  jsonDecode : Bytes → Option P
  stringifyLocal : LocalPackage → String
  parseLocal : String → Option LocalPackage
  storageDenied : Bool
  quotaExceeded : Storage → String → String → Bool
  argumentLimit : Nat

/-- What AES-GCM guarantees: decryption under the same key and nonce returns the plaintext, and
the ciphertext carries a 16-byte authentication tag. -/
structure Platform.Lawful {P : Type} (pf : Platform P) : Prop where
  gcm_open : ∀ k iv m c, pf.gcmEncrypt k iv m = some c → pf.gcmDecrypt k iv c = some m
  gcm_tag : ∀ k iv m c, pf.gcmEncrypt k iv m = some c → c.length = m.length + 16

def getItem {P : Type} (pf : Platform P) (key : String) : JS (Option String) := do
  JS.logEvent (.getItem key)
  if pf.storageDenied then JS.throw .securityError
  else fun w => (.ok (w.storage.get key), w)

def setItem {P : Type} (pf : Platform P) (key value : String) : JS Unit := do
  JS.logEvent (.setItem key value)
  if pf.storageDenied then JS.throw .securityError
  else fun w =>
    if pf.quotaExceeded w.storage key value then (.error .quotaExceeded, w)
    else (.ok (), { w with storage := w.storage.set key value })

/-- Function `showNotification(message, type)`. With the toast element in the document the message is
shown (recorded in the trace). Without it the function builds the element and appends it to
the document, and then throws `TypeError` at `toast = newToast`, an assignment to a `const`
binding: nothing is shown, and the element is in the document from then on. -/
def showNotification (message : String) : JS Unit := fun w =>
  if w.toastInDocument then (.ok (), { w with log := w.log ++ [.showNotification message] })
  else (.error .typeError, { w with toastInDocument := true })

/-- The base64 text of a byte array: what `btoa(String.fromCharCode(...bytes))` returns when the
engine accepts the call. -/
def btoaBytes (bs : Bytes) : String := String.mk (b64Encode bs)

/-- Model of `btoa(String.fromCharCode(...bytes))` on a `Uint8Array`: every byte is one argument of the
call, which throws `RangeError` when there are more bytes than the engine accepts
arguments. -/
def btoaSpread {P : Type} (pf : Platform P) (bs : Bytes) : JS String :=
  if bs.length ≤ pf.argumentLimit then JS.pure (btoaBytes bs) else JS.throw .rangeError

/-- Model of `btoa(s)`: throws when `s` has a character above U+00FF. -/
def btoa (s : String) : JS String :=
  if s.data.all (fun c => c.toNat < 256) then
    JS.pure (String.mk (b64Encode (s.data.map (fun c => toByte c.toNat))))
  else JS.throw .invalidCharacter

/-- Model of `Uint8Array.from(atob(s), c => c.charCodeAt(0))`. -/
def atobBytes (s : String) : JS Bytes := JS.ofOption .invalidCharacter (b64Decode s.data)

/-- Model of `new TextEncoder().encode(s)`: the UTF-8 bytes of `s`. -/
def utf8Encode (s : String) : Bytes :=
  s.data.flatMap (fun c => (String.utf8EncodeChar c).map (fun b => toByte b.toNat))

/-- Model of `crypto.subtle.importKey('raw', keyData, 'AES-GCM', ...)`: AES keys have 128, 192 or 256
bits. -/
def importKey (keyData : Bytes) : JS Bytes := do
  JS.logEvent (.importKey keyData)
  if keyData.length = 16 ∨ keyData.length = 24 ∨ keyData.length = 32 then JS.pure keyData
  else JS.throw .dataError

def aesEncrypt {P : Type} (pf : Platform P) (key iv plaintext : Bytes) : JS Bytes := do
  JS.logEvent (.gcmEncrypt key iv plaintext)
  JS.ofOption .operationError (pf.gcmEncrypt key iv plaintext)

def aesDecrypt {P : Type} (pf : Platform P) (key iv ciphertext : Bytes) : JS Bytes := do
  JS.logEvent (.gcmDecrypt key iv ciphertext)
  JS.ofOption .operationError (pf.gcmDecrypt key iv ciphertext)

/-! ## Encryption system (`class PasswordEncryption`) -/

/-- The export package `{version, salt, iv, ciphertext, iterations}`; `none` is an absent
field. -/
structure EncryptedPackage where
  version : Option Nat
  salt : Option String
  iv : Option String
  ciphertext : Option String
  iterations : Option Nat
  deriving DecidableEq, Repr

/-- What a caller can hand to `decrypt`: nothing (`null`, `undefined`), a string primitive (what
`localStorage.getItem` returns) or a package object. -/
inductive PackageArg
  | missing
  | text (s : String)
  | object (p : EncryptedPackage)
  deriving DecidableEq, Repr

/-- The shape check at the head of `decrypt`:
`!encryptedPackage || !encryptedPackage.version || !encryptedPackage.salt ||
 !encryptedPackage.iv || !encryptedPackage.ciphertext || !encryptedPackage.iterations`.
A string primitive has none of the five properties; `0` and `''` are falsy. Returns salt, iv,
ciphertext and iterations of a package that passes. -/
def PackageArg.checked : PackageArg → Option (String × String × String × Nat)
  | .object ⟨some v, some s, some i, some c, some n⟩ =>
    if v ≠ 0 ∧ s ≠ "" ∧ i ≠ "" ∧ c ≠ "" ∧ n ≠ 0 then some (s, i, c, n) else none
  | _ => none

def invalidFormatMessage : String := "Invalid encrypted package format"

def decryptFailedMessage : String :=
  "Failed to decrypt data - incorrect password or corrupted file"

def encryptFailedMessage : String := "Failed to encrypt data"

namespace PasswordEncryption

def deriveKey {P : Type} (pf : Platform P) (password : String) (salt : Bytes)
    (iterations : Nat) : JS Bytes := do
  JS.logEvent (.deriveKey password salt iterations)
  JS.ofOption .operationError (pf.pbkdf2 password salt iterations)

/-- Method `PasswordEncryption.encrypt(data, password)`; `salt` and `iv` are the 16 and 12 bytes that
`crypto.getRandomValues` yields. `deriveKey` is called without its third argument, so with
the default 150000. -/
def encrypt {P : Type} (pf : Platform P) (data : P) (password : String) (salt iv : Bytes) :
    JS EncryptedPackage :=
  JS.tryCatch
    (do
      let key ← deriveKey pf password salt 150000
      let encodedData ← JS.ofOption .typeError (pf.jsonEncode data)
      let encryptedData ← aesEncrypt pf key iv encodedData
      let saltText ← btoaSpread pf salt
      let ivText ← btoaSpread pf iv
      let ciphertextText ← btoaSpread pf encryptedData
      pure
        { version := some 1
          salt := some saltText
          iv := some ivText
          ciphertext := some ciphertextText
          iterations := some 150000 })
    (fun _ => JS.throw (.error encryptFailedMessage))

/-- The body of the `try` block of `decrypt`. -/
def decryptBody {P : Type} (pf : Platform P) (encryptedPackage : PackageArg)
    (password : String) : JS P :=
  match encryptedPackage.checked with
  | none => JS.throw (.error invalidFormatMessage)
  | some (saltText, ivText, ciphertextText, iterations) => do
    let salt ← atobBytes saltText
    let iv ← atobBytes ivText
    let encryptedData ← atobBytes ciphertextText
    let key ← deriveKey pf password salt iterations
    let decryptedData ← aesDecrypt pf key iv encryptedData
    JS.ofOption .syntaxError (pf.jsonDecode decryptedData)

/-- Method `PasswordEncryption.decrypt(encryptedPackage, password)`. -/
def decrypt {P : Type} (pf : Platform P) (encryptedPackage : PackageArg) (password : String) :
    JS P :=
  JS.tryCatch (decryptBody pf encryptedPackage password)
    (fun _ => JS.throw (.error decryptFailedMessage))

end PasswordEncryption

/-! ## Vault store -/

def ENCRYPTION_KEY : String := "PassVaultMasterKey2025"

def localDataKey : String := "passvault_local_data"

def legacyDataKey : String := "encryptedPasswords"

/-- The browser values `generateLocalStorageKey` reads. `hardwareConcurrency` is `none` when
the browser does not report it. -/
structure Env where
  userAgent : String
  language : String
  platform : String
  screenWidth : Int
  screenHeight : Int
  colorDepth : Int
  timezoneOffset : Int
  hardwareConcurrency : Option Nat
  deriving DecidableEq, Repr

/-- The array joined with `'|'` in `generateLocalStorageKey`;
`navigator.hardwareConcurrency || 'unknown'` is `'unknown'` for an absent or zero count. -/
def fingerprint (env : Env) : String :=
  "|".intercalate
    [env.userAgent, env.language, env.platform, toString env.screenWidth,
      toString env.screenHeight, toString env.colorDepth, toString env.timezoneOffset,
      match env.hardwareConcurrency with
      | some n => if n = 0 then "unknown" else toString n
      | none => "unknown"]

/-- Function `generateLocalStorageKey()`: `btoa(fingerprint).substring(0, 32)`. -/
def generateLocalStorageKey (env : Env) : JS String := do
  let encoded ← btoa (fingerprint env)
  pure (String.mk (encoded.data.take 32))

def localEncryptFailedMessage : String := "Failed to encrypt data for localStorage"

def localDecryptFailedMessage : String := "Failed to decrypt data from localStorage"

/-- Function `encryptForLocalStorage(data)`; `iv` is the 12 bytes `crypto.getRandomValues` yields. -/
def encryptForLocalStorage {P : Type} (pf : Platform P) (env : Env) (data : P) (iv : Bytes) :
    JS LocalPackage :=
  JS.tryCatch
    (do
      let keyString ← generateLocalStorageKey env
      let keyData := utf8Encode keyString
      let key ← importKey keyData
      let encodedData ← JS.ofOption .typeError (pf.jsonEncode data)
      let encryptedData ← aesEncrypt pf key iv encodedData
      pure { iv := iv.map Fin.val, data := encryptedData.map Fin.val })
    (fun _ => JS.throw (.error localEncryptFailedMessage))

/-- Function `decryptFromLocalStorage(encryptedPackage)`; `new Uint8Array(numbers)` reduces every number
modulo 256. -/
def decryptFromLocalStorage {P : Type} (pf : Platform P) (env : Env)
    (encryptedPackage : LocalPackage) : JS P :=
  JS.tryCatch
    (do
      let keyString ← generateLocalStorageKey env
      let keyData := utf8Encode keyString
      let key ← importKey keyData
      let iv := encryptedPackage.iv.map toByte
      let encryptedData := encryptedPackage.data.map toByte
      let decryptedData ← aesDecrypt pf key iv encryptedData
      JS.ofOption .syntaxError (pf.jsonDecode decryptedData))
    (fun _ => JS.throw (.error localDecryptFailedMessage))

/-- Function `savePasswordDatabase()`. -/
def savePasswordDatabase (pf : Platform (List Record)) (env : Env) (iv : Bytes) : JS Bool :=
  JS.tryCatch
    (do
      let db ← getPasswordDatabase
      let encryptedData ← encryptForLocalStorage pf env db iv
      setItem pf localDataKey (pf.stringifyLocal encryptedData)
      pure true)
    (fun _ => pure false)

/-- The `try` block of `loadPasswordDatabase`; `if (encryptedData)` holds for a stored,
non-empty string. The decrypted payload is typed as a list of records: parse results of any
other shape are outside the model. -/
def loadPasswordDatabaseBody (pf : Platform (List Record)) (env : Env) : JS (List Record) := do
  let encryptedData ← getItem pf localDataKey
  match encryptedData with
  | some text =>
    if text ≠ "" then do
      let parsedData ← JS.ofOption .syntaxError (pf.parseLocal text)
      decryptFromLocalStorage pf env parsedData
    else pure []
  | none => pure []

/-- Function `loadPasswordDatabase()`. -/
def loadPasswordDatabase (pf : Platform (List Record)) (env : Env) : JS (List Record) :=
  JS.tryCatch (loadPasswordDatabaseBody pf env) (fun _ => pure [])

/-- Function `initDatabase()`; `iv` is the nonce drawn if the migration write is reached. The legacy
entry is handed to `decrypt` as the string `getItem` returned. -/
def initDatabase (pf : Platform (List Record)) (env : Env) (iv : Bytes) : JS Unit :=
  JS.tryCatch
    (do
      let loadedData ← loadPasswordDatabase pf env
      if loadedData.length > 0 then setPasswordDatabase loadedData
      else do
        let encryptedData ← getItem pf legacyDataKey
        match encryptedData with
        | some text =>
          if text ≠ "" then do
            let decryptedData ← PasswordEncryption.decrypt pf (.text text) ENCRYPTION_KEY
            setPasswordDatabase decryptedData
            let _ ← savePasswordDatabase pf env iv
            pure ()
          else setPasswordDatabase []
        | none => setPasswordDatabase [])
    (fun _ => setPasswordDatabase [])

/-- What `localStorage.setItem` stores for a plain object argument: its `String(...)`
conversion. -/
def objectToString (_ : EncryptedPackage) : String := "[object Object]"

def saveFailedSecureMessage : String := "Failed to save passwords to secure storage."

def saveFailedMessage : String := "Failed to save passwords. Please try again."

/-- The two statements of `savePasswords` that write the legacy entry: `encrypt` of the
database under `ENCRYPTION_KEY`, then `setItem` with the package object itself. -/
def legacyWrite (pf : Platform (List Record)) (salt iv : Bytes) : JS Unit := do
  let db ← getPasswordDatabase
  let encryptedData ← PasswordEncryption.encrypt pf db ENCRYPTION_KEY salt iv
  setItem pf legacyDataKey (objectToString encryptedData)

/-- Function `savePasswords()`; `localIv` is the nonce of the local-format write, `salt` and `iv` the
random values of the legacy write. -/
def savePasswords (pf : Platform (List Record)) (env : Env) (localIv salt iv : Bytes) :
    JS Bool :=
  JS.tryCatch
    (do
      let saveResult ← savePasswordDatabase pf env localIv
      legacyWrite pf salt iv
      if !saveResult then do
        showNotification saveFailedSecureMessage
        pure false
      else pure true)
    (fun _ => do
      showNotification saveFailedMessage
      pure false)

/-! ## Import merge (`confirmImport` handler of `showImportConfirmation`) -/

/-- Model of `Array.prototype.findIndex`: the first index whose element satisfies `p`, `none` for the
`-1` result. -/
def findIndex (p : Record → Bool) : List Record → Option Nat
  | [] => none
  | r :: rest => if p r then some 0 else (findIndex p rest).map (· + 1)

/-- The expression `value || fallback` on an optional string: an absent or empty string gives the fallback. -/
def orElse (value : Option String) (fallback : String) : Option String :=
  match value with
  | some s => if s ≠ "" then some s else some fallback
  | none => some fallback

/-- One iteration of the `forEach` of the handler; `freshId` and `now` are what
`generateUniqueId()` and `new Date().toISOString()` return when this iteration calls them. -/
def importRecord (freshId now : String) (db : List Record) (importedPassword : Record) :
    List Record :=
  let existingIndex :=
    findIndex
      (fun existing =>
        existing.site == importedPassword.site && existing.username == importedPassword.username)
      db
  if existingIndex.isSome then db
  else
    db ++
      [{ importedPassword with
          id := orElse importedPassword.id freshId
          createdAt := orElse importedPassword.createdAt now }]

/-- The `forEach` loop from incoming record number `i` on; `uid i` and `clock i` are the
identifier and the time available to iteration `i`. -/
def importMergeFrom (uid clock : Nat → String) (i : Nat) (db : List Record) :
    List Record → List Record
  | [] => db
  | r :: rest => importMergeFrom uid clock (i + 1) (importRecord (uid i) (clock i) db r) rest

def importMerge (uid clock : Nat → String) (db importedPasswords : List Record) : List Record :=
  importMergeFrom uid clock 0 db importedPasswords

/-- The `confirmImport` click handler up to its `savePasswords()` call; the value is
`saveResult`. -/
def confirmImport (pf : Platform (List Record)) (env : Env) (uid clock : Nat → String)
    (importedPasswords : List Record) (localIv salt iv : Bytes) : JS Bool := do
  let db ← getPasswordDatabase
  setPasswordDatabase (importMerge uid clock db importedPasswords)
  savePasswords pf env localIv salt iv

/-! ## A small concrete browser, used to run the definitions on concrete inputs -/

/-- Key derivation of the demonstration browser: 32 equal bytes that depend on password, salt
and iteration count; zero iterations are rejected. -/
def demoPbkdf2 (password : String) (salt : Bytes) (iterations : Nat) : Option Bytes :=
  if iterations = 0 then none
  else some (List.replicate 32 (toByte (password.length + salt.length + iterations)))

def demoTag (key iv : Bytes) : Bytes := List.replicate 16 (key.headD 0 + iv.headD 0)

/-- Cipher of the demonstration browser: every byte shifted by the first key byte, followed by
a 16-byte tag. -/
def demoGcmEncrypt (key iv plaintext : Bytes) : Option Bytes :=
  some (plaintext.map (fun b => b + key.headD 0) ++ demoTag key iv)

def demoGcmDecrypt (key iv ciphertext : Bytes) : Option Bytes :=
  if 16 ≤ ciphertext.length ∧ ciphertext.drop (ciphertext.length - 16) = demoTag key iv then
    some ((ciphertext.take (ciphertext.length - 16)).map (fun b => b - key.headD 0))
  else none

/-- Text of a local package in the demonstration browser: the numbers of `iv`, a blank, the
numbers of `data`, each number `n` written as the character with code `n + 33`. -/
def demoStringifyLocal (p : LocalPackage) : String :=
  String.mk (p.iv.map (fun n => Char.ofNat (n + 33)) ++ ' ' :: p.data.map (fun n => Char.ofNat (n + 33)))

def demoParseLocal (text : String) : Option LocalPackage :=
  match text.data.span (fun c => c != ' ') with
  | (a, ' ' :: b) => some { iv := a.map (fun c => c.toNat - 33), data := b.map (fun c => c.toNat - 33) }
  | _ => none

def demoPlatform {P : Type} (enc : P → Option Bytes) (dec : Bytes → Option P) : Platform P where
  pbkdf2 := demoPbkdf2
  gcmEncrypt := demoGcmEncrypt
  gcmDecrypt := demoGcmDecrypt
  jsonEncode := enc
  jsonDecode := dec
  stringifyLocal := demoStringifyLocal
  parseLocal := demoParseLocal
  storageDenied := false
  quotaExceeded := fun _ _ _ => false
  argumentLimit := 65536

/-- A record whose site is `n` letters long. -/
def demoRecord (n : Nat) : Record where
  id := some "k3v9x1"
  site := some (String.mk (List.replicate n 's'))
  username := some "ada"
  password := some "correct horse"
  createdAt := some "2025-01-01T00:00:00.000Z"
  updatedAt := none

/-- Record codec of the demonstration browser: one byte per record, the length of its site. -/
def demoEncodeRecords (db : List Record) : Option Bytes :=
  some (db.map (fun r => toByte ((r.site.getD "").length)))

def demoDecodeRecords (b : Bytes) : Option (List Record) :=
  some (b.map (fun x => demoRecord x.val))

def demoVault : Platform (List Record) := demoPlatform demoEncodeRecords demoDecodeRecords

/-- The demonstration browser with a storage that has no room left for the legacy entry:
`setItem` under `encryptedPasswords` throws `QuotaExceededError`. -/
def demoVaultFull : Platform (List Record) :=
  { demoVault with quotaExceeded := fun _ key _ => key == "encryptedPasswords" }

def demoEnv : Env where
  userAgent := "Mozilla/5.0 (X11; Linux x86_64) Gecko/20100101 Firefox/128.0"
  language := "en-US"
  platform := "Linux x86_64"
  screenWidth := 1920
  screenHeight := 1080
  colorDepth := 24
  timezoneOffset := -60
  hardwareConcurrency := some 8

def demoSalt : Bytes := List.replicate 16 7

def demoIv : Bytes := List.replicate 12 9

/-- A freshly loaded page with nothing stored; its document holds the toast element. -/
def emptyWorld : World :=
  { storage := [], passwordDatabase := [], log := [], toastInDocument := true }

/-- A well-shaped package whose salt is not base64. -/
def demoBadSaltPackage : PackageArg :=
  .object ⟨some 1, some "not*base64", some "CQkJCQkJCQkJCQkJ", some "BQsLCwsLCwsLCwsLCwsLCws=",
    some 150000⟩

/-- The package `encrypt` returns for `[demoRecord 3]` under the passphrase `pw`. -/
def demoGoodPackage : PackageArg :=
  .object ⟨some 1, some "BwcHBwcHBwcHBwcHBwcHBw==", some "CQkJCQkJCQkJCQkJ",
    some "BQsLCwsLCwsLCwsLCwsLCws=", some 150000⟩

/-- Storage as a save of two records leaves it, in a freshly loaded page: memory and trace
are empty. -/
def demoReloadedWorld : World :=
  { (savePasswords demoVault demoEnv demoIv demoSalt demoIv
      { emptyWorld with passwordDatabase := [demoRecord 3, demoRecord 2] }).2 with
    passwordDatabase := []
    log := [] }

/-- JSON text of an export package, as an earlier version of the application would have left
it under the legacy key. -/
def demoLegacyText : String :=
  "\x7b\"version\":1,\"salt\":\"BwcHBwcHBwcHBwcHBwcHBw==\",\"iv\":\"CQkJCQkJCQkJCQkJ\"," ++
    "\"ciphertext\":\"BQsLCwsLCwsLCwsLCwsLCws=\",\"iterations\":150000\x7d"

/-- A page that holds only a legacy entry. -/
def demoLegacyWorld : World :=
  { storage := [(legacyDataKey, demoLegacyText)], passwordDatabase := [], log := [],
    toastInDocument := true }

/-- Identifiers and times handed to the import loop in the demonstration. -/
def demoUid (i : Nat) : String := "uid" ++ toString i

def demoClock (_ : Nat) : String := "2025-06-01T12:00:00.000Z"

/-- An incoming record with the site and username of `demoRecord 3` and another password. -/
def demoColliding : Record :=
  { demoRecord 3 with id := none, password := some "imported", createdAt := none }

/-- An incoming record for a new site that brings neither identifier nor creation time. -/
def demoIncoming : Record :=
  { id := none, site := some "example.org", username := some "ada",
    password := some "tr0ub4dor", createdAt := none, updatedAt := none }

/-- A page whose collection holds `demoRecord 3`. -/
def demoOpenWorld : World := { emptyWorld with passwordDatabase := [demoRecord 3] }

/-- A collection of 65536 records. -/
def demoLargeCollection : List Record := List.replicate 65536 (demoRecord 1)

/-- A page without the toast element in its document, with `demoRecord 3` in memory. -/
def demoBareWorld : World := { demoOpenWorld with toastInDocument := false }

/-! ## Random source and helper functions -/

/-- The random source: `rng i` is the raw value behind the `i`-th coming call of `Math.random()`.
It encodes the double the call returns, `randomSignificand raw / 2 ^ randomExponent raw`. -/
abbrev Rng := Nat → Nat

/-- The random source after one call of `Math.random()`. -/
def Rng.tail (rng : Rng) : Rng := fun i => rng (i + 1)

/-- The significand of the double `Math.random()` returns on the raw value `raw`: an integer below
`2 ^ 53`. -/
def randomSignificand (raw : Nat) : Nat := raw % 2 ^ 53

/-- The binary exponent of that double, which is `randomSignificand raw / 2 ^ randomExponent raw`.
Every double in `[0, 1)` has this form with an exponent from 53 to 1074, so the raw values
range over all results `Math.random()` may have. -/
def randomExponent (raw : Nat) : Nat := 53 + (raw / 2 ^ 53) % 1022

/-- The number of low bits a double drops from the integer `N` to keep 53 significant bits: the
least `s`, from `s` on, with `N < 2 ^ (53 + s)`, looked for in `fuel` steps. -/
def roundingShift (N : Nat) : Nat → Nat → Nat
  | 0, s => s
  | fuel + 1, s => if N < 2 ^ (53 + s) then s else roundingShift N fuel (s + 1)

/-- Rounding of the integer `N` to 53 significant bits, to nearest and ties to even: how an IEEE 754
double operation rounds an exact result whose significand is `N`. -/
def roundToDouble (N : Nat) : Nat :=
  let s := roundingShift N 1024 0
  let q := N / 2 ^ s
  let r := N % 2 ^ s
  if 2 * r > 2 ^ s ∨ (2 * r = 2 ^ s ∧ q % 2 = 1) then (q + 1) * 2 ^ s else q * 2 ^ s

/-- Function `getRandomInt(min, max)`: `Math.floor(Math.random() * (max - min + 1)) + min`, on the
draw `raw`, for integers `min` and `max` of magnitude below `2 ^ 53`. The product is the double
product: the exact product of the draw and the span, rounded to 53 significant bits
(`product / 2 ^ randomExponent raw` in absolute value); `Math.floor` and the additions are
exact on these values. -/
def getRandomInt (min max : Int) (raw : Nat) : Int :=
  let span := max - min + 1
  let product := roundToDouble (randomSignificand raw * span.natAbs)
  let unit := 2 ^ randomExponent raw
  (if 0 ≤ span then ((product / unit : Nat) : Int)
    else -(((product + unit - 1) / unit : Nat) : Int)) + min

/-- Method `String.prototype.charAt`: the character at `index`, the empty string outside the
string. -/
def charAt (s : List Char) (index : Int) : List Char :=
  if index < 0 then []
  else
    match s[index.toNat]? with
    | some c => [c]
    | none => []

/-- The text JavaScript appends for a number in `password += number`; the numbers that occur
are integers. -/
def numberToString (x : Int) : List Char := (toString x).data

/-! ## Password generators -/

/-- The options of `generateRandomPassword` after the defaults of the destructuring (`true`
for an absent option) have been applied. -/
structure RandomOptions where
  uppercase : Bool
  lowercase : Bool
  numbers : Bool
  symbols : Bool
  deriving DecidableEq, Repr

def uppercaseChars : List Char := "ABCDEFGHIJKLMNOPQRSTUVWXYZ".data

def lowercaseChars : List Char := "abcdefghijklmnopqrstuvwxyz".data

def numberChars : List Char := "0123456789".data

def symbolChars : List Char := "!@#$%^&*()()_+-=[]\x7b\x7d|;:,.<>?".data

/-- The `charset` string that `generateRandomPassword` builds from the enabled classes. -/
def buildCharset (options : RandomOptions) : List Char :=
  (if options.uppercase then uppercaseChars else []) ++
    (if options.lowercase then lowercaseChars else []) ++
    (if options.numbers then numberChars else []) ++
    (if options.symbols then symbolChars else [])

/-- The `for` loop of `generateRandomPassword` with `remaining` iterations to go:
`password += charset.charAt(getRandomInt(0, charset.length - 1))`. -/
def randomChars (charset : List Char) : Nat → List Char → Rng → List Char × Rng
  | 0, password, rng => (password, rng)
  | remaining + 1, password, rng =>
    randomChars charset remaining
      (password ++ charAt charset (getRandomInt 0 ((charset.length : Int) - 1) (rng 0)))
      rng.tail

/-- Function `generateRandomPassword(length, options)`; the value comes with the random source
it leaves. `length` is a non-negative integer. -/
def generateRandomPassword (length : Nat) (options : RandomOptions) (rng : Rng) : String × Rng :=
  let charset := buildCharset options
  if charset = [] then ("", rng)
  else
    let r := randomChars charset length [] rng
    (String.mk r.1, r.2)

/-- The options of `generateMemorablePassword` after the defaults (`capitalize = true`,
`addNumbers = false`) have been applied. -/
structure MemorableOptions where
  capitalize : Bool
  addNumbers : Bool
  deriving DecidableEq, Repr

/-- The word list of `generateMemorablePassword`. -/
def words : List String :=
  ["apple", "brave", "chair", "dance", "eagle", "flame", "grape", "house",
   "island", "juice", "knife", "lemon", "magic", "night", "ocean", "piano",
   "queen", "river", "stone", "tiger", "uncle", "voice", "water", "xenon",
   "youth", "zebra", "cloud", "dream", "earth", "frost", "glass", "heart",
   "image", "jewel", "kite", "light", "money", "noise", "peace", "quiet",
   "rain", "snow", "time", "unity", "value", "world", "yacht", "zone"]

/-- The expression `word.charAt(0).toUpperCase() + word.slice(1)`. -/
def capitalizeWord (word : List Char) : List Char :=
  match word with
  | [] => []
  | c :: rest => c.toUpper :: rest

/-- The `for` loop of `generateMemorablePassword` at index `i` with `remaining` iterations to
go. -/
def memorableLoop (wordCount : Nat) (options : MemorableOptions) :
    Nat → Nat → List Char → Rng → List Char × Rng
  | 0, _, password, rng => (password, rng)
  | remaining + 1, i, password, rng =>
    let word := (words.getD (getRandomInt 0 ((words.length : Int) - 1) (rng 0)).toNat "").data
    let word := if options.capitalize && i == 0 then capitalizeWord word else word
    let password := password ++ word
    if options.addNumbers && decide ((i : Int) < (wordCount : Int) - 1) then
      memorableLoop wordCount options remaining (i + 1)
        (password ++ numberToString (getRandomInt 0 9 (rng.tail 0))) rng.tail.tail
    else memorableLoop wordCount options remaining (i + 1) password rng.tail

/-- Function `generateMemorablePassword(wordCount, options)`; `wordCount` is a non-negative
integer. -/
def generateMemorablePassword (wordCount : Nat) (options : MemorableOptions) (rng : Rng) :
    String × Rng :=
  let r := memorableLoop wordCount options wordCount 0 [] rng
  (String.mk r.1, r.2)

/-- The `for` loop of `generatePIN` with `remaining` iterations to go:
`pin += getRandomInt(0, 9)`. -/
def pinLoop : Nat → List Char → Rng → List Char × Rng
  | 0, pin, rng => (pin, rng)
  | remaining + 1, pin, rng =>
    pinLoop remaining (pin ++ numberToString (getRandomInt 0 9 (rng 0))) rng.tail

/-- Function `generatePIN(length)`; `length` is a non-negative integer. -/
def generatePIN (length : Nat) (rng : Rng) : String × Rng :=
  let r := pinLoop length [] rng
  (String.mk r.1, r.2)

/-! ## Uniqueness guard -/

def maxAttempts : Nat := 100

/-- What a run of the uniqueness guard leaves: the value it returns, the final value of its
counter `attempts` (one increment per call of the generator) and the random source. -/
structure GuardRun where
  password : String
  attempts : Nat
  rng : Rng

/-- The `do ... while` loop shared, word for word, by `generateUniquePassword`,
`generateUniqueMemorablePassword` and `generateUniquePIN`, entered with the counter at
`attempts`; `generate` is the call of the underlying generator, `db` is `passwordDatabase`. -/
def uniqueLoop (generate : Rng → String × Rng) (db : List Record) (attempts : Nat) (rng : Rng) :
    GuardRun :=
  let r := generate rng
  let password := r.1
  let attempts1 := attempts + 1
  let existingPassword := db.find? (fun entry => entry.password == some password)
  if existingPassword.isNone || decide (attempts1 ≥ maxAttempts) then
    { password := password, attempts := attempts1, rng := r.2 }
  else if _h : attempts1 < maxAttempts then uniqueLoop generate db attempts1 r.2
  else { password := password, attempts := attempts1, rng := r.2 }
termination_by maxAttempts - attempts
decreasing_by omega

/-- Function `generateUniquePassword(length, options)`. -/
def generateUniquePassword (length : Nat) (options : RandomOptions) (db : List Record)
    (rng : Rng) : GuardRun :=
  uniqueLoop (generateRandomPassword length options) db 0 rng

/-- Function `generateUniqueMemorablePassword(wordCount, options)`. -/
def generateUniqueMemorablePassword (wordCount : Nat) (options : MemorableOptions)
    (db : List Record) (rng : Rng) : GuardRun :=
  uniqueLoop (generateMemorablePassword wordCount options) db 0 rng

/-- Function `generateUniquePIN(length)`. -/
def generateUniquePIN (length : Nat) (db : List Record) (rng : Rng) : GuardRun :=
  uniqueLoop (generatePIN length) db 0 rng

/-- The candidate the generator returns on its call number `i` (from 0), with the random
source it leaves. -/
def candidate (generate : Rng → String × Rng) (rng : Rng) : Nat → String × Rng
  | 0 => generate rng
  | i + 1 => generate (candidate generate rng i).2

/-- A candidate collides when some stored record has it as password. -/
def collides (db : List Record) (password : String) : Bool :=
  db.any (fun entry => entry.password == some password)

/-! ## Password strength -/

/-- The `length` of a JavaScript string: its number of UTF-16 code units, two for a character
above U+FFFF. -/
def jsLength (s : String) : Nat :=
  (s.data.map (fun c => if c.toNat < 65536 then 1 else 2)).sum

/-- The character class `[A-Z]`. -/
def isUpperAZ (c : Char) : Bool := decide (65 ≤ c.toNat ∧ c.toNat ≤ 90)

/-- The character class `[a-z]`. -/
def isLowerAZ (c : Char) : Bool := decide (97 ≤ c.toNat ∧ c.toNat ≤ 122)

/-- The character class `[0-9]`. -/
def isDigit09 (c : Char) : Bool := decide (48 ≤ c.toNat ∧ c.toNat ≤ 57)

/-- The character class `[^A-Za-z0-9]`; it also matches both halves of a character above
U+FFFF. -/
def isSymbol (c : Char) : Bool := !(isUpperAZ c || isLowerAZ c || isDigit09 c)

/-- The object `checks` of `calculateStrength`. -/
structure StrengthChecks where
  length : Bool
  uppercase : Bool
  lowercase : Bool
  numbers : Bool
  symbols : Bool
  variety : Bool
  deriving DecidableEq, Repr

/-- The object `calculateStrength` returns. -/
structure Strength where
  score : Nat
  checks : StrengthChecks
  label : String
  color : String
  deriving DecidableEq, Repr

/-- Function `calculateStrength(password)`; `!password` holds for the empty string. -/
def calculateStrength (password : String) : Strength :=
  if password = "" then
    { score := 0, checks := ⟨false, false, false, false, false, false⟩, label := "None",
      color := "#666" }
  else
    let lengthCheck := decide (jsLength password ≥ 8)
    let score := if lengthCheck then 1 else 0
    let score := if jsLength password ≥ 12 then score + 1 else score
    let uppercase := password.data.any isUpperAZ
    let score := if uppercase then score + 1 else score
    let lowercase := password.data.any isLowerAZ
    let score := if lowercase then score + 1 else score
    let numbers := password.data.any isDigit09
    let score := if numbers then score + 1 else score
    let symbols := password.data.any isSymbol
    let score := if symbols then score + 1 else score
    let variety := uppercase && lowercase && numbers && symbols
    let score := if variety then score + 1 else score
    let labelColor :=
      if score ≤ 2 then ("Very Weak", "#ff4d4d")
      else if score ≤ 4 then ("Weak", "#ff9900")
      else if score ≤ 6 then ("Medium", "#ffcc00")
      else if score ≤ 8 then ("Strong", "#66cc66")
      else ("Very Strong", "#00cc66")
    { score := score, checks := ⟨lengthCheck, uppercase, lowercase, numbers, symbols, variety⟩,
      label := labelColor.1, color := labelColor.2 }

/-! ## Demonstration inputs for the generators -/

/-- A fixed random source for runs of the generators. -/
def demoRng : Rng := fun i => (i + 1) * 1234567890123451

/-- A record that stores `password`. -/
def demoStored (password : String) : Record :=
  { id := none, site := some "example.org", username := some "ada", password := some password,
    createdAt := none, updatedAt := none }

/-- Options that enable digits only. -/
def digitsOnly : RandomOptions := ⟨false, false, true, false⟩

/-- A store that holds every one-digit password. -/
def demoDigitStore : List Record :=
  ["0", "1", "2", "3", "4", "5", "6", "7", "8", "9"].map demoStored

/-! ## Expiration status -/

def msPerDay : Int := 1000 * 3600 * 24

/-- The object `{ status, days }` that `getPasswordExpirationStatus` returns. -/
structure ExpirationStatus where
  status : String
  days : Int
  deriving DecidableEq, Repr

/-- A time zone as a `Date` object sees it, in milliseconds: `offsetAt t` is the offset of local
time from UTC at the instant `t`, `offsetOfLocal l` the offset in force at the local time
`l`. -/
structure Zone where
  offsetAt : Int → Int
  offsetOfLocal : Int → Int

/-- A time zone without offset changes. -/
def fixedZone (tzOffset : Int) : Zone :=
  { offsetAt := fun _ => tzOffset, offsetOfLocal := fun _ => tzOffset }

/-- Model of `date.setDate(date.getDate() + n)` on the time value `t` (milliseconds since the epoch):
in local time the day number moves on by `n` and the time within the day is kept; the result
is converted back with the offset in force at the new local time. -/
def setDateAhead (zone : Zone) (t n : Int) : Int :=
  let localTime := t + zone.offsetAt t
  let newLocalTime := (localTime / msPerDay + n) * msPerDay + localTime % msPerDay
  newLocalTime - zone.offsetOfLocal newLocalTime

/-- Model of `Math.ceil(a / b)` for integers `a` and `b > 0`. -/
def ceilDiv (a b : Int) : Int := -((-a) / b)

/-- Function `getPasswordExpirationStatus(createdDate)`; `created` is the time value of
`new Date(createdDate)`, `now` that of `new Date()`. -/
def getPasswordExpirationStatus (zone : Zone) (created now : Int) : ExpirationStatus :=
  let expirationDate := setDateAhead zone created 30
  let timeDiff := expirationDate - now
  let daysUntilExpiration := ceilDiv timeDiff msPerDay
  if daysUntilExpiration ≤ 0 then
    { status := "expired", days := (daysUntilExpiration.natAbs : Int) }
  else if daysUntilExpiration ≤ 5 then
    { status := "expiring-soon", days := daysUntilExpiration }
  else { status := "valid", days := daysUntilExpiration }

/-- A zone that leaves daylight-saving time as New York does in autumn 2025: four hours behind
UTC until 2025-11-02T06:00:00Z (local 02:00), five hours behind from then on. -/
def demoAutumnZone : Zone :=
  { offsetAt := fun t => if t < 1762063200000 then -14400000 else -18000000
    offsetOfLocal := fun l => if l < 1762048800000 then -14400000 else -18000000 }

/-- The expiration policy in the words of the specification, as a function of the days remaining `d`. -/
def specExpirationStatus (d : Int) : ExpirationStatus :=
  if d ≤ 0 then { status := "expired", days := -d }
  else if 1 ≤ d ∧ d ≤ 5 then { status := "expiring-soon", days := d }
  else { status := "valid", days := d }

/-! ## Vocabulary for the merge properties -/

/-- Two records carry the same (site, username) pair, as `===` on both fields decides it. -/
def sameKey (a b : Record) : Prop := a.site = b.site ∧ a.username = b.username

instance (a b : Record) : Decidable (sameKey a b) := by
  unfold sameKey
  exact inferInstance

/-- No two records of the store carry the same (site, username) pair. -/
def UniqueKeys (db : List Record) : Prop := db.Pairwise (fun a b => ¬ sameKey a b)

instance (db : List Record) : Decidable (UniqueKeys db) := by
  unfold UniqueKeys
  exact inferInstance

/-- An incoming list in which two records share site and username, next to a record that is in
the demonstration store already. -/
def demoBatch : List Record :=
  [demoIncoming, { demoIncoming with password := some "second" }, demoColliding, demoIncoming]

/-! ## Saving one credential (`savePasswordToDatabase`) -/

def passwordUpdatedMessage : String := "Password updated successfully with new expiration date!"

def passwordSavedMessage : String := " Password saved successfully!"

def passwordSaveFailedMessage : String := " Failed to save password!"

/-- The statements of `savePasswordToDatabase` after its `if`: `savePasswords()` and the
notification of its result. `renderTable()` redraws the page and is outside the vault. -/
def saveAndNotify (pf : Platform (List Record)) (env : Env) (localIv salt iv : Bytes) :
    JS Unit := do
  let saveResult ← savePasswords pf env localIv salt iv
  if saveResult then showNotification passwordSavedMessage
  else showNotification passwordSaveFailedMessage

/-- Function `savePasswordToDatabase(site, username, password)`. `confirmed` is the answer `confirm(...)`
returns when the function asks, `freshId` what `generateUniqueId()` returns, `clock k` the
text of the `k`-th `new Date().toISOString()` of the call. -/
def savePasswordToDatabase (pf : Platform (List Record)) (env : Env)
    (site username password : String) (confirmed : Bool) (freshId : String)
    (clock : Nat → String) (localIv salt iv : Bytes) : JS Unit := do
  let db ← getPasswordDatabase
  let existingIndex :=
    findIndex (fun entry => entry.site == some site && entry.username == some username) db
  match existingIndex with
  | some index =>
    if confirmed then do
      setPasswordDatabase
        (db.modify
          (fun existing =>
            { existing with
                site := some site
                username := some username
                password := some password
                createdAt := some (clock 0)
                updatedAt := some (clock 1) })
          index)
      showNotification passwordUpdatedMessage
      saveAndNotify pf env localIv salt iv
    else pure ()
  | none => do
    let passwordEntry : Record :=
      { id := some freshId, site := some site, username := some username,
        password := some password, createdAt := some (clock 0), updatedAt := none }
    setPasswordDatabase (db ++ [passwordEntry])
    saveAndNotify pf env localIv salt iv

/-- A store of three records in which the second and the third carry the same site and
username. -/
def demoThreeWorld : World :=
  { emptyWorld with
    passwordDatabase := [demoRecord 3, demoRecord 2, { demoRecord 2 with id := some "zz" }] }

def demoTicks (k : Nat) : String := "2025-06-01T12:00:00.00" ++ toString k ++ "Z"

/-! ## Vocabulary for the fingerprint key -/

/-- Every character of the string has a code below 256, so `btoa` accepts it. -/
def Latin1 (s : String) : Prop := ∀ c ∈ s.data, c.toNat < 256

instance (s : String) : Decidable (Latin1 s) := by
  unfold Latin1
  exact inferInstance

/-- Another browser on another machine: its user agent shares only the first 24 characters with
that of `demoEnv`; language, platform, screen, time zone and processor count all differ. -/
def demoOtherEnv : Env where
  userAgent := "Mozilla/5.0 (X11; Linux aarch64) AppleWebKit/537.36 Chrome/126.0 Safari/537.36"
  language := "de-DE"
  platform := "Linux aarch64"
  screenWidth := 1366
  screenHeight := 768
  colorDepth := 30
  timezoneOffset := 480
  hardwareConcurrency := none

/-! ## Guarantees of `JSON` for the local package -/

/-- What `JSON.stringify` and `JSON.parse` guarantee for the local package `{iv, data}`: a
package of two arrays of byte values is read back as it was written, and the text written for
an object is never empty. -/
structure Platform.LocalJson {P : Type} (pf : Platform P) : Prop where
  parse_stringify : ∀ iv data : Bytes,
    pf.parseLocal (pf.stringifyLocal { iv := iv.map Fin.val, data := data.map Fin.val })
      = some { iv := iv.map Fin.val, data := data.map Fin.val }
  stringify_ne_empty : ∀ p : LocalPackage, pf.stringifyLocal p ≠ ""

/-! ## Random bytes and tamper evidence -/

/-- Model of `crypto.getRandomValues(new Uint8Array(n))`: an array of `n` bytes filled from the entropy
source of the browser. -/
def getRandomValues (n : Nat) (entropy : Nat → Byte) : Bytes := (List.range n).map entropy

/-- Method `PasswordEncryption.encrypt(data, password)` together with its two draws: 16 bytes of salt first,
then 12 bytes of nonce. -/
def PasswordEncryption.encryptWithEntropy {P : Type} (pf : Platform P) (data : P)
    (password : String) (entropy : Nat → Byte) : JS EncryptedPackage :=
  let salt := getRandomValues 16 entropy
  let iv := getRandomValues 12 (fun i => entropy (i + 16))
  PasswordEncryption.encrypt pf data password salt iv

/-- Tamper evidence of the browser's primitives, for changes of one byte: AES-GCM rejects a
ciphertext (tag included) or a nonce that differs in one byte from the one used to seal, and a
key derived by PBKDF2 from a salt that differs in one byte does not open what the original key
sealed. -/
structure Platform.TamperEvident {P : Type} (pf : Platform P) : Prop where
  ciphertext : ∀ (k iv m ct : Bytes) (i : Nat) (b : Byte), pf.gcmEncrypt k iv m = some ct →
    i < ct.length → ct[i]? ≠ some b → pf.gcmDecrypt k iv (ct.set i b) = none
  nonce : ∀ (k iv m ct : Bytes) (i : Nat) (b : Byte), pf.gcmEncrypt k iv m = some ct →
    i < iv.length → iv[i]? ≠ some b → pf.gcmDecrypt k (iv.set i b) ct = none
  salt : ∀ (password : String) (salt : Bytes) (n : Nat) (k k2 iv m ct : Bytes) (i : Nat)
    (b : Byte), pf.pbkdf2 password salt n = some k → i < salt.length → salt[i]? ≠ some b →
    pf.pbkdf2 password (salt.set i b) n = some k2 → pf.gcmEncrypt k iv m = some ct →
    pf.gcmDecrypt k2 iv ct = none

/-- Key derivation of the sealing browser: 32 equal bytes that depend on the password length, the
iteration count and every byte of the salt. -/
def demoSealKey (password : String) (salt : Bytes) (iterations : Nat) : Option Bytes :=
  if iterations = 0 then none
  else some (List.replicate 32 (toByte (password.length + iterations) + salt.sum))

/-- Tag of the sealing browser: the first key byte, then 15 bytes that sum up nonce and
plaintext. -/
def demoSealTag (key iv plaintext : Bytes) : Bytes :=
  key.headD 0 :: List.replicate 15 (iv.sum + plaintext.sum)

def demoSealEncrypt (key iv plaintext : Bytes) : Option Bytes :=
  some (plaintext.map (fun b => b + key.headD 0) ++ demoSealTag key iv plaintext)

def demoSealDecrypt (key iv ciphertext : Bytes) : Option Bytes :=
  let plaintext := (ciphertext.take (ciphertext.length - 16)).map (fun b => b - key.headD 0)
  if 16 ≤ ciphertext.length ∧
      ciphertext.drop (ciphertext.length - 16) = demoSealTag key iv plaintext then
    some plaintext
  else none

/-- The demonstration browser with a cipher whose tag covers key, nonce and plaintext. -/
def demoSealedVault : Platform (List Record) :=
  { demoVault with
    pbkdf2 := demoSealKey
    gcmEncrypt := demoSealEncrypt
    gcmDecrypt := demoSealDecrypt }

/-- An entropy source for the demonstration. -/
def demoEntropy (i : Nat) : Byte := toByte (37 * i + 11)

/-- An export package written with 100000 iterations. -/
def demoOldPackage : EncryptedPackage :=
  ⟨some 1, some "BwcHBwcHBwcHBwcHBwcHBw==", some "CQkJCQkJCQkJCQkJ",
    some "tbu7u7u7u7u7u7u7u7u7u7s=", some 100000⟩

/-- The package the sealing browser writes for `[demoRecord 3]` under the passphrase `pw` with
the demonstration entropy. -/
def demoSealedPackage : EncryptedPackage :=
  ⟨some 1, some "CzBVep/E6Q4zWH2ix+wRNg==", some "W4Clyu8UOV6DqM3y",
    some "/frR0dHR0dHR0dHR0dHR0dE=", some 150000⟩

/-! ## Base64 round trip -/

theorem b64Value_b64Char : ∀ n, n < 64 → b64Value (b64Char n) = some n := by
  decide

theorem b64Char_not_ws : ∀ n, n < 64 → isAsciiWhitespace (b64Char n) = false := by
  decide

theorem b64Char_ne_eq : ∀ n, n < 64 → b64Char n ≠ '=' := by
  decide

theorem b64Body_lt (bs : Bytes) : ∀ n ∈ b64Body bs, n < 64 := by
  induction bs using b64Body.induct with
  | case1 => simp [b64Body]
  | case2 a => intro n hn; simp [b64Body] at hn; have := a.isLt; omega
  | case3 a b => intro n hn; simp [b64Body] at hn; have := a.isLt; have := b.isLt; omega
  | case4 a b c rest ih =>
    intro n hn
    simp only [b64Body, List.mem_cons] at hn
    have := a.isLt; have := b.isLt; have := c.isLt
    rcases hn with h | h | h | h | h
    · omega
    · omega
    · omega
    · omega
    · exact ih n h

theorem b64Body_length (bs : Bytes) :
    (b64Body bs).length = 4 * (bs.length / 3) + (if bs.length % 3 = 0 then 0 else bs.length % 3 + 1) := by
  induction bs using b64Body.induct with
  | case1 => simp [b64Body]
  | case2 a => simp [b64Body]
  | case3 a b => simp [b64Body]
  | case4 a b c rest ih =>
    simp only [b64Body, List.length_cons, ih]
    have h1 : (rest.length + 1 + 1 + 1) / 3 = rest.length / 3 + 1 := by omega
    have h2 : (rest.length + 1 + 1 + 1) % 3 = rest.length % 3 := by omega
    rw [h1, h2]; omega

theorem b64Unpack_b64Body (bs : Bytes) : b64Unpack (b64Body bs) = bs := by
  induction bs using b64Body.induct with
  | case1 => simp [b64Body, b64Unpack]
  | case2 a =>
    simp only [b64Body, b64Unpack, toByte, List.cons.injEq, and_true]
    apply Fin.ext; simp only; have := a.isLt; omega
  | case3 a b =>
    simp only [b64Body, b64Unpack, toByte, List.cons.injEq, and_true]
    have := a.isLt; have := b.isLt
    refine ⟨Fin.ext ?_, Fin.ext ?_⟩ <;> simp only <;> omega
  | case4 a b c rest ih =>
    simp only [b64Body, b64Unpack, toByte, List.cons.injEq, ih, and_true]
    have := a.isLt; have := b.isLt; have := c.isLt
    refine ⟨Fin.ext ?_, Fin.ext ?_, Fin.ext ?_⟩ <;> simp only <;> omega

theorem stripRev_clean (xs : List Char) (h : ∀ c ∈ xs, c ≠ '=') (k : Nat) (hk : k ≤ 2) :
    stripRev (List.replicate k '=' ++ xs) = xs := by
  have hx : stripRev xs = xs := by
    cases xs with
    | nil => rfl
    | cons x t =>
      have : x ≠ '=' := h x (by simp)
      unfold stripRev
      split
      · simp_all
      · simp_all
      · rfl
  have h1 : stripRev ('=' :: xs) = xs := by
    cases xs with
    | nil => rfl
    | cons x t =>
      have : x ≠ '=' := h x (by simp)
      unfold stripRev
      split
      · simp_all
      · simp_all
      · simp_all
  match k, hk with
  | 0, _ => simpa using hx
  | 1, _ => simpa using h1
  | 2, _ => simp [List.replicate, stripRev]

theorem b64Encode_length (bs : Bytes) : (b64Encode bs).length % 4 = 0 := by
  simp only [b64Encode, b64Pad, List.length_append, List.length_map, List.length_replicate,
    b64Body_length]
  split <;> omega

theorem stripPadding_b64Encode (bs : Bytes) :
    stripPadding (b64Encode bs) = (b64Body bs).map b64Char := by
  unfold stripPadding
  rw [if_pos (b64Encode_length bs)]
  simp only [b64Encode, b64Pad, List.reverse_append, List.reverse_replicate]
  rw [stripRev_clean]
  · simp
  · intro c hc
    simp only [List.mem_reverse, List.mem_map] at hc
    obtain ⟨n, hn, rfl⟩ := hc
    exact b64Char_ne_eq n (b64Body_lt bs n hn)
  · omega

theorem filter_ws_b64Encode (bs : Bytes) :
    (b64Encode bs).filter (fun c => !isAsciiWhitespace c) = b64Encode bs := by
  rw [List.filter_eq_self]
  intro c hc
  simp only [b64Encode, b64Pad, List.mem_append, List.mem_map, List.mem_replicate] at hc
  rcases hc with ⟨n, hn, rfl⟩ | ⟨_, rfl⟩
  · simp [b64Char_not_ws n (b64Body_lt bs n hn)]
  · decide

theorem mapM_b64Value (ns : List Nat) (h : ∀ n ∈ ns, n < 64) :
    b64Values (ns.map b64Char) = some ns := by
  induction ns with
  | nil => rfl
  | cons n t ih =>
    have h1 := b64Value_b64Char n (h n (by simp))
    have h2 := ih (fun m hm => h m (by simp [hm]))
    simp [b64Values, h1, h2]

/-- atob inverts btoa on every byte sequence. -/
theorem b64Decode_b64Encode (bs : Bytes) : b64Decode (b64Encode bs) = some bs := by
  unfold b64Decode
  simp only [filter_ws_b64Encode, stripPadding_b64Encode, List.length_map, b64Body_length]
  rw [if_neg (by split <;> omega), mapM_b64Value _ (b64Body_lt bs)]
  simp [b64Unpack_b64Body]

/-! ## Evaluation rules of the computation type -/

@[simp] theorem js_bind_eq {α β : Type} (m : JS α) (f : α → JS β) : (m >>= f) = JS.bind m f := rfl

@[simp] theorem js_pure_eq {α : Type} (a : α) : (Pure.pure a : JS α) = JS.pure a := rfl

theorem demo_lawful {P : Type} (enc : P → Option Bytes) (dec : Bytes → Option P) :
    (demoPlatform enc dec).Lawful := by
  constructor
  · intro k iv m c h
    simp only [demoPlatform, demoGcmEncrypt, Option.some.injEq] at h
    subst h
    have hl : (demoTag k iv).length = 16 := by simp [demoTag]
    simp only [demoPlatform, demoGcmDecrypt, List.length_append, List.length_map, hl,
      Nat.add_sub_cancel]
    rw [if_pos]
    · have : List.take m.length (List.map (fun b => b + k.headD 0) m ++ demoTag k iv)
          = List.map (fun b => b + k.headD 0) m := by
        rw [List.take_append_of_le_length (by simp)]
        simp
      rw [this]
      simp [List.map_map, Function.comp_def]
    · refine ⟨by omega, ?_⟩
      rw [List.drop_append_of_le_length (by simp)]
      simp
  · intro k iv m c h
    simp only [demoPlatform, demoGcmEncrypt, Option.some.injEq] at h
    subst h
    simp [demoTag]

theorem btoaBytes_ne_empty (bs : Bytes) (h : bs ≠ []) : btoaBytes bs ≠ "" := by
  intro hc
  have hd : (btoaBytes bs).data = [] := by rw [hc]
  have hlen : (b64Body bs).length = 0 := by
    have : (b64Encode bs).length = 0 := by
      simp only [btoaBytes] at hd
      simp [hd]
    simp only [b64Encode, List.length_append, List.length_map] at this
    omega
  rw [b64Body_length] at hlen
  have : bs.length ≠ 0 := fun h0 => h (List.length_eq_zero.mp h0)
  split at hlen <;> omega

theorem atobBytes_btoaBytes (bs : Bytes) (w : World) : atobBytes (btoaBytes bs) w = (.ok bs, w) := by
  simp [atobBytes, btoaBytes, b64Decode_b64Encode, JS.ofOption, JS.pure]

theorem btoaSpread_eq {P : Type} (pf : Platform P) (bs : Bytes) (w : World) :
    btoaSpread pf bs w
      = (if bs.length ≤ pf.argumentLimit then .ok (btoaBytes bs) else .error .rangeError, w) := by
  simp only [btoaSpread]
  split_ifs <;> rfl

/-- The value of `encrypt`, step by step: it returns a package exactly when the key derivation,
the serialization and the cipher succeed and salt, nonce and ciphertext each fit into one
call of `String.fromCharCode`; every failure surfaces as the one encryption error. -/
theorem encrypt_eq {P : Type} (pf : Platform P) (data : P) (password : String)
    (salt iv : Bytes) (w : World) :
    (∃ key b ct, pf.pbkdf2 password salt 150000 = some key ∧ pf.jsonEncode data = some b ∧
      pf.gcmEncrypt key iv b = some ct ∧
      salt.length ≤ pf.argumentLimit ∧ iv.length ≤ pf.argumentLimit ∧
      ct.length ≤ pf.argumentLimit ∧
      PasswordEncryption.encrypt pf data password salt iv w
        = (.ok ⟨some 1, some (btoaBytes salt), some (btoaBytes iv), some (btoaBytes ct),
              some 150000⟩,
            { w with log := w.log ++ [.deriveKey password salt 150000] ++
              [.gcmEncrypt key iv b] })) ∨
    ∃ lg, PasswordEncryption.encrypt pf data password salt iv w
      = (.error (.error encryptFailedMessage), { w with log := lg }) := by
  cases h1 : pf.pbkdf2 password salt 150000 with
  | none =>
    right
    refine ⟨w.log ++ [.deriveKey password salt 150000], ?_⟩
    simp only [PasswordEncryption.encrypt, PasswordEncryption.deriveKey, aesEncrypt,
      JS.tryCatch, JS.bind, js_bind_eq, js_pure_eq, JS.logEvent, JS.ofOption, JS.pure, JS.throw,
      h1]
  | some key =>
    cases h2 : pf.jsonEncode data with
    | none =>
      right
      refine ⟨w.log ++ [.deriveKey password salt 150000], ?_⟩
      simp only [PasswordEncryption.encrypt, PasswordEncryption.deriveKey, aesEncrypt,
        JS.tryCatch, JS.bind, js_bind_eq, js_pure_eq, JS.logEvent, JS.ofOption, JS.pure,
        JS.throw, h1, h2]
    | some b =>
      cases h3 : pf.gcmEncrypt key iv b with
      | none =>
        right
        refine ⟨w.log ++ [.deriveKey password salt 150000] ++ [.gcmEncrypt key iv b], ?_⟩
        simp only [PasswordEncryption.encrypt, PasswordEncryption.deriveKey, aesEncrypt,
          JS.tryCatch, JS.bind, js_bind_eq, js_pure_eq, JS.logEvent, JS.ofOption, JS.pure,
          JS.throw, h1, h2, h3]
      | some ct =>
        by_cases hs : salt.length ≤ pf.argumentLimit
        · by_cases hi : iv.length ≤ pf.argumentLimit
          · by_cases hc : ct.length ≤ pf.argumentLimit
            · left
              refine ⟨key, b, ct, rfl, rfl, h3, hs, hi, hc, ?_⟩
              simp only [PasswordEncryption.encrypt, PasswordEncryption.deriveKey, aesEncrypt,
                JS.tryCatch, JS.bind, js_bind_eq, js_pure_eq, JS.logEvent, JS.ofOption, JS.pure,
                JS.throw, h1, h2, h3, btoaSpread_eq, if_pos hs, if_pos hi, if_pos hc]
            · right
              refine ⟨w.log ++ [.deriveKey password salt 150000] ++ [.gcmEncrypt key iv b], ?_⟩
              simp only [PasswordEncryption.encrypt, PasswordEncryption.deriveKey, aesEncrypt,
                JS.tryCatch, JS.bind, js_bind_eq, js_pure_eq, JS.logEvent, JS.ofOption, JS.pure,
                JS.throw, h1, h2, h3, btoaSpread_eq, if_pos hs, if_pos hi, if_neg hc]
          · right
            refine ⟨w.log ++ [.deriveKey password salt 150000] ++ [.gcmEncrypt key iv b], ?_⟩
            simp only [PasswordEncryption.encrypt, PasswordEncryption.deriveKey, aesEncrypt,
              JS.tryCatch, JS.bind, js_bind_eq, js_pure_eq, JS.logEvent, JS.ofOption, JS.pure,
              JS.throw, h1, h2, h3, btoaSpread_eq, if_pos hs, if_neg hi]
        · right
          refine ⟨w.log ++ [.deriveKey password salt 150000] ++ [.gcmEncrypt key iv b], ?_⟩
          simp only [PasswordEncryption.encrypt, PasswordEncryption.deriveKey, aesEncrypt,
            JS.tryCatch, JS.bind, js_bind_eq, js_pure_eq, JS.logEvent, JS.ofOption, JS.pure,
            JS.throw, h1, h2, h3, btoaSpread_eq, if_neg hs]

/-- Round trip of the export format within the argument limit of the engine: when the browser
derives a key and encrypts and the ciphertext fits into one call of `String.fromCharCode`,
`encrypt` returns a package and `decrypt` of that package under the same passphrase returns
the payload, for every passphrase, every 16-byte salt and 12-byte nonce. -/
theorem encrypt_decrypt_roundtrip {P : Type} (pf : Platform P) (hl : pf.Lawful) (p : P)
    (passphrase : String) (salt iv key b c : Bytes) (w0 w1 : World)
    (hsalt : salt.length = 16) (hiv : iv.length = 12)
    (henc : pf.jsonEncode p = some b) (hdec : pf.jsonDecode b = some p)
    (hkey : pf.pbkdf2 passphrase salt 150000 = some key)
    (hc : pf.gcmEncrypt key iv b = some c) (hlim : c.length ≤ pf.argumentLimit) :
    ∃ pkg, (PasswordEncryption.encrypt pf p passphrase salt iv w0).1 = .ok pkg ∧
      (PasswordEncryption.decrypt pf (.object pkg) passphrase w1).1 = .ok p := by
  have hsalt0 : salt ≠ [] := by intro h; rw [h] at hsalt; simp at hsalt
  have hiv0 : iv ≠ [] := by intro h; rw [h] at hiv; simp at hiv
  have htag := hl.gcm_tag key iv b c hc
  have hc0 : c ≠ [] := by
    intro h
    rw [h] at htag; simp at htag
  refine ⟨⟨some 1, some (btoaBytes salt), some (btoaBytes iv), some (btoaBytes c), some 150000⟩, ?_, ?_⟩
  · rcases encrypt_eq pf p passphrase salt iv w0 with
      ⟨key2, b2, ct2, h1, h2, h3, _, _, _, heq⟩ | ⟨lg, heq⟩
    · rw [hkey] at h1
      rw [henc] at h2
      simp only [Option.some.injEq] at h1 h2
      subst h1 h2
      rw [hc] at h3
      simp only [Option.some.injEq] at h3
      subst h3
      rw [heq]
    · exfalso
      have hs : salt.length ≤ pf.argumentLimit := by omega
      have hi : iv.length ≤ pf.argumentLimit := by omega
      have hok : PasswordEncryption.encrypt pf p passphrase salt iv w0
          = (.ok ⟨some 1, some (btoaBytes salt), some (btoaBytes iv), some (btoaBytes c),
                some 150000⟩,
              { w0 with log := w0.log ++ [.deriveKey passphrase salt 150000] ++
                [.gcmEncrypt key iv b] }) := by
        simp only [PasswordEncryption.encrypt, PasswordEncryption.deriveKey, aesEncrypt,
          JS.tryCatch, JS.bind, js_bind_eq, js_pure_eq, JS.logEvent, JS.ofOption, JS.pure,
          JS.throw, hkey, henc, hc, btoaSpread_eq, if_pos hs, if_pos hi, if_pos hlim]
      rw [hok] at heq
      cases heq
  · simp [PasswordEncryption.decrypt, PasswordEncryption.decryptBody, PackageArg.checked,
      btoaBytes_ne_empty, hsalt0, hiv0, hc0, PasswordEncryption.deriveKey, aesDecrypt,
      JS.tryCatch, JS.bind, JS.pure, JS.logEvent, JS.ofOption, atobBytes_btoaBytes, hkey,
      hl.gcm_open key iv b c hc, hdec]

/-- C1 (code defect). The round trip fails on large payloads: when the ciphertext has more bytes
than the engine accepts arguments in one call, `String.fromCharCode(...bytes)` throws, and
`encrypt` rejects with the encryption error although key derivation, serialization and cipher
all succeeded. No package is returned, so there is nothing to decrypt. -/
theorem encrypt_rejects_large {P : Type} (pf : Platform P) (p : P) (passphrase : String)
    (salt iv key b c : Bytes) (w : World)
    (henc : pf.jsonEncode p = some b)
    (hkey : pf.pbkdf2 passphrase salt 150000 = some key)
    (hc : pf.gcmEncrypt key iv b = some c) (hlim : pf.argumentLimit < c.length) :
    (PasswordEncryption.encrypt pf p passphrase salt iv w).1
        = .error (.error encryptFailedMessage) ∧
      ∀ pkg, (PasswordEncryption.encrypt pf p passphrase salt iv w).1 ≠ .ok pkg := by
  have hval : (PasswordEncryption.encrypt pf p passphrase salt iv w).1
      = .error (.error encryptFailedMessage) := by
    rcases encrypt_eq pf p passphrase salt iv w with
      ⟨key2, b2, ct2, h1, h2, h3, _, _, hfit, _⟩ | ⟨lg, heq⟩
    · exfalso
      rw [hkey] at h1
      rw [henc] at h2
      simp only [Option.some.injEq] at h1 h2
      subst h1 h2
      rw [hc] at h3
      simp only [Option.some.injEq] at h3
      subst h3
      omega
    · rw [heq]
  refine ⟨hval, ?_⟩
  intro pkg hpkg
  rw [hval] at hpkg
  cases hpkg

/-! ## Decryption errors -/

theorem checked_of_absent (p : EncryptedPackage)
    (h : p.version = none ∨ p.salt = none ∨ p.iv = none ∨ p.ciphertext = none ∨
      p.iterations = none) : (PackageArg.object p).checked = none := by
  obtain ⟨v, s, i, c, n⟩ := p
  simp only at h
  rcases h with h | h | h | h | h <;> subst h <;> simp [PackageArg.checked]

theorem decrypt_unchecked {P : Type} (pf : Platform P) (arg : PackageArg) (password : String)
    (w : World) (h : arg.checked = none) :
    PasswordEncryption.decryptBody pf arg password w = (.error (.error invalidFormatMessage), w) ∧
      PasswordEncryption.decrypt (P := P) pf arg password w
        = (.error (.error decryptFailedMessage), w) := by
  simp [PasswordEncryption.decrypt, PasswordEncryption.decryptBody, h, JS.tryCatch, JS.throw]

/-- C2 (code defect). On a package that lacks one of version, salt, iv, ciphertext, iterations
the `try` block of `decrypt` throws the format error before any browser call (the world, trace
included, is unchanged), but the `catch` of `decrypt` replaces it: the caller receives the
generic decryption error, which is a different error. -/
theorem decrypt_absent_field_surfaces_generic {P : Type} (pf : Platform P)
    (p : EncryptedPackage) (password : String) (w : World)
    (h : p.version = none ∨ p.salt = none ∨ p.iv = none ∨ p.ciphertext = none ∨
      p.iterations = none) :
    PasswordEncryption.decryptBody pf (.object p) password w
        = (.error (.error invalidFormatMessage), w) ∧
      PasswordEncryption.decrypt (P := P) pf (.object p) password w
        = (.error (.error decryptFailedMessage), w) ∧
      JsError.error decryptFailedMessage ≠ JsError.error invalidFormatMessage := by
  have := decrypt_unchecked pf (.object p) password w (checked_of_absent p h)
  exact ⟨this.1, this.2, by decide⟩

/-- Run of C2 on a package without `iterations`. -/
theorem decrypt_absent_field_surfaces_generic_witness :
    PasswordEncryption.decryptBody demoVault
        (.object ⟨some 1, some "BwcHBwcHBwcHBwcHBwcHBw==", some "CQkJCQkJCQkJCQkJ",
          some "BQsLCwsLCwsLCwsLCwsLCws=", none⟩) "pw" emptyWorld
        = (.error (.error invalidFormatMessage), emptyWorld) ∧
      PasswordEncryption.decrypt demoVault
        (.object ⟨some 1, some "BwcHBwcHBwcHBwcHBwcHBw==", some "CQkJCQkJCQkJCQkJ",
          some "BQsLCwsLCwsLCwsLCwsLCws=", none⟩) "pw" emptyWorld
        = (.error (.error decryptFailedMessage), emptyWorld) ∧
      JsError.error decryptFailedMessage ≠ JsError.error invalidFormatMessage :=
  decrypt_absent_field_surfaces_generic demoVault _ "pw" emptyWorld
    (Or.inr (Or.inr (Or.inr (Or.inr rfl))))

theorem decrypt_error_generic {P : Type} (pf : Platform P) (arg : PackageArg)
    (password : String) (w : World) (e : JsError)
    (h : (PasswordEncryption.decrypt pf arg password w).1 = .error e) :
    e = .error decryptFailedMessage := by
  unfold PasswordEncryption.decrypt JS.tryCatch at h
  split at h
  · simp at h
  · simp only [JS.throw, Except.error.injEq] at h
    exact h.symm

/-- C3. Any two failing runs of `decrypt` surface the same error value, the generic decryption
error, whatever the browser, the package, the passphrase and the step that failed. -/
theorem decrypt_errors_identical {P : Type} (pf1 pf2 : Platform P) (arg1 arg2 : PackageArg)
    (password1 password2 : String) (w1 w2 : World) (e1 e2 : JsError)
    (h1 : (PasswordEncryption.decrypt pf1 arg1 password1 w1).1 = .error e1)
    (h2 : (PasswordEncryption.decrypt pf2 arg2 password2 w2).1 = .error e2) :
    e1 = e2 ∧ e1 = .error decryptFailedMessage := by
  have a := decrypt_error_generic pf1 arg1 password1 w1 e1 h1
  have b := decrypt_error_generic pf2 arg2 password2 w2 e2 h2
  exact ⟨a.trans b.symm, a⟩

/-- Run of C3: a salt that is not base64 and a wrong passphrase fail inside `decrypt` with
different browser errors and surface the same error. -/
theorem decrypt_errors_identical_witness :
    (PasswordEncryption.decryptBody demoVault demoBadSaltPackage "pw" emptyWorld).1
        = .error .invalidCharacter ∧
      (PasswordEncryption.decryptBody demoVault demoGoodPackage "wrong" emptyWorld).1
        = .error .operationError ∧
      (PasswordEncryption.decrypt demoVault demoGoodPackage "pw" emptyWorld).1
        = .ok [demoRecord 3] ∧
      JsError.error decryptFailedMessage = JsError.error decryptFailedMessage ∧
      JsError.error decryptFailedMessage = JsError.error decryptFailedMessage :=
  ⟨by decide, by decide, by decide,
    decrypt_errors_identical demoVault demoVault demoBadSaltPackage demoGoodPackage "pw" "wrong"
      emptyWorld emptyWorld _ _ (by decide) (by decide)⟩

/-- Run of the round trip in the demonstration browser. -/
theorem encrypt_decrypt_roundtrip_witness :
    demoSalt.length = 16 ∧ demoIv.length = 12 ∧
      ∃ pkg, (PasswordEncryption.encrypt demoVault [demoRecord 3] "pw" demoSalt demoIv
          emptyWorld).1 = .ok pkg ∧
        (PasswordEncryption.decrypt demoVault (.object pkg) "pw" emptyWorld).1
          = .ok [demoRecord 3] :=
  ⟨by decide, by decide,
    encrypt_decrypt_roundtrip demoVault (demo_lawful _ _) [demoRecord 3] "pw" demoSalt demoIv
      (List.replicate 32 (toByte (2 + 16 + 150000))) [toByte 3]
      ([toByte 3].map (fun x => x + toByte (2 + 16 + 150000)) ++
        demoTag (List.replicate 32 (toByte (2 + 16 + 150000))) demoIv)
      emptyWorld emptyWorld (by decide) (by decide) (by decide) (by decide) (by decide)
      (by decide) (by decide)⟩

/-- Run of C1 on a collection of 65536 records in the demonstration browser, whose engine
accepts 65536 arguments: the ciphertext has 65552 bytes and `encrypt` rejects. -/
theorem encrypt_rejects_large_witness :
    demoVault.argumentLimit <
        ((demoLargeCollection.map (fun r => toByte ((r.site.getD "").length))).map
            (fun x => x + (List.replicate 32 (toByte (2 + 16 + 150000))).headD 0) ++
          demoTag (List.replicate 32 (toByte (2 + 16 + 150000))) demoIv).length ∧
      (PasswordEncryption.encrypt demoVault demoLargeCollection "pw" demoSalt demoIv
          emptyWorld).1 = .error (.error encryptFailedMessage) ∧
      ∀ pkg, (PasswordEncryption.encrypt demoVault demoLargeCollection "pw" demoSalt demoIv
          emptyWorld).1 ≠ .ok pkg :=
  ⟨by
      simp only [List.length_append, List.length_map, demoLargeCollection,
        List.length_replicate, demoTag, demoVault, demoPlatform]
      decide,
    encrypt_rejects_large demoVault demoLargeCollection "pw" demoSalt demoIv
      (List.replicate 32 (toByte (2 + 16 + 150000)))
      (demoLargeCollection.map (fun r => toByte ((r.site.getD "").length)))
      ((demoLargeCollection.map (fun r => toByte ((r.site.getD "").length))).map
          (fun x => x + (List.replicate 32 (toByte (2 + 16 + 150000))).headD 0) ++
        demoTag (List.replicate 32 (toByte (2 + 16 + 150000))) demoIv)
      emptyWorld rfl (by decide) rfl
      (by
        simp only [List.length_append, List.length_map, demoLargeCollection,
          List.length_replicate, demoTag, demoVault, demoPlatform]
        decide)⟩

/-! ## Saving -/

theorem savePasswordDatabase_total (pf : Platform (List Record)) (env : Env) (iv : Bytes)
    (w : World) : ∃ b w1, savePasswordDatabase pf env iv w = (.ok b, w1) := by
  unfold savePasswordDatabase JS.tryCatch
  split
  · exact ⟨_, _, rfl⟩
  · exact ⟨false, _, rfl⟩

/-! ## Loading -/

theorem generateLocalStorageKey_frame (env : Env) (w : World) :
    ∃ r, generateLocalStorageKey env w = (r, w) := by
  simp only [generateLocalStorageKey, btoa, JS.bind, js_bind_eq, js_pure_eq]
  split_ifs
  · exact ⟨_, rfl⟩
  · exact ⟨_, rfl⟩

theorem importKey_eq (k : Bytes) (w : World) :
    importKey k w =
      (if k.length = 16 ∨ k.length = 24 ∨ k.length = 32 then .ok k else .error .dataError,
        { w with log := w.log ++ [.importKey k] }) := by
  simp only [importKey, JS.bind, js_bind_eq, JS.logEvent]
  split_ifs <;> rfl

theorem aesDecrypt_eq {P : Type} (pf : Platform P) (k iv c : Bytes) (w : World) :
    aesDecrypt pf k iv c w =
      (match pf.gcmDecrypt k iv c with
        | some d => .ok d
        | none => .error .operationError,
        { w with log := w.log ++ [.gcmDecrypt k iv c] }) := by
  simp only [aesDecrypt, JS.bind, js_bind_eq, JS.logEvent, JS.ofOption]
  cases pf.gcmDecrypt k iv c <;> rfl

theorem decryptFromLocalStorage_spec {P : Type} (pf : Platform P) (env : Env)
    (pkg : LocalPackage) (w : World) :
    ∃ r lg, decryptFromLocalStorage pf env pkg w = (r, { w with log := lg }) ∧
      ∀ p, r = .ok p → ∃ k, lg = w.log ++ [.importKey k, .gcmDecrypt k (pkg.iv.map toByte)
        (pkg.data.map toByte)] := by
  obtain ⟨rk, hk⟩ := generateLocalStorageKey_frame env w
  cases rk with
  | error e =>
    refine ⟨.error (.error localDecryptFailedMessage), w.log, ?_, by simp⟩
    simp only [decryptFromLocalStorage, JS.tryCatch, JS.bind, js_bind_eq, hk, JS.throw]
  | ok ks =>
    generalize hkd : utf8Encode ks = kd
    by_cases hlen : kd.length = 16 ∨ kd.length = 24 ∨ kd.length = 32
    · cases hd : pf.gcmDecrypt kd (pkg.iv.map toByte) (pkg.data.map toByte) with
      | none =>
        refine ⟨.error (.error localDecryptFailedMessage),
          w.log ++ [.importKey kd] ++ [.gcmDecrypt kd (pkg.iv.map toByte) (pkg.data.map toByte)],
          ?_, by simp⟩
        simp only [decryptFromLocalStorage, JS.tryCatch, JS.bind, js_bind_eq, hk, hkd,
          importKey_eq, aesDecrypt_eq, if_pos hlen, hd, JS.throw]
      | some d =>
        cases hj : pf.jsonDecode d with
        | none =>
          refine ⟨.error (.error localDecryptFailedMessage),
            w.log ++ [.importKey kd] ++ [.gcmDecrypt kd (pkg.iv.map toByte) (pkg.data.map toByte)],
            ?_, by simp⟩
          simp only [decryptFromLocalStorage, JS.tryCatch, JS.bind, js_bind_eq, hk, hkd,
            importKey_eq, aesDecrypt_eq, if_pos hlen, hd, hj, JS.ofOption, JS.throw]
        | some p =>
          refine ⟨.ok p,
            w.log ++ [.importKey kd] ++ [.gcmDecrypt kd (pkg.iv.map toByte) (pkg.data.map toByte)],
            ?_, fun _ _ => ⟨kd, by simp⟩⟩
          simp only [decryptFromLocalStorage, JS.tryCatch, JS.bind, js_bind_eq, hk, hkd,
            importKey_eq, aesDecrypt_eq, if_pos hlen, hd, hj, JS.ofOption, JS.pure]
    · refine ⟨.error (.error localDecryptFailedMessage), w.log ++ [.importKey kd], ?_, by simp⟩
      simp only [decryptFromLocalStorage, JS.tryCatch, JS.bind, js_bind_eq, hk, hkd,
        importKey_eq, if_neg hlen, JS.throw]

theorem getItem_eq {P : Type} (pf : Platform P) (key : String) (w : World) :
    getItem pf key w =
      (if pf.storageDenied then .error .securityError else .ok (w.storage.get key),
        { w with log := w.log ++ [.getItem key] }) := by
  simp only [getItem, JS.bind, js_bind_eq, JS.logEvent]
  split_ifs <;> rfl

/-- What the `try` block of `loadPasswordDatabase` does: it only extends the trace; a
non-empty result comes with exactly one read of the local entry, one key import and one
decryption; a missing or empty local entry gives the empty list. -/
theorem loadPasswordDatabaseBody_spec (pf : Platform (List Record)) (env : Env) (w : World) :
    ∃ r lg, loadPasswordDatabaseBody pf env w = (r, { w with log := lg }) ∧
      (∀ L, r = .ok L → L ≠ [] → ∃ k iv d,
        lg = w.log ++ [.getItem localDataKey, .importKey k, .gcmDecrypt k iv d]) ∧
      (w.storage.get localDataKey = none ∨ w.storage.get localDataKey = some "" →
        r = .ok [] ∨ r = .error .securityError) := by
  by_cases hden : pf.storageDenied = true
  · refine ⟨.error .securityError, w.log ++ [.getItem localDataKey], ?_, by simp, by simp⟩
    simp only [loadPasswordDatabaseBody, JS.bind, js_bind_eq, getItem_eq, if_pos hden]
  · cases hget : w.storage.get localDataKey with
    | none =>
      refine ⟨.ok [], w.log ++ [.getItem localDataKey], ?_, by simp, by simp⟩
      simp only [loadPasswordDatabaseBody, JS.bind, js_bind_eq, js_pure_eq, getItem_eq,
        if_neg hden, hget, JS.pure]
    | some text =>
      by_cases htext : text = ""
      · refine ⟨.ok [], w.log ++ [.getItem localDataKey], ?_, by simp, by simp⟩
        simp only [loadPasswordDatabaseBody, JS.bind, js_bind_eq, js_pure_eq, getItem_eq,
          if_neg hden, hget, htext, JS.pure, ne_eq, not_true_eq_false, if_false]
      · cases hparse : pf.parseLocal text with
        | none =>
          refine ⟨.error .syntaxError, w.log ++ [.getItem localDataKey], ?_, by simp,
            by simp [htext]⟩
          simp only [loadPasswordDatabaseBody, JS.bind, js_bind_eq, js_pure_eq, getItem_eq,
            if_neg hden, hget, ne_eq, htext, not_false_eq_true, if_true, hparse, JS.ofOption,
            JS.throw]
        | some pkg =>
          obtain ⟨r, lg, hdec, hlg⟩ := decryptFromLocalStorage_spec pf env pkg
            { w with log := w.log ++ [.getItem localDataKey] }
          refine ⟨r, lg, ?_, ?_, by simp [htext]⟩
          · simp only [loadPasswordDatabaseBody, JS.bind, js_bind_eq, js_pure_eq, getItem_eq,
              if_neg hden, hget, ne_eq, htext, not_false_eq_true, if_true, hparse, JS.ofOption,
              JS.pure, hdec]
          · intro L hL _
            obtain ⟨k, hk⟩ := hlg L hL
            exact ⟨k, pkg.iv.map toByte, pkg.data.map toByte, by simp [hk]⟩

theorem loadPasswordDatabase_eq (pf : Platform (List Record)) (env : Env) (w : World) :
    loadPasswordDatabase pf env w =
      (.ok (match (loadPasswordDatabaseBody pf env w).1 with
        | .ok L => L
        | .error _ => []), (loadPasswordDatabaseBody pf env w).2) := by
  simp only [loadPasswordDatabase, JS.tryCatch]
  rcases loadPasswordDatabaseBody pf env w with ⟨r, w1⟩
  cases r <;> rfl

theorem decrypt_text {P : Type} (pf : Platform P) (text password : String) (w : World) :
    PasswordEncryption.decrypt (P := P) pf (.text text) password w
      = (.error (.error decryptFailedMessage), w) :=
  (decrypt_unchecked pf (.text text) password w rfl).2

/-- What `initDatabase` does: it never throws, leaves storage as it was, and leaves in
`passwordDatabase` the list the `try` block of `loadPasswordDatabase` produced (the empty list
when that block threw). When that list is non-empty the trace is the one of the load. -/
theorem initDatabase_spec (pf : Platform (List Record)) (env : Env) (iv : Bytes) (w : World) :
    ∃ lg, initDatabase pf env iv w =
        (.ok (), { storage := w.storage,
                   passwordDatabase :=
                    (match (loadPasswordDatabaseBody pf env w).1 with
                      | .ok L => L
                      | .error _ => []),
                   log := lg,
                   toastInDocument := w.toastInDocument }) ∧
      ((match (loadPasswordDatabaseBody pf env w).1 with
          | .ok L => L
          | .error _ => []) ≠ [] → lg = (loadPasswordDatabaseBody pf env w).2.log) := by
  obtain ⟨r, lg, hbody, -, -⟩ := loadPasswordDatabaseBody_spec pf env w
  simp only [initDatabase, JS.tryCatch, JS.bind, js_bind_eq, js_pure_eq,
    loadPasswordDatabase_eq, hbody]
  generalize hL : (match r with
    | .ok L => L
    | .error _ => ([] : List Record)) = L
  by_cases hlen : L.length > 0
  · refine ⟨lg, ?_, fun _ => rfl⟩
    simp only [if_pos hlen, setPasswordDatabase]
  · have hnil : L = [] := by
      cases L with
      | nil => rfl
      | cons a t => simp at hlen
    subst hnil
    refine ⟨lg ++ [.getItem legacyDataKey], ?_, by simp⟩
    simp only [if_neg hlen, getItem_eq, JS.bind]
    by_cases hden : pf.storageDenied = true
    · simp only [if_pos hden, setPasswordDatabase]
    · cases hget : w.storage.get legacyDataKey with
      | none => simp only [if_neg hden, hget, setPasswordDatabase]
      | some text =>
        by_cases htext : text = ""
        · simp only [if_neg hden, hget, htext, ne_eq, not_true_eq_false, if_false,
            setPasswordDatabase]
        · simp only [if_neg hden, hget, ne_eq, htext, not_false_eq_true, if_true, decrypt_text,
            JS.bind, setPasswordDatabase]

/-- C5 (code defect). With no local entry, or an empty one, `initDatabase` ends with an empty
`passwordDatabase` and an unchanged storage whatever the legacy entry holds: the stored string
is handed to `decrypt` unparsed, fails its shape check, and the migration write is never
reached. -/
theorem initDatabase_legacy_not_migrated (pf : Platform (List Record)) (env : Env) (iv : Bytes)
    (w : World)
    (hlocal : w.storage.get localDataKey = none ∨ w.storage.get localDataKey = some "") :
    (initDatabase pf env iv w).2.passwordDatabase = [] ∧
      (initDatabase pf env iv w).2.storage = w.storage := by
  obtain ⟨lg, hinit, -⟩ := initDatabase_spec pf env iv w
  obtain ⟨r, lg1, hbody, -, hempty⟩ := loadPasswordDatabaseBody_spec pf env w
  rw [hinit, hbody]
  rcases hempty hlocal with h | h <;> subst h <;> exact ⟨rfl, rfl⟩

/-- Run of C5 on a page that holds only a legacy entry. -/
theorem initDatabase_legacy_not_migrated_witness :
    demoLegacyWorld.storage.get legacyDataKey = some demoLegacyText ∧
      demoLegacyWorld.storage.get localDataKey = none ∧
      (initDatabase demoVault demoEnv demoIv demoLegacyWorld).2.passwordDatabase = [] ∧
      (initDatabase demoVault demoEnv demoIv demoLegacyWorld).2.storage
        = demoLegacyWorld.storage :=
  ⟨by decide, by decide,
    initDatabase_legacy_not_migrated demoVault demoEnv demoIv demoLegacyWorld
      (Or.inl (by decide))⟩

/-- C7. `initDatabase` never throws, and the collection it leaves is what the `try` block of
`loadPasswordDatabase` produced from the local entry: the empty list whenever that block threw
(storage access, parsing or decryption failed) or found nothing, whatever the legacy entry
holds. -/
theorem initDatabase_never_throws (pf : Platform (List Record)) (env : Env) (iv : Bytes)
    (w : World) :
    (initDatabase pf env iv w).1 = .ok () ∧
      (initDatabase pf env iv w).2.passwordDatabase =
        (match (loadPasswordDatabaseBody pf env w).1 with
          | .ok L => L
          | .error _ => []) := by
  obtain ⟨lg, hinit, -⟩ := initDatabase_spec pf env iv w
  rw [hinit]
  exact ⟨rfl, rfl⟩

/-- C8. When the local entry decrypts to a non-empty list `L`, `initDatabase` sets
`passwordDatabase` to `L`, leaves storage untouched, and its only browser calls are the read
of the local entry, the import of the fingerprint key and one decryption: the legacy key is
not read, no key is derived and nothing is stored. -/
theorem initDatabase_local_first (pf : Platform (List Record)) (env : Env) (iv : Bytes)
    (w : World) (L : List Record)
    (hload : (loadPasswordDatabase pf env w).1 = .ok L) (hL : L ≠ []) :
    ∃ k nonce d, initDatabase pf env iv w =
      (.ok (), { storage := w.storage, passwordDatabase := L,
                 log := w.log ++ [.getItem localDataKey, .importKey k, .gcmDecrypt k nonce d],
                 toastInDocument := w.toastInDocument }) := by
  obtain ⟨lg, hinit, hlog⟩ := initDatabase_spec pf env iv w
  obtain ⟨r, lg1, hbody, htrace, -⟩ := loadPasswordDatabaseBody_spec pf env w
  rw [loadPasswordDatabase_eq, hbody] at hload
  rw [hbody] at hinit hlog
  simp only [Except.ok.injEq] at hload
  rw [hload] at hinit hlog
  cases r with
  | error e => exact absurd hload.symm hL
  | ok L1 =>
    simp only at hload
    subst hload
    obtain ⟨k, nonce, d, hk⟩ := htrace L1 rfl hL
    refine ⟨k, nonce, d, ?_⟩
    rw [hinit, hlog hL, hk]

/-- Run of C8 on a reloaded page whose legacy key holds what a save left there. -/
theorem initDatabase_local_first_witness :
    (loadPasswordDatabase demoVault demoEnv demoReloadedWorld).1
        = .ok [demoRecord 3, demoRecord 2] ∧
      demoReloadedWorld.storage.get legacyDataKey = some "[object Object]" ∧
      ∃ k nonce d, initDatabase demoVault demoEnv demoIv demoReloadedWorld =
        (.ok (), { storage := demoReloadedWorld.storage
                   passwordDatabase := [demoRecord 3, demoRecord 2]
                   log := demoReloadedWorld.log ++
                    [.getItem localDataKey, .importKey k, .gcmDecrypt k nonce d]
                   toastInDocument := demoReloadedWorld.toastInDocument }) :=
  ⟨by decide, by decide,
    initDatabase_local_first demoVault demoEnv demoIv demoReloadedWorld
      [demoRecord 3, demoRecord 2] (by decide) (by decide)⟩

/-! ## The legacy entry written by a save -/

theorem Storage.get_set (st : Storage) (key value : String) :
    (Storage.set st key value).get key = some value := by
  simp [Storage.get, Storage.set]

theorem encrypt_frame {P : Type} (pf : Platform P) (data : P) (password : String)
    (salt iv : Bytes) (w : World) :
    ∃ r lg, PasswordEncryption.encrypt pf data password salt iv w = (r, { w with log := lg }) := by
  rcases encrypt_eq pf data password salt iv w with
    ⟨key, b, ct, _, _, _, _, _, _, heq⟩ | ⟨lg, heq⟩
  · exact ⟨_, _, heq⟩
  · exact ⟨_, lg, heq⟩

theorem setItem_ok {P : Type} (pf : Platform P) (key value : String) (w w2 : World)
    (h : setItem pf key value w = (.ok (), w2)) : w2.storage = w.storage.set key value := by
  simp only [setItem, JS.bind, js_bind_eq, JS.logEvent] at h
  by_cases h1 : pf.storageDenied = true
  · simp [h1, JS.throw] at h
  · by_cases h2 : pf.quotaExceeded w.storage key value = true
    · simp [h1, h2] at h
    · simp only [h1, h2, if_false, Bool.false_eq_true, Prod.mk.injEq, true_and] at h
      rw [← h]

theorem legacyWrite_ok (pf : Platform (List Record)) (salt iv : Bytes) (w w2 : World)
    (h : legacyWrite pf salt iv w = (.ok (), w2)) :
    w2.storage.get legacyDataKey = some "[object Object]" := by
  obtain ⟨r, lg, henc⟩ := encrypt_frame pf w.passwordDatabase ENCRYPTION_KEY salt iv w
  simp only [legacyWrite, JS.bind, js_bind_eq, getPasswordDatabase, henc] at h
  cases r with
  | error e => simp at h
  | ok pkg =>
    simp only at h
    rw [setItem_ok pf _ _ _ _ h, objectToString, Storage.get_set]

theorem showNotification_eq (message : String) (w : World) :
    showNotification message w =
      if w.toastInDocument then (.ok (), { w with log := w.log ++ [.showNotification message] })
      else (.error .typeError, { w with toastInDocument := true }) := rfl

/-- The value of `savePasswords` from the outcomes of its two writes. A notification that finds
no toast element throws; thrown inside the `try` it leads to the `catch`, whose own
notification then finds the element the first call appended. -/
theorem savePasswords_eq (pf : Platform (List Record)) (env : Env) (localIv salt iv : Bytes)
    (w w1 w2 : World) (b : Bool) (r : Except JsError Unit)
    (hsave : savePasswordDatabase pf env localIv w = (.ok b, w1))
    (hl : legacyWrite pf salt iv w1 = (r, w2)) :
    savePasswords pf env localIv salt iv w =
      match r, b with
      | .ok _, true => (.ok true, w2)
      | .ok _, false =>
        if w2.toastInDocument then
          (.ok false, { w2 with log := w2.log ++ [.showNotification saveFailedSecureMessage] })
        else
          (.ok false, { w2 with log := w2.log ++ [.showNotification saveFailedMessage],
                                toastInDocument := true })
      | .error _, _ =>
        if w2.toastInDocument then
          (.ok false, { w2 with log := w2.log ++ [.showNotification saveFailedMessage] })
        else (.error .typeError, { w2 with toastInDocument := true }) := by
  simp only [savePasswords, JS.tryCatch, JS.bind, js_bind_eq, js_pure_eq, hsave, hl]
  cases r <;> cases b <;> by_cases ht : w2.toastInDocument = true <;>
    simp [JS.bind, JS.pure, showNotification_eq, ht]

/-- C6 (code defect). After every `savePasswords` that returns `true`, the value stored under
`encryptedPasswords` is the text `[object Object]`: `setItem` is given the package object
itself, not its JSON text. -/
theorem savePasswords_stores_object_text (pf : Platform (List Record)) (env : Env)
    (localIv salt iv : Bytes) (w : World)
    (h : (savePasswords pf env localIv salt iv w).1 = .ok true) :
    (savePasswords pf env localIv salt iv w).2.storage.get legacyDataKey
      = some "[object Object]" := by
  obtain ⟨b, w1, hsave⟩ := savePasswordDatabase_total pf env localIv w
  rcases hl : legacyWrite pf salt iv w1 with ⟨r, w2⟩
  rw [savePasswords_eq pf env localIv salt iv w w1 w2 b r hsave hl] at h ⊢
  cases r with
  | error e =>
    simp only at h
    split_ifs at h
    all_goals simp at h
  | ok u =>
    cases b with
    | false =>
      simp only at h
      split_ifs at h
      all_goals simp at h
    | true => exact legacyWrite_ok pf salt iv w1 w2 hl

/-- Run of C6: a successful save of one record. -/
theorem savePasswords_stores_object_text_witness :
    (savePasswords demoVault demoEnv demoIv demoSalt demoIv
        { emptyWorld with passwordDatabase := [demoRecord 3] }).1 = .ok true ∧
      (savePasswords demoVault demoEnv demoIv demoSalt demoIv
        { emptyWorld with passwordDatabase := [demoRecord 3] }).2.storage.get legacyDataKey
        = some "[object Object]" :=
  ⟨by decide,
    savePasswords_stores_object_text demoVault demoEnv demoIv demoSalt demoIv
      { emptyWorld with passwordDatabase := [demoRecord 3] } (by decide)⟩

/-! ## Import merge -/

theorem encryptForLocalStorage_frame {P : Type} (pf : Platform P) (env : Env) (data : P)
    (iv : Bytes) (w : World) :
    ∃ r lg, encryptForLocalStorage pf env data iv w = (r, { w with log := lg }) := by
  obtain ⟨rk, hk⟩ := generateLocalStorageKey_frame env w
  cases rk with
  | error e =>
    simp only [encryptForLocalStorage, JS.tryCatch, JS.bind, js_bind_eq, hk, JS.throw]
    exact ⟨_, w.log, rfl⟩
  | ok ks =>
    generalize hkd : utf8Encode ks = kd
    by_cases hlen : kd.length = 16 ∨ kd.length = 24 ∨ kd.length = 32
    · cases h2 : pf.jsonEncode data with
      | none =>
        simp only [encryptForLocalStorage, JS.tryCatch, JS.bind, js_bind_eq, js_pure_eq, hk, hkd,
          importKey_eq, if_pos hlen, h2, JS.ofOption, JS.throw]
        exact ⟨_, _, rfl⟩
      | some b =>
        cases h3 : pf.gcmEncrypt kd iv b with
        | none =>
          simp only [encryptForLocalStorage, aesEncrypt, JS.tryCatch, JS.bind, js_bind_eq,
            js_pure_eq, hk, hkd, importKey_eq, if_pos hlen, h2, h3, JS.ofOption, JS.logEvent,
            JS.pure, JS.throw]
          exact ⟨_, _, rfl⟩
        | some c =>
          simp only [encryptForLocalStorage, aesEncrypt, JS.tryCatch, JS.bind, js_bind_eq,
            js_pure_eq, hk, hkd, importKey_eq, if_pos hlen, h2, h3, JS.ofOption, JS.logEvent,
            JS.pure, JS.throw]
          exact ⟨_, _, rfl⟩
    · simp only [encryptForLocalStorage, JS.tryCatch, JS.bind, js_bind_eq, hk, hkd,
        importKey_eq, if_neg hlen, JS.throw]
      exact ⟨_, _, rfl⟩

theorem setItem_passwordDatabase {P : Type} (pf : Platform P) (key value : String) (w : World) :
    (setItem pf key value w).2.passwordDatabase = w.passwordDatabase := by
  simp only [setItem, JS.bind, js_bind_eq, JS.logEvent]
  by_cases h1 : pf.storageDenied = true
  · simp [h1, JS.throw]
  · by_cases h2 : pf.quotaExceeded w.storage key value = true
    · simp [h1, h2]
    · simp [h1, h2]

theorem savePasswordDatabase_passwordDatabase (pf : Platform (List Record)) (env : Env)
    (iv : Bytes) (w : World) :
    (savePasswordDatabase pf env iv w).2.passwordDatabase = w.passwordDatabase := by
  obtain ⟨r, lg, henc⟩ := encryptForLocalStorage_frame pf env w.passwordDatabase iv w
  cases r with
  | error e =>
    simp only [savePasswordDatabase, JS.tryCatch, JS.bind, js_bind_eq, js_pure_eq,
      getPasswordDatabase, henc, JS.pure]
  | ok pkg =>
    have hs := setItem_passwordDatabase pf localDataKey (pf.stringifyLocal pkg)
      { w with log := lg }
    rcases hset : setItem pf localDataKey (pf.stringifyLocal pkg) { w with log := lg }
      with ⟨r2, w2⟩
    rw [hset] at hs
    simp only [savePasswordDatabase, JS.tryCatch, JS.bind, js_bind_eq, js_pure_eq,
      getPasswordDatabase, henc, hset, JS.pure]
    cases r2 <;> exact hs

theorem legacyWrite_passwordDatabase (pf : Platform (List Record)) (salt iv : Bytes)
    (w : World) : (legacyWrite pf salt iv w).2.passwordDatabase = w.passwordDatabase := by
  obtain ⟨r, lg, henc⟩ := encrypt_frame pf w.passwordDatabase ENCRYPTION_KEY salt iv w
  cases r with
  | error e => simp only [legacyWrite, JS.bind, js_bind_eq, getPasswordDatabase, henc]
  | ok pkg =>
    simp only [legacyWrite, JS.bind, js_bind_eq, getPasswordDatabase, henc]
    exact setItem_passwordDatabase pf legacyDataKey (objectToString pkg) _

theorem savePasswords_passwordDatabase (pf : Platform (List Record)) (env : Env)
    (localIv salt iv : Bytes) (w : World) :
    (savePasswords pf env localIv salt iv w).2.passwordDatabase = w.passwordDatabase := by
  obtain ⟨b, w1, hsave⟩ := savePasswordDatabase_total pf env localIv w
  rcases hl : legacyWrite pf salt iv w1 with ⟨r, w2⟩
  have h1 := savePasswordDatabase_passwordDatabase pf env localIv w
  have h2 := legacyWrite_passwordDatabase pf salt iv w1
  rw [hsave] at h1
  rw [hl] at h2
  simp only at h1 h2
  rw [savePasswords_eq pf env localIv salt iv w w1 w2 b r hsave hl]
  cases r <;> cases b <;> by_cases ht : w2.toastInDocument = true <;> simp [h1, h2, ht]

theorem setItem_toast {P : Type} (pf : Platform P) (key value : String) (w : World) :
    (setItem pf key value w).2.toastInDocument = w.toastInDocument := by
  simp only [setItem, JS.bind, js_bind_eq, JS.logEvent]
  by_cases h1 : pf.storageDenied = true
  · simp [h1, JS.throw]
  · by_cases h2 : pf.quotaExceeded w.storage key value = true
    · simp [h1, h2]
    · simp [h1, h2]

theorem savePasswordDatabase_toast (pf : Platform (List Record)) (env : Env)
    (iv : Bytes) (w : World) :
    (savePasswordDatabase pf env iv w).2.toastInDocument = w.toastInDocument := by
  obtain ⟨r, lg, henc⟩ := encryptForLocalStorage_frame pf env w.passwordDatabase iv w
  cases r with
  | error e =>
    simp only [savePasswordDatabase, JS.tryCatch, JS.bind, js_bind_eq, js_pure_eq,
      getPasswordDatabase, henc, JS.pure]
  | ok pkg =>
    have hs := setItem_toast pf localDataKey (pf.stringifyLocal pkg) { w with log := lg }
    rcases hset : setItem pf localDataKey (pf.stringifyLocal pkg) { w with log := lg }
      with ⟨r2, w2⟩
    rw [hset] at hs
    simp only [savePasswordDatabase, JS.tryCatch, JS.bind, js_bind_eq, js_pure_eq,
      getPasswordDatabase, henc, hset, JS.pure]
    cases r2 <;> exact hs

theorem legacyWrite_toast (pf : Platform (List Record)) (salt iv : Bytes)
    (w : World) : (legacyWrite pf salt iv w).2.toastInDocument = w.toastInDocument := by
  obtain ⟨r, lg, henc⟩ := encrypt_frame pf w.passwordDatabase ENCRYPTION_KEY salt iv w
  cases r with
  | error e => simp only [legacyWrite, JS.bind, js_bind_eq, getPasswordDatabase, henc]
  | ok pkg =>
    simp only [legacyWrite, JS.bind, js_bind_eq, getPasswordDatabase, henc]
    exact setItem_toast pf legacyDataKey (objectToString pkg) _

/-! ## The value `savePasswords` returns -/

/-- C4 (as amended). On a page whose document holds the notification toast element, the value
`savePasswords` returns is `true` exactly when the primary write returned `true` and the
legacy write (encrypt and `setItem`) completed without throwing, and `false` otherwise:
whenever the primary write returned `false`, also when the legacy write succeeded, and
whenever the legacy write threw, also when the primary write succeeded. -/
theorem savePasswords_result (pf : Platform (List Record)) (env : Env)
    (localIv salt iv : Bytes) (w : World) (htoast : w.toastInDocument = true) :
    (savePasswords pf env localIv salt iv w).1 =
      .ok (decide ((savePasswordDatabase pf env localIv w).1 = .ok true ∧
        (legacyWrite pf salt iv (savePasswordDatabase pf env localIv w).2).1 = .ok ())) := by
  obtain ⟨b, w1, hsave⟩ := savePasswordDatabase_total pf env localIv w
  rcases hl : legacyWrite pf salt iv w1 with ⟨r, w2⟩
  have h1 := savePasswordDatabase_toast pf env localIv w
  have h2 := legacyWrite_toast pf salt iv w1
  rw [hsave] at h1
  rw [hl] at h2
  simp only at h1 h2
  have ht : w2.toastInDocument = true := by rw [h2, h1, htoast]
  have hval := savePasswords_eq pf env localIv salt iv w w1 w2 b r hsave hl
  simp only [hval, hsave, hl]
  cases r <;> cases b <;> simp [ht]

/-- Run of C4 (as amended): with both writes succeeding the value is `true`. -/
theorem savePasswords_result_witness :
    demoOpenWorld.toastInDocument = true ∧
      (savePasswords demoVault demoEnv demoIv demoSalt demoIv demoOpenWorld).1 = .ok true ∧
      (savePasswords demoVault demoEnv demoIv demoSalt demoIv demoOpenWorld).1 =
        .ok (decide ((savePasswordDatabase demoVault demoEnv demoIv demoOpenWorld).1
            = .ok true ∧
          (legacyWrite demoVault demoSalt demoIv
            (savePasswordDatabase demoVault demoEnv demoIv demoOpenWorld).2).1 = .ok ())) :=
  ⟨by decide, by decide,
    savePasswords_result demoVault demoEnv demoIv demoSalt demoIv demoOpenWorld (by decide)⟩

/-- C4 (counterexample). In a browser whose storage rejects the legacy entry, on a page that
holds the toast element, the primary write succeeds and returns `true`, the legacy `setItem`
throws, and `savePasswords` returns `false`. -/
theorem savePasswords_primary_ok_returns_false :
    (savePasswordDatabase demoVaultFull demoEnv demoIv demoOpenWorld).1 = .ok true ∧
      (legacyWrite demoVaultFull demoSalt demoIv
        (savePasswordDatabase demoVaultFull demoEnv demoIv demoOpenWorld).2).1
          = .error .quotaExceeded ∧
      (savePasswords demoVaultFull demoEnv demoIv demoSalt demoIv demoOpenWorld).1
        = .ok false := by
  decide

/-- The defect of `showNotification` seen from `savePasswords`: on a page without the toast
element the same failed legacy write makes `savePasswords` throw `TypeError` instead of
returning, and the element is in the document afterwards. -/
theorem savePasswords_throws_without_toast :
    (savePasswords demoVaultFull demoEnv demoIv demoSalt demoIv demoBareWorld).1
        = .error .typeError ∧
      (savePasswords demoVaultFull demoEnv demoIv demoSalt demoIv
        demoBareWorld).2.toastInDocument = true := by
  decide

/-- The collection the `confirmImport` handler leaves is the merge of the incoming records
into the collection it found. -/
theorem confirmImport_passwordDatabase (pf : Platform (List Record)) (env : Env)
    (uid clock : Nat → String) (importedPasswords : List Record) (localIv salt iv : Bytes)
    (w : World) :
    (confirmImport pf env uid clock importedPasswords localIv salt iv w).2.passwordDatabase
      = importMerge uid clock w.passwordDatabase importedPasswords := by
  simp only [confirmImport, JS.bind, js_bind_eq, getPasswordDatabase, setPasswordDatabase]
  rw [savePasswords_passwordDatabase]

theorem importRecord_extends (freshId now : String) (db : List Record) (r : Record) :
    db <+: importRecord freshId now db r := by
  simp only [importRecord]
  split_ifs
  · exact ⟨[], List.append_nil db⟩
  · exact ⟨_, rfl⟩

theorem importMergeFrom_extends (uid clock : Nat → String) (incoming : List Record) :
    ∀ (i : Nat) (db : List Record), db <+: importMergeFrom uid clock i db incoming := by
  induction incoming with
  | nil => intro i db; exact ⟨[], List.append_nil db⟩
  | cons r rest ih =>
    intro i db
    exact (importRecord_extends (uid i) (clock i) db r).trans (ih (i + 1) _)

/-- C9. After the import handler every record of the store it found is still there, unmodified
and at its index: the old store is a prefix of the new one, so the record at any index `k` of
the old store (with its password and createdAt) is the record at index `k` afterwards. -/
theorem confirmImport_keeps_existing (pf : Platform (List Record)) (env : Env)
    (uid clock : Nat → String) (importedPasswords : List Record) (localIv salt iv : Bytes)
    (w : World) :
    w.passwordDatabase <+:
        (confirmImport pf env uid clock importedPasswords localIv salt iv w).2.passwordDatabase ∧
      ∀ (k : Nat) (r : Record), w.passwordDatabase[k]? = some r →
        (confirmImport pf env uid clock importedPasswords localIv salt iv
          w).2.passwordDatabase[k]? = some r := by
  rw [confirmImport_passwordDatabase]
  have hp := importMergeFrom_extends uid clock importedPasswords 0 w.passwordDatabase
  refine ⟨hp, ?_⟩
  intro k r hk
  obtain ⟨t, ht⟩ := hp
  rw [importMerge, ← ht]
  rw [List.getElem?_append_left]
  · exact hk
  · by_contra hlt
    rw [List.getElem?_eq_none (by omega)] at hk
    exact Option.noConfusion hk

/-- Run of C9: an incoming record that collides with the stored one leaves it as it was. -/
theorem confirmImport_keeps_existing_witness :
    demoOpenWorld.passwordDatabase[0]? = some (demoRecord 3) ∧
      demoColliding.site = (demoRecord 3).site ∧
      demoColliding.username = (demoRecord 3).username ∧
      (confirmImport demoVault demoEnv demoUid demoClock [demoColliding, demoIncoming] demoIv
        demoSalt demoIv demoOpenWorld).2.passwordDatabase[0]? = some (demoRecord 3) :=
  ⟨by decide, by decide, by decide,
    (confirmImport_keeps_existing demoVault demoEnv demoUid demoClock
      [demoColliding, demoIncoming] demoIv demoSalt demoIv demoOpenWorld).2 0 (demoRecord 3)
      (by decide)⟩

theorem findIndex_eq_none (p : Record → Bool) (db : List Record)
    (h : ∀ e ∈ db, p e = false) : findIndex p db = none := by
  induction db with
  | nil => rfl
  | cons a t ih =>
    have ha : p a = false := h a (by simp)
    have ht : findIndex p t = none := ih (fun e he => h e (by simp [he]))
    simp [findIndex, ha, ht]

theorem orElse_supplied (s fallback : String) (h : s ≠ "") :
    orElse (some s) fallback = some s := by
  simp [orElse, h]

theorem orElse_absent (v : Option String) (fallback : String) (h : v = none ∨ v = some "") :
    orElse v fallback = some fallback := by
  rcases h with h | h <;> subst h <;> simp [orElse]

/-- C10. Importing a single record `r` whose (site, username) matches no record of the store
appends exactly one record: it has the site, username, password and updatedAt of `r`; its id
is the id of `r` when `r` brings a non-empty one and the identifier `generateUniqueId()`
returns otherwise; its createdAt is that of `r` when `r` brings a non-empty one and the
current time otherwise. -/
theorem confirmImport_appends_new (pf : Platform (List Record)) (env : Env)
    (uid clock : Nat → String) (r : Record) (localIv salt iv : Bytes) (w : World)
    (hnew : ∀ e ∈ w.passwordDatabase, ¬(e.site = r.site ∧ e.username = r.username)) :
    ∃ n, (confirmImport pf env uid clock [r] localIv salt iv w).2.passwordDatabase
        = w.passwordDatabase ++ [n] ∧
      n.site = r.site ∧ n.username = r.username ∧ n.password = r.password ∧
      n.updatedAt = r.updatedAt ∧
      (∀ s, r.id = some s → s ≠ "" → n.id = some s) ∧
      (r.id = none ∨ r.id = some "" → n.id = some (uid 0)) ∧
      (∀ s, r.createdAt = some s → s ≠ "" → n.createdAt = some s) ∧
      (r.createdAt = none ∨ r.createdAt = some "" → n.createdAt = some (clock 0)) := by
  have hfind : findIndex
      (fun existing => existing.site == r.site && existing.username == r.username)
      w.passwordDatabase = none := by
    apply findIndex_eq_none
    intro e he
    have := hnew e he
    by_cases h1 : e.site = r.site
    · have h2 : e.username ≠ r.username := fun h2 => this ⟨h1, h2⟩
      simp [h2]
    · simp [h1]
  refine ⟨{ r with id := orElse r.id (uid 0), createdAt := orElse r.createdAt (clock 0) },
    ?_, rfl, rfl, rfl, rfl, ?_, ?_, ?_, ?_⟩
  · rw [confirmImport_passwordDatabase]
    simp [importMerge, importMergeFrom, importRecord, hfind]
  · intro s hs hne
    simp only [hs]
    exact orElse_supplied s _ hne
  · intro h
    exact orElse_absent _ _ h
  · intro s hs hne
    simp only [hs]
    exact orElse_supplied s _ hne
  · intro h
    exact orElse_absent _ _ h

/-- Run of C10: a record for a new site, without id and creation time, is appended with the
generated identifier and the current time. -/
theorem confirmImport_appends_new_witness :
    (∀ e ∈ demoOpenWorld.passwordDatabase,
        ¬(e.site = demoIncoming.site ∧ e.username = demoIncoming.username)) ∧
      (confirmImport demoVault demoEnv demoUid demoClock [demoIncoming] demoIv demoSalt demoIv
        demoOpenWorld).2.passwordDatabase
        = [demoRecord 3, { demoIncoming with id := some "uid0",
                                              createdAt := some "2025-06-01T12:00:00.000Z" }] ∧
      ∃ n, (confirmImport demoVault demoEnv demoUid demoClock [demoIncoming] demoIv demoSalt
          demoIv demoOpenWorld).2.passwordDatabase = demoOpenWorld.passwordDatabase ++ [n] ∧
        n.site = demoIncoming.site ∧ n.username = demoIncoming.username ∧
        n.password = demoIncoming.password ∧ n.updatedAt = demoIncoming.updatedAt ∧
        (∀ s, demoIncoming.id = some s → s ≠ "" → n.id = some s) ∧
        (demoIncoming.id = none ∨ demoIncoming.id = some "" → n.id = some (demoUid 0)) ∧
        (∀ s, demoIncoming.createdAt = some s → s ≠ "" → n.createdAt = some s) ∧
        (demoIncoming.createdAt = none ∨ demoIncoming.createdAt = some "" →
          n.createdAt = some (demoClock 0)) :=
  ⟨by decide, by decide,
    confirmImport_appends_new demoVault demoEnv demoUid demoClock demoIncoming demoIv demoSalt
      demoIv demoOpenWorld (by decide)⟩

/-! ## Password strength -/

theorem calculateStrength_score_eq (p : String) (hp : p ≠ "") :
    (calculateStrength p).score =
      (if 8 ≤ jsLength p then 1 else 0) + (if 12 ≤ jsLength p then 1 else 0) +
        (p.data.any isUpperAZ).toNat + (p.data.any isLowerAZ).toNat +
        (p.data.any isDigit09).toNat + (p.data.any isSymbol).toNat +
        (p.data.any isUpperAZ && p.data.any isLowerAZ && p.data.any isDigit09 &&
          p.data.any isSymbol).toNat := by
  simp only [calculateStrength, if_neg hp, ge_iff_le, decide_eq_true_eq]
  cases p.data.any isUpperAZ <;> cases p.data.any isLowerAZ <;> cases p.data.any isDigit09 <;>
    cases p.data.any isSymbol <;> by_cases h8 : 8 ≤ jsLength p <;>
    by_cases h12 : 12 ≤ jsLength p <;> simp [h8, h12]

theorem any_isUpperAZ (p : String) :
    p.data.any isUpperAZ = true ↔ ∃ c ∈ p.data, 'A' ≤ c ∧ c ≤ 'Z' := by
  simp only [List.any_eq_true, isUpperAZ, decide_eq_true_eq]
  exact Iff.rfl

theorem any_isLowerAZ (p : String) :
    p.data.any isLowerAZ = true ↔ ∃ c ∈ p.data, 'a' ≤ c ∧ c ≤ 'z' := by
  simp only [List.any_eq_true, isLowerAZ, decide_eq_true_eq]
  exact Iff.rfl

theorem any_isDigit09 (p : String) :
    p.data.any isDigit09 = true ↔ ∃ c ∈ p.data, '0' ≤ c ∧ c ≤ '9' := by
  simp only [List.any_eq_true, isDigit09, decide_eq_true_eq]
  exact Iff.rfl

theorem any_isSymbol (p : String) :
    p.data.any isSymbol = true ↔
      ∃ c ∈ p.data, ¬('A' ≤ c ∧ c ≤ 'Z') ∧ ¬('a' ≤ c ∧ c ≤ 'z') ∧ ¬('0' ≤ c ∧ c ≤ '9') := by
  simp only [List.any_eq_true, isSymbol, isUpperAZ, isLowerAZ, isDigit09, Bool.not_eq_true',
    Bool.or_eq_false_iff, decide_eq_false_iff_not]
  constructor
  · rintro ⟨c, hc, ⟨h1, h2⟩, h3⟩
    exact ⟨c, hc, h1, h2, h3⟩
  · rintro ⟨c, hc, h1, h2, h3⟩
    exact ⟨c, hc, ⟨h1, h2⟩, h3⟩

theorem toNat_eq_ite (b : Bool) (P : Prop) [Decidable P] (h : b = true ↔ P) :
    b.toNat = if P then 1 else 0 := by
  cases b with
  | true => rw [if_pos (h.mp rfl)]; rfl
  | false =>
    rw [if_neg (fun hp => Bool.noConfusion (h.mpr hp))]; rfl

/-- C13. For every non-empty string the score of `calculateStrength` is the sum of seven 0/1
indicators: length at least 8, length at least 12, a character in `A-Z`, one in `a-z`, one in
`0-9`, one outside these three ranges, and all four classes present. -/
theorem calculateStrength_score (p : String) (hp : p ≠ "") :
    (calculateStrength p).score =
      (if 8 ≤ jsLength p then 1 else 0) + (if 12 ≤ jsLength p then 1 else 0) +
        (if ∃ c ∈ p.data, 'A' ≤ c ∧ c ≤ 'Z' then 1 else 0) +
        (if ∃ c ∈ p.data, 'a' ≤ c ∧ c ≤ 'z' then 1 else 0) +
        (if ∃ c ∈ p.data, '0' ≤ c ∧ c ≤ '9' then 1 else 0) +
        (if ∃ c ∈ p.data, ¬('A' ≤ c ∧ c ≤ 'Z') ∧ ¬('a' ≤ c ∧ c ≤ 'z') ∧ ¬('0' ≤ c ∧ c ≤ '9')
          then 1 else 0) +
        (if (∃ c ∈ p.data, 'A' ≤ c ∧ c ≤ 'Z') ∧ (∃ c ∈ p.data, 'a' ≤ c ∧ c ≤ 'z') ∧
            (∃ c ∈ p.data, '0' ≤ c ∧ c ≤ '9') ∧
            (∃ c ∈ p.data, ¬('A' ≤ c ∧ c ≤ 'Z') ∧ ¬('a' ≤ c ∧ c ≤ 'z') ∧ ¬('0' ≤ c ∧ c ≤ '9'))
          then 1 else 0) := by
  have e1 := toNat_eq_ite _ (∃ c ∈ p.data, 'A' ≤ c ∧ c ≤ 'Z') (any_isUpperAZ p)
  have e2 := toNat_eq_ite _ (∃ c ∈ p.data, 'a' ≤ c ∧ c ≤ 'z') (any_isLowerAZ p)
  have e3 := toNat_eq_ite _ (∃ c ∈ p.data, '0' ≤ c ∧ c ≤ '9') (any_isDigit09 p)
  have e4 := toNat_eq_ite _
    (∃ c ∈ p.data, ¬('A' ≤ c ∧ c ≤ 'Z') ∧ ¬('a' ≤ c ∧ c ≤ 'z') ∧ ¬('0' ≤ c ∧ c ≤ '9'))
    (any_isSymbol p)
  have e5 := toNat_eq_ite
    (p.data.any isUpperAZ && p.data.any isLowerAZ && p.data.any isDigit09 &&
      p.data.any isSymbol)
    ((∃ c ∈ p.data, 'A' ≤ c ∧ c ≤ 'Z') ∧ (∃ c ∈ p.data, 'a' ≤ c ∧ c ≤ 'z') ∧
      (∃ c ∈ p.data, '0' ≤ c ∧ c ≤ '9') ∧
      (∃ c ∈ p.data, ¬('A' ≤ c ∧ c ≤ 'Z') ∧ ¬('a' ≤ c ∧ c ≤ 'z') ∧ ¬('0' ≤ c ∧ c ≤ '9')))
    (by
      rw [Bool.and_eq_true, Bool.and_eq_true, Bool.and_eq_true, any_isUpperAZ, any_isLowerAZ,
        any_isDigit09, any_isSymbol]
      exact ⟨fun ⟨⟨⟨a, b⟩, c⟩, d⟩ => ⟨a, b, c, d⟩, fun ⟨a, b, c, d⟩ => ⟨⟨⟨a, b⟩, c⟩, d⟩⟩)
  rw [calculateStrength_score_eq p hp, e1, e2, e3, e4, e5]

theorem calculateStrength_score_witness :
    "Passw0rd!xyz" ≠ "" ∧ (calculateStrength "Passw0rd!xyz").score = 7 ∧
      (calculateStrength "Passw0rd!xyz").score =
        (if 8 ≤ jsLength "Passw0rd!xyz" then 1 else 0) +
          (if 12 ≤ jsLength "Passw0rd!xyz" then 1 else 0) +
          (if ∃ c ∈ "Passw0rd!xyz".data, 'A' ≤ c ∧ c ≤ 'Z' then 1 else 0) +
          (if ∃ c ∈ "Passw0rd!xyz".data, 'a' ≤ c ∧ c ≤ 'z' then 1 else 0) +
          (if ∃ c ∈ "Passw0rd!xyz".data, '0' ≤ c ∧ c ≤ '9' then 1 else 0) +
          (if ∃ c ∈ "Passw0rd!xyz".data,
              ¬('A' ≤ c ∧ c ≤ 'Z') ∧ ¬('a' ≤ c ∧ c ≤ 'z') ∧ ¬('0' ≤ c ∧ c ≤ '9')
            then 1 else 0) +
          (if (∃ c ∈ "Passw0rd!xyz".data, 'A' ≤ c ∧ c ≤ 'Z') ∧
              (∃ c ∈ "Passw0rd!xyz".data, 'a' ≤ c ∧ c ≤ 'z') ∧
              (∃ c ∈ "Passw0rd!xyz".data, '0' ≤ c ∧ c ≤ '9') ∧
              (∃ c ∈ "Passw0rd!xyz".data,
                ¬('A' ≤ c ∧ c ≤ 'Z') ∧ ¬('a' ≤ c ∧ c ≤ 'z') ∧ ¬('0' ≤ c ∧ c ≤ '9'))
            then 1 else 0) :=
  ⟨by decide, by decide, calculateStrength_score "Passw0rd!xyz" (by decide)⟩

/-- C14. For every string the score of `calculateStrength` is at most 7 (and at least 0, being
a natural number), and the label is never `Very Strong`. -/
theorem calculateStrength_score_le_seven (p : String) :
    0 ≤ (calculateStrength p).score ∧ (calculateStrength p).score ≤ 7 ∧
      (calculateStrength p).label ≠ "Very Strong" := by
  by_cases hp : p = ""
  · subst hp
    decide
  · simp only [calculateStrength, if_neg hp, ge_iff_le, decide_eq_true_eq]
    cases p.data.any isUpperAZ <;> cases p.data.any isLowerAZ <;>
      cases p.data.any isDigit09 <;> cases p.data.any isSymbol <;>
      by_cases h8 : 8 ≤ jsLength p <;> by_cases h12 : 12 ≤ jsLength p <;>
      simp [h8, h12]

/-- C15. Strength is monotone in the character classes: for strings `p` and `q` of the same
length, at least 12, such that every class (uppercase, lowercase, digit, symbol) present in
`p` is present in `q`, the score of `p` is at most the score of `q`. -/
theorem calculateStrength_monotone (p q : String) (hlen : jsLength p = jsLength q)
    (h12 : 12 ≤ jsLength p)
    (hU : (∃ c ∈ p.data, 'A' ≤ c ∧ c ≤ 'Z') → ∃ c ∈ q.data, 'A' ≤ c ∧ c ≤ 'Z')
    (hL : (∃ c ∈ p.data, 'a' ≤ c ∧ c ≤ 'z') → ∃ c ∈ q.data, 'a' ≤ c ∧ c ≤ 'z')
    (hD : (∃ c ∈ p.data, '0' ≤ c ∧ c ≤ '9') → ∃ c ∈ q.data, '0' ≤ c ∧ c ≤ '9')
    (hS : (∃ c ∈ p.data, ¬('A' ≤ c ∧ c ≤ 'Z') ∧ ¬('a' ≤ c ∧ c ≤ 'z') ∧ ¬('0' ≤ c ∧ c ≤ '9')) →
      ∃ c ∈ q.data, ¬('A' ≤ c ∧ c ≤ 'Z') ∧ ¬('a' ≤ c ∧ c ≤ 'z') ∧ ¬('0' ≤ c ∧ c ≤ '9')) :
    (calculateStrength p).score ≤ (calculateStrength q).score := by
  have hp : p ≠ "" := by
    intro h
    subst h
    simp [jsLength] at h12
  have hq : q ≠ "" := by
    intro h
    subst h
    rw [hlen] at h12
    simp [jsLength] at h12
  rw [calculateStrength_score_eq p hp, calculateStrength_score_eq q hq, ← hlen]
  rw [← any_isUpperAZ, ← any_isUpperAZ] at hU
  rw [← any_isLowerAZ, ← any_isLowerAZ] at hL
  rw [← any_isDigit09, ← any_isDigit09] at hD
  rw [← any_isSymbol, ← any_isSymbol] at hS
  generalize ((if 8 ≤ jsLength p then 1 else 0) + if 12 ≤ jsLength p then 1 else 0) = base
  revert hU hL hD hS
  cases p.data.any isUpperAZ <;> cases p.data.any isLowerAZ <;> cases p.data.any isDigit09 <;>
    cases p.data.any isSymbol <;> cases q.data.any isUpperAZ <;> cases q.data.any isLowerAZ <;>
    cases q.data.any isDigit09 <;> cases q.data.any isSymbol <;> simp <;> omega

theorem calculateStrength_monotone_witness :
    jsLength "passwordpassword" = jsLength "Passw0rd!Passw0r" ∧
      12 ≤ jsLength "passwordpassword" ∧
      (calculateStrength "passwordpassword").score = 3 ∧
      (calculateStrength "Passw0rd!Passw0r").score = 7 ∧
      (calculateStrength "passwordpassword").score
        ≤ (calculateStrength "Passw0rd!Passw0r").score :=
  ⟨by decide, by decide, by decide, by decide,
    calculateStrength_monotone "passwordpassword" "Passw0rd!Passw0r" (by decide) (by decide)
      (fun _ => by decide) (fun _ => by decide) (fun _ => by decide) (fun _ => by decide)⟩

/-! ## Random draws -/

theorem roundingShift_spec (N : Nat) : ∀ (fuel s : Nat), (s = 0 ∨ 2 ^ (52 + s) ≤ N) →
    (roundingShift N fuel s = 0 ∨ 2 ^ (52 + roundingShift N fuel s) ≤ N) := by
  intro fuel
  induction fuel with
  | zero => intro s h; exact h
  | succ f ih =>
    intro s h
    simp only [roundingShift]
    split_ifs with hlt
    · exact h
    · apply ih
      right
      have : 52 + (s + 1) = 53 + s := by omega
      rw [this]
      omega

/-- The rounded product of a double below 1 and a positive integer stays below the integer. -/
theorem roundToDouble_lt (m n : Nat) (hm : m < 2 ^ 53) (hn : 1 ≤ n) :
    roundToDouble (m * n) < n * 2 ^ 53 := by
  have hN : m * n + n ≤ n * 2 ^ 53 := by
    have : (m + 1) * n ≤ 2 ^ 53 * n := Nat.mul_le_mul_right n hm
    linarith
  have hs := roundingShift_spec (m * n) 1024 0 (Or.inl rfl)
  simp only [roundToDouble]
  generalize roundingShift (m * n) 1024 0 = s at hs ⊢
  have hdiv := Nat.div_add_mod (m * n) (2 ^ s)
  have hmod := Nat.mod_lt (m * n) (Nat.two_pow_pos s)
  generalize m * n / 2 ^ s = q at hdiv ⊢
  generalize m * n % 2 ^ s = r at hdiv hmod ⊢
  split_ifs with hup
  · rcases Nat.eq_zero_or_pos s with h0 | hpos
    · subst h0
      simp only [pow_zero] at hup hmod
      omega
    · obtain ⟨k, rfl⟩ : ∃ k, s = k + 1 := ⟨s - 1, by omega⟩
      have hbig : 2 ^ (52 + (k + 1)) ≤ m * n := by
        rcases hs with h | h
        · omega
        · exact h
      have hhalf : 2 ^ k < n := by
        have h1 : 2 ^ (52 + (k + 1)) = 2 ^ 53 * 2 ^ k := by
          rw [← pow_add]; congr 1; omega
        rw [h1] at hbig
        have h2 : 2 ^ 53 * 2 ^ k < 2 ^ 53 * n := by
          have : m * n < n * 2 ^ 53 := by omega
          linarith
        exact Nat.lt_of_mul_lt_mul_left h2
      have hpow : 2 ^ (k + 1) = 2 * 2 ^ k := by rw [pow_succ]; ring
      have h2r : 2 ^ (k + 1) ≤ 2 * r := by
        rcases hup with h | h
        · omega
        · omega
      have hexp : (q + 1) * 2 ^ (k + 1) = 2 ^ (k + 1) * q + 2 ^ (k + 1) := by ring
      rw [hexp]
      omega
  · have : q * 2 ^ s = 2 ^ s * q := Nat.mul_comm _ _
    omega

theorem getRandomInt_range (min max : Int) (raw : Nat) (h : min ≤ max) :
    min ≤ getRandomInt min max raw ∧ getRandomInt min max raw ≤ max := by
  obtain ⟨n, hn⟩ : ∃ n : Nat, max - min + 1 = (n : Int) := ⟨(max - min + 1).toNat, by omega⟩
  have hn1 : 1 ≤ n := by omega
  have hm : randomSignificand raw < 2 ^ 53 := Nat.mod_lt _ (by positivity)
  have hlt := roundToDouble_lt (randomSignificand raw) n hm hn1
  have he : 2 ^ 53 ≤ 2 ^ randomExponent raw :=
    Nat.pow_le_pow_right (by decide) (by unfold randomExponent; omega)
  have hval : getRandomInt min max raw
      = ((roundToDouble (randomSignificand raw * n) / 2 ^ randomExponent raw : Nat) : Int)
          + min := by
    simp only [getRandomInt, hn, Int.natAbs_ofNat]
    rw [if_pos (Int.ofNat_nonneg n)]
  rw [hval]
  generalize roundToDouble (randomSignificand raw * n) = R at hlt
  generalize 2 ^ randomExponent raw = U at he
  have hU : 0 < U := by omega
  have hdiv : R / U < n := by
    rw [Nat.div_lt_iff_lt_mul hU]
    calc R < n * 2 ^ 53 := hlt
      _ ≤ n * U := Nat.mul_le_mul_left n he
  have h0 : (0 : Int) ≤ ((R / U : Nat) : Int) := Int.ofNat_nonneg _
  have h1 : ((R / U : Nat) : Int) < (n : Int) := by exact_mod_cast hdiv
  generalize ((R / U : Nat) : Int) = z at h0 h1 ⊢
  omega

/-- The product is the double product: on draws whose exact product with the span lies just below
an integer it rounds up to that integer, and `getRandomInt` returns one more than the floor
of the exact product (5 of 10 and 53 of 90 for the first draw, 8 of 10 for the second). -/
theorem getRandomInt_rounds_as_double :
    getRandomInt 0 9 5404319552844595 = 6 ∧ getRandomInt 0 89 5404319552844595 = 54 ∧
      getRandomInt 0 9 8106479329266892 = 9 ∧
      (5404319552844595 * 10 / 2 ^ 53 = 5 ∧ 5404319552844595 * 90 / 2 ^ 53 = 53 ∧
        8106479329266892 * 10 / 2 ^ 53 = 8) := by
  decide

theorem numberToString_digit (x : Int) (h0 : 0 ≤ x) (h9 : x ≤ 9) :
    ∃ c, numberToString x = [c] ∧ isDigit09 c = true := by
  interval_cases x <;> exact ⟨_, rfl, by decide⟩

theorem charAt_mem (s : List Char) (index : Int) (h0 : 0 ≤ index) (h1 : index < s.length) :
    ∃ c, charAt s index = [c] ∧ c ∈ s := by
  have hlt : index.toNat < s.length := by omega
  refine ⟨s[index.toNat], ?_, List.getElem_mem _⟩
  simp [charAt, not_lt.mpr h0, List.getElem?_eq_getElem hlt]

/-! ## Random password and PIN -/

/-- C16. With all four classes disabled `generateRandomPassword` returns the empty string for
every length, and the random source is left as it was: no random value is drawn. -/
theorem generateRandomPassword_no_class (n : Nat) (rng : Rng) :
    generateRandomPassword n ⟨false, false, false, false⟩ rng = ("", rng) := by
  rfl

theorem buildCharset_ne_nil (o : RandomOptions)
    (h : o.uppercase = true ∨ o.lowercase = true ∨ o.numbers = true ∨ o.symbols = true) :
    buildCharset o ≠ [] := by
  obtain ⟨u, l, d, s⟩ := o
  simp only at h
  cases u <;> cases l <;> cases d <;> cases s <;> simp at h <;> decide

theorem randomChars_spec (charset : List Char) (hne : charset ≠ []) :
    ∀ (n : Nat) (password : List Char) (rng : Rng),
      ∃ added, (randomChars charset n password rng).1 = password ++ added ∧
        added.length = n ∧ ∀ c ∈ added, c ∈ charset := by
  intro n
  induction n with
  | zero => intro password rng; exact ⟨[], by simp [randomChars], rfl, by simp⟩
  | succ k ih =>
    intro password rng
    have hlen : 0 < charset.length := List.length_pos.mpr hne
    have hr := getRandomInt_range 0 ((charset.length : Int) - 1) (rng 0) (by omega)
    obtain ⟨c, hc, hmem⟩ := charAt_mem charset
      (getRandomInt 0 ((charset.length : Int) - 1) (rng 0)) hr.1 (by omega)
    obtain ⟨added, hadd, hl, hall⟩ := ih (password ++ [c]) rng.tail
    refine ⟨c :: added, ?_, by simp [hl], ?_⟩
    · simp only [randomChars, hc, hadd, List.append_assoc, List.singleton_append]
    · intro x hx
      rcases List.mem_cons.mp hx with h | h
      · exact h ▸ hmem
      · exact hall x h

theorem jsLength_of_small (l : List Char) (h : ∀ c ∈ l, c.toNat < 65536) :
    jsLength (String.mk l) = l.length := by
  unfold jsLength
  induction l with
  | nil => rfl
  | cons a t ih =>
    have ha : a.toNat < 65536 := h a (by simp)
    have ht := ih (fun c hc => h c (by simp [hc]))
    simp only [List.map_cons, List.sum_cons, if_pos ha, List.length_cons] at ht ⊢
    omega

theorem mem_buildCharset (o : RandomOptions) (c : Char) (h : c ∈ buildCharset o) :
    (o.uppercase = true ∧ c ∈ uppercaseChars) ∨ (o.lowercase = true ∧ c ∈ lowercaseChars) ∨
      (o.numbers = true ∧ c ∈ numberChars) ∨ (o.symbols = true ∧ c ∈ symbolChars) := by
  simp only [buildCharset, List.mem_append] at h
  rcases h with ((h | h) | h) | h
  · by_cases hu : o.uppercase = true
    · simp only [hu, if_true] at h; exact Or.inl ⟨hu, h⟩
    · simp [hu] at h
  · by_cases hu : o.lowercase = true
    · simp only [hu, if_true] at h; exact Or.inr (Or.inl ⟨hu, h⟩)
    · simp [hu] at h
  · by_cases hu : o.numbers = true
    · simp only [hu, if_true] at h; exact Or.inr (Or.inr (Or.inl ⟨hu, h⟩))
    · simp [hu] at h
  · by_cases hu : o.symbols = true
    · simp only [hu, if_true] at h; exact Or.inr (Or.inr (Or.inr ⟨hu, h⟩))
    · simp [hu] at h

theorem classes_disjoint :
    (∀ c ∈ uppercaseChars, c ∉ lowercaseChars ∧ c ∉ numberChars ∧ c ∉ symbolChars) ∧
      (∀ c ∈ lowercaseChars, c ∉ uppercaseChars ∧ c ∉ numberChars ∧ c ∉ symbolChars) ∧
      (∀ c ∈ numberChars, c ∉ uppercaseChars ∧ c ∉ lowercaseChars ∧ c ∉ symbolChars) ∧
      (∀ c ∈ symbolChars, c ∉ uppercaseChars ∧ c ∉ lowercaseChars ∧ c ∉ numberChars) := by
  decide

theorem charset_small : ∀ c ∈ buildCharset ⟨true, true, true, true⟩, c.toNat < 65536 := by
  decide

theorem buildCharset_small (o : RandomOptions) (c : Char) (h : c ∈ buildCharset o) :
    c.toNat < 65536 := by
  apply charset_small
  have hm := mem_buildCharset o c h
  simp only [buildCharset, if_true, List.mem_append]
  rcases hm with ⟨_, h⟩ | ⟨_, h⟩ | ⟨_, h⟩ | ⟨_, h⟩
  · exact Or.inl (Or.inl (Or.inl h))
  · exact Or.inl (Or.inl (Or.inr h))
  · exact Or.inl (Or.inr h)
  · exact Or.inr h

/-- C17. With at least one class enabled, for every length `n` and every random source,
`generateRandomPassword` returns a string of exactly `n` characters; each of them belongs to
the alphabet of an enabled class and to the alphabet of no disabled class; and every index
handed to `charAt` lies within the charset. -/
theorem generateRandomPassword_spec (n : Nat) (o : RandomOptions) (rng : Rng)
    (h : o.uppercase = true ∨ o.lowercase = true ∨ o.numbers = true ∨ o.symbols = true) :
    (generateRandomPassword n o rng).1.data.length = n ∧
      jsLength (generateRandomPassword n o rng).1 = n ∧
      (∀ c ∈ (generateRandomPassword n o rng).1.data,
        ((o.uppercase = true ∧ c ∈ uppercaseChars) ∨ (o.lowercase = true ∧ c ∈ lowercaseChars) ∨
          (o.numbers = true ∧ c ∈ numberChars) ∨ (o.symbols = true ∧ c ∈ symbolChars)) ∧
        (o.uppercase = false → c ∉ uppercaseChars) ∧
        (o.lowercase = false → c ∉ lowercaseChars) ∧
        (o.numbers = false → c ∉ numberChars) ∧
        (o.symbols = false → c ∉ symbolChars)) ∧
      ∀ raw, 0 ≤ getRandomInt 0 (((buildCharset o).length : Int) - 1) raw ∧
        getRandomInt 0 (((buildCharset o).length : Int) - 1) raw < (buildCharset o).length := by
  have hne := buildCharset_ne_nil o h
  obtain ⟨added, hadd, hlen, hall⟩ := randomChars_spec (buildCharset o) hne n [] rng
  have hres : (generateRandomPassword n o rng).1 = String.mk added := by
    simp only [generateRandomPassword, if_neg hne, hadd, List.nil_append]
  have hpos : 0 < (buildCharset o).length := List.length_pos.mpr hne
  rw [hres]
  refine ⟨hlen, ?_, ?_, ?_⟩
  · rw [jsLength_of_small added (fun c hc => buildCharset_small o c (hall c hc)), hlen]
  · intro c hc
    have hm := mem_buildCharset o c (hall c hc)
    obtain ⟨dU, dL, dN, dS⟩ := classes_disjoint
    refine ⟨hm, ?_, ?_, ?_, ?_⟩
    · intro hoff hin
      rcases hm with ⟨ho, _⟩ | ⟨_, hx⟩ | ⟨_, hx⟩ | ⟨_, hx⟩
      · rw [hoff] at ho; exact Bool.noConfusion ho
      · exact (dU c hin).1 hx
      · exact (dU c hin).2.1 hx
      · exact (dU c hin).2.2 hx
    · intro hoff hin
      rcases hm with ⟨_, hx⟩ | ⟨ho, _⟩ | ⟨_, hx⟩ | ⟨_, hx⟩
      · exact (dL c hin).1 hx
      · rw [hoff] at ho; exact Bool.noConfusion ho
      · exact (dL c hin).2.1 hx
      · exact (dL c hin).2.2 hx
    · intro hoff hin
      rcases hm with ⟨_, hx⟩ | ⟨_, hx⟩ | ⟨ho, _⟩ | ⟨_, hx⟩
      · exact (dN c hin).1 hx
      · exact (dN c hin).2.1 hx
      · rw [hoff] at ho; exact Bool.noConfusion ho
      · exact (dN c hin).2.2 hx
    · intro hoff hin
      rcases hm with ⟨_, hx⟩ | ⟨_, hx⟩ | ⟨_, hx⟩ | ⟨ho, _⟩
      · exact (dS c hin).1 hx
      · exact (dS c hin).2.1 hx
      · exact (dS c hin).2.2 hx
      · rw [hoff] at ho; exact Bool.noConfusion ho
  · intro raw
    have hr := getRandomInt_range 0 (((buildCharset o).length : Int) - 1) raw (by omega)
    constructor
    · exact hr.1
    · omega

set_option maxRecDepth 100000 in
theorem buildCharset_counts (u l d : Bool) :
    (buildCharset ⟨u, l, d, true⟩).count '(' = 2 ∧ (buildCharset ⟨u, l, d, true⟩).count ')' = 2 ∧
      (buildCharset ⟨u, l, d, true⟩).count '!' = 1 ∧
      ∀ c ∈ buildCharset ⟨u, l, d, true⟩, c ≠ '(' → c ≠ ')' →
        (buildCharset ⟨u, l, d, true⟩).count c = 1 := by
  cases u <;> cases l <;> cases d <;> decide

/-- C18 (code defect). When symbols are enabled the charset holds `(` and `)` twice and every
other character once, so a uniformly drawn index selects `(` (or `)`) twice as often as any
other character. -/
theorem buildCharset_parentheses_twice (o : RandomOptions) (h : o.symbols = true) :
    (buildCharset o).count '(' = 2 ∧ (buildCharset o).count ')' = 2 ∧
      (buildCharset o).count '!' = 1 ∧
      ∀ c ∈ buildCharset o, c ≠ '(' → c ≠ ')' → (buildCharset o).count c = 1 := by
  obtain ⟨u, l, d, s⟩ := o
  simp only at h
  subst h
  exact buildCharset_counts u l d

/-- Run of C18 with all four classes enabled. -/
theorem buildCharset_parentheses_twice_witness :
    (buildCharset ⟨true, true, true, true⟩).length = 90 ∧
      (buildCharset ⟨true, true, true, true⟩).count '(' = 2 ∧
      (buildCharset ⟨true, true, true, true⟩).count ')' = 2 ∧
      (buildCharset ⟨true, true, true, true⟩).count '!' = 1 ∧
      ∀ c ∈ buildCharset ⟨true, true, true, true⟩, c ≠ '(' → c ≠ ')' →
        (buildCharset ⟨true, true, true, true⟩).count c = 1 :=
  ⟨by decide, buildCharset_parentheses_twice ⟨true, true, true, true⟩ rfl⟩

theorem pinLoop_spec :
    ∀ (n : Nat) (pin : List Char) (rng : Rng),
      ∃ added, (pinLoop n pin rng).1 = pin ++ added ∧ added.length = n ∧
        ∀ c ∈ added, isDigit09 c = true := by
  intro n
  induction n with
  | zero => intro pin rng; exact ⟨[], by simp [pinLoop], rfl, by simp⟩
  | succ k ih =>
    intro pin rng
    have hr := getRandomInt_range 0 9 (rng 0) (by omega)
    obtain ⟨c, hc, hd⟩ := numberToString_digit (getRandomInt 0 9 (rng 0)) hr.1 hr.2
    obtain ⟨added, hadd, hl, hall⟩ := ih (pin ++ [c]) rng.tail
    refine ⟨c :: added, ?_, by simp [hl], ?_⟩
    · simp only [pinLoop, hc, hadd, List.append_assoc, List.singleton_append]
    · intro x hx
      rcases List.mem_cons.mp hx with h | h
      · exact h ▸ hd
      · exact hall x h

/-- C20. For every length `n` and every random source `generatePIN` returns a string of
exactly `n` characters, each a decimal digit. -/
theorem generatePIN_spec (n : Nat) (rng : Rng) :
    (generatePIN n rng).1.data.length = n ∧ jsLength (generatePIN n rng).1 = n ∧
      ∀ c ∈ (generatePIN n rng).1.data, '0' ≤ c ∧ c ≤ '9' := by
  obtain ⟨added, hadd, hlen, hall⟩ := pinLoop_spec n [] rng
  have hres : (generatePIN n rng).1 = String.mk added := by
    simp only [generatePIN, hadd, List.nil_append]
  have hdig : ∀ c ∈ added, 48 ≤ c.toNat ∧ c.toNat ≤ 57 := by
    intro c hc
    have := hall c hc
    simpa [isDigit09] using this
  rw [hres]
  refine ⟨hlen, ?_, fun c hc => hdig c hc⟩
  rw [jsLength_of_small added (fun c hc => by have := hdig c hc; omega), hlen]

/-! ## Memorable password -/

theorem word_mem (raw : Nat) :
    words.getD (getRandomInt 0 ((words.length : Int) - 1) raw).toNat "" ∈ words := by
  have hr := getRandomInt_range 0 ((words.length : Int) - 1) raw (by decide)
  have hlt : (getRandomInt 0 ((words.length : Int) - 1) raw).toNat < words.length := by omega
  rw [List.getD_eq_getElem _ _ hlt]
  exact List.getElem_mem _

theorem modifyHead_plain (l : List (List Char)) :
    l.modifyHead (fun w => if false = true then capitalizeWord w else w) = l := by
  cases l <;> simp [List.modifyHead]

theorem memorableLoop_spec (wordCount : Nat) (o : MemorableOptions) :
    ∀ (remaining i : Nat) (password : List Char) (rng : Rng), i + remaining = wordCount →
      ∃ (ws : List String) (ds : List (List Char)),
        ws.length = remaining ∧ ds.length = remaining - 1 ∧ (∀ w ∈ ws, w ∈ words) ∧
        (∀ d ∈ ds, if o.addNumbers = true then ∃ c, d = [c] ∧ isDigit09 c = true else d = []) ∧
        (memorableLoop wordCount o remaining i password rng).1 =
          password ++ (List.zipWith (· ++ ·)
            ((ws.map String.data).modifyHead
              (fun w => if (o.capitalize && i == 0) = true then capitalizeWord w else w))
            (ds ++ [[]])).flatten := by
  intro remaining
  induction remaining with
  | zero =>
    intro i password rng _
    exact ⟨[], [], rfl, rfl, by simp, by simp, by simp [memorableLoop, List.modifyHead]⟩
  | succ k ih =>
    intro i password rng hsum
    have hw := word_mem (rng 0)
    generalize hwd : words.getD (getRandomInt 0 ((words.length : Int) - 1) (rng 0)).toNat "" = w
      at hw
    have hflag : (o.capitalize && (i + 1 == 0)) = false := by simp
    by_cases hnum : (o.addNumbers && decide ((i : Int) < (wordCount : Int) - 1)) = true
    · have hadd : o.addNumbers = true := by
        simp only [Bool.and_eq_true] at hnum; exact hnum.1
      have hk : 0 < k := by
        simp only [Bool.and_eq_true, decide_eq_true_eq] at hnum
        omega
      have hr := getRandomInt_range 0 9 (rng.tail 0) (by omega)
      obtain ⟨c, hc, hd⟩ := numberToString_digit (getRandomInt 0 9 (rng.tail 0)) hr.1 hr.2
      obtain ⟨ws, ds, hwl, hdl, hwm, hdm, hres⟩ :=
        ih (i + 1)
          (password ++ (if (o.capitalize && i == 0) = true then capitalizeWord w.data
            else w.data) ++ [c]) rng.tail.tail (by omega)
      refine ⟨w :: ws, [c] :: ds, by simp [hwl], by simp [hdl]; omega, ?_, ?_, ?_⟩
      · intro x hx
        rcases List.mem_cons.mp hx with h | h
        · exact h ▸ hw
        · exact hwm x h
      · intro d hd'
        rcases List.mem_cons.mp hd' with h | h
        · rw [if_pos hadd]; exact ⟨c, h, hd⟩
        · exact hdm d h
      · rw [hflag, modifyHead_plain] at hres
        simp only [memorableLoop, hwd, hnum, if_true, hc]
        by_cases hcap : (o.capitalize && i == 0) = true
        · simp only [hcap, if_true] at hres ⊢
          rw [hres]
          simp [List.modifyHead, hcap]
        · simp only [hcap, Bool.false_eq_true, if_false] at hres ⊢
          rw [hres]
          simp [List.modifyHead, hcap]
    · obtain ⟨ws, ds, hwl, hdl, hwm, hdm, hres⟩ :=
        ih (i + 1)
          (password ++ (if (o.capitalize && i == 0) = true then capitalizeWord w.data
            else w.data)) rng.tail (by omega)
      rw [hflag, modifyHead_plain] at hres
      by_cases hk : k = 0
      · subst hk
        have hws : ws = [] := List.length_eq_zero.mp hwl
        subst hws
        refine ⟨[w], [], rfl, rfl, ?_, by simp, ?_⟩
        · intro x hx
          rw [List.mem_singleton.mp hx]; exact hw
        · simp only [memorableLoop, hwd, hnum]
          by_cases hcap : (o.capitalize && i == 0) = true
          · simp [List.modifyHead, hcap]
          · simp [List.modifyHead, hcap]
      · have hoff : o.addNumbers = false := by
          cases hq : o.addNumbers with
          | false => rfl
          | true =>
            exfalso
            apply hnum
            simp only [hq, Bool.true_and, decide_eq_true_eq]
            omega
        refine ⟨w :: ws, [] :: ds, by simp [hwl], by simp [hdl]; omega, ?_, ?_, ?_⟩
        · intro x hx
          rcases List.mem_cons.mp hx with h | h
          · exact h ▸ hw
          · exact hwm x h
        · intro d hd'
          rcases List.mem_cons.mp hd' with h | h
          · simp [hoff, h]
          · exact hdm d h
        · simp only [memorableLoop, hwd, hnum]
          by_cases hcap : (o.capitalize && i == 0) = true
          · simp only [hcap, if_true] at hres ⊢
            simp only [Bool.false_eq_true, if_false]
            rw [hres]
            simp [List.modifyHead, hcap]
          · simp only [hcap, Bool.false_eq_true, if_false] at hres ⊢
            rw [hres]
            simp [List.modifyHead, hcap]

theorem words_no_digit :
    ∀ w ∈ words, w.data.filter isDigit09 = [] ∧ (capitalizeWord w.data).filter isDigit09 = [] := by
  decide

theorem interleave_digits :
    ∀ (ws ds : List (List Char)), (∀ w ∈ ws, w.filter isDigit09 = []) →
      (∀ d ∈ ds, ∃ c, d = [c] ∧ isDigit09 c = true) → ds.length + 1 = ws.length →
      ((List.zipWith (· ++ ·) ws (ds ++ [[]])).flatten.filter isDigit09).length = ds.length := by
  intro ws
  induction ws with
  | nil => intro ds _ _ hlen; simp at hlen
  | cons w rest ih =>
    intro ds hw hd hlen
    cases ds with
    | nil =>
      have hrest : rest = [] := by
        apply List.length_eq_zero.mp
        simp only [List.length_nil, List.length_cons] at hlen
        omega
      subst hrest
      simp [hw w (by simp)]
    | cons d ds1 =>
      obtain ⟨c, hc, hcd⟩ := hd d (by simp)
      have hrec := ih ds1 (fun x hx => hw x (by simp [hx])) (fun x hx => hd x (by simp [hx]))
        (by simp only [List.length_cons] at hlen; omega)
      simp only [List.cons_append, List.zipWith_cons_cons, List.flatten_cons, List.filter_append,
        List.length_append, hw w (by simp), hc, List.length_cons, hrec]
      simp [List.filter, hcd]
      omega

/-- C19. For every word count `n` (in particular for `n >= 1`) and every random source,
`generateMemorablePassword` returns `w1 d1 w2 d2 ... w(n-1) d(n-1) wn`: `n` words of the word
list, the first with its first letter upper-cased when `capitalize` is on, separated by
`n - 1` pieces that are one decimal digit each when `addNumbers` is on and empty when it is
off, nothing after the last word; with `addNumbers` on the result holds exactly `n - 1`
digits. -/
theorem generateMemorablePassword_shape (n : Nat) (o : MemorableOptions) (rng : Rng) :
    ∃ (ws : List String) (ds : List (List Char)),
      ws.length = n ∧ ds.length = n - 1 ∧ (∀ w ∈ ws, w ∈ words) ∧
      (∀ d ∈ ds, if o.addNumbers = true then ∃ c, d = [c] ∧ '0' ≤ c ∧ c ≤ '9' else d = []) ∧
      (generateMemorablePassword n o rng).1.data =
        (List.zipWith (· ++ ·)
          ((ws.map String.data).modifyHead
            (fun w => if o.capitalize = true then capitalizeWord w else w))
          (ds ++ [[]])).flatten ∧
      (1 ≤ n → o.addNumbers = true →
        ((generateMemorablePassword n o rng).1.data.filter isDigit09).length = n - 1) := by
  obtain ⟨ws, ds, hwl, hdl, hwm, hdm, hres⟩ := memorableLoop_spec n o n 0 [] rng (by omega)
  have hflag : (o.capitalize && (0 : Nat) == 0) = o.capitalize := by simp
  rw [hflag] at hres
  have hdata : (generateMemorablePassword n o rng).1.data =
      (List.zipWith (· ++ ·)
        ((ws.map String.data).modifyHead
          (fun w => if o.capitalize = true then capitalizeWord w else w))
        (ds ++ [[]])).flatten := by
    simp only [generateMemorablePassword, hres, List.nil_append]
  refine ⟨ws, ds, hwl, hdl, hwm, ?_, hdata, ?_⟩
  · intro d hd
    have := hdm d hd
    by_cases hadd : o.addNumbers = true
    · rw [if_pos hadd] at this ⊢
      obtain ⟨c, hc, hcd⟩ := this
      refine ⟨c, hc, ?_⟩
      simpa [isDigit09] using hcd
    · rw [if_neg hadd] at this ⊢
      exact this
  · intro hn hadd
    rw [hdata, interleave_digits _ ds ?_ ?_ ?_, hdl]
    · intro w hw
      cases hws : ws with
      | nil => rw [hws] at hw; simp [List.modifyHead] at hw
      | cons a t =>
        rw [hws] at hw hwm
        simp only [List.map_cons, List.modifyHead, List.mem_cons] at hw
        rcases hw with h | h
        · have ha := words_no_digit a (hwm a (by simp))
          rw [h]
          by_cases hc : o.capitalize = true
          · rw [if_pos hc]; exact ha.2
          · rw [if_neg hc]; exact ha.1
        · obtain ⟨b, hb, rfl⟩ := List.mem_map.mp h
          exact (words_no_digit b (hwm b (by simp [hb]))).1
    · intro d hd
      have := hdm d hd
      rw [if_pos hadd] at this
      exact this
    · rw [List.length_modifyHead, List.length_map, hwl, hdl]
      omega

/-- Run of C19: three words, capitalized, with digits. -/
theorem generateMemorablePassword_shape_witness :
    (generateMemorablePassword 3 ⟨true, true⟩ (fun i => (i + 1) * 1234567890123451)).1
        = "Grape2tiger5image" ∧
      ((generateMemorablePassword 3 ⟨true, true⟩
        (fun i => (i + 1) * 1234567890123451)).1.data.filter isDigit09).length = 3 - 1 := by
  obtain ⟨ws, ds, -, -, -, -, -, h⟩ :=
    generateMemorablePassword_shape 3 ⟨true, true⟩ (fun i => (i + 1) * 1234567890123451)
  exact ⟨by decide, h (by decide) rfl⟩

/-! ## Uniqueness guard -/

theorem find_isNone_eq (db : List Record) (password : String) :
    (db.find? (fun entry => entry.password == some password)).isNone = !collides db password := by
  unfold collides
  induction db with
  | nil => rfl
  | cons a t ih =>
    by_cases h : (a.password == some password) = true
    · simp [List.find?, h]
    · simp only [Bool.not_eq_true] at h
      simp [List.find?, h, ih]

theorem candidate_shift (generate : Rng → String × Rng) (rng : Rng) :
    ∀ j, candidate generate rng (j + 1) = candidate generate (generate rng).2 j := by
  intro j
  induction j with
  | zero => rfl
  | succ k ih =>
    show generate (candidate generate rng (k + 1)).2
      = generate (candidate generate (generate rng).2 k).2
    rw [ih]

/-- What a run of the loop amounts to: it makes `j + 1` calls of the generator for some
`j <= maxAttempts - 1 - attempts`, returns the candidate of the last call, all earlier
candidates collided, and unless the bound was reached the returned one does not. -/
theorem uniqueLoop_run (generate : Rng → String × Rng) (db : List Record) :
    ∀ (m attempts : Nat) (rng : Rng), attempts + m + 1 = maxAttempts →
      ∃ j, j ≤ m ∧
        (uniqueLoop generate db attempts rng).attempts = attempts + j + 1 ∧
        (uniqueLoop generate db attempts rng).password = (candidate generate rng j).1 ∧
        (uniqueLoop generate db attempts rng).rng = (candidate generate rng j).2 ∧
        (∀ i, i < j → collides db (candidate generate rng i).1 = true) ∧
        (j < m → collides db (candidate generate rng j).1 = false) := by
  intro m
  induction m with
  | zero =>
    intro attempts rng hsum
    refine ⟨0, le_refl 0, ?_, ?_, ?_, by simp, by simp⟩ <;>
    · rw [uniqueLoop]
      have : maxAttempts ≤ attempts + 1 := by omega
      simp [this, candidate]
  | succ k ih =>
    intro attempts rng hsum
    have hlt : attempts + 1 < maxAttempts := by omega
    have hge : ¬ maxAttempts ≤ attempts + 1 := by omega
    by_cases hcol : collides db (generate rng).1 = true
    · obtain ⟨j, hj, ha, hp, hr, hall, hlast⟩ := ih (attempts + 1) (generate rng).2 (by omega)
      have hstep : uniqueLoop generate db attempts rng
          = uniqueLoop generate db (attempts + 1) (generate rng).2 := by
        rw [uniqueLoop]
        simp [find_isNone_eq, hcol, hge, hlt]
      refine ⟨j + 1, by omega, ?_, ?_, ?_, ?_, ?_⟩
      · rw [hstep, ha]; omega
      · rw [hstep, hp, candidate_shift]
      · rw [hstep, hr, candidate_shift]
      · intro i hi
        cases i with
        | zero => exact hcol
        | succ i1 =>
          rw [candidate_shift]
          exact hall i1 (by omega)
      · intro hjm
        rw [candidate_shift]
        exact hlast (by omega)
    · simp only [Bool.not_eq_true] at hcol
      refine ⟨0, Nat.zero_le _, ?_, ?_, ?_, by simp, fun _ => hcol⟩ <;>
      · rw [uniqueLoop]
        simp [find_isNone_eq, hcol, candidate]

theorem uniqueLoop_attempts (generate : Rng → String × Rng) (db : List Record) (rng : Rng) :
    1 ≤ (uniqueLoop generate db 0 rng).attempts ∧
      (uniqueLoop generate db 0 rng).attempts ≤ 100 ∧
      (uniqueLoop generate db 0 rng).password
        = (candidate generate rng ((uniqueLoop generate db 0 rng).attempts - 1)).1 ∧
      (uniqueLoop generate db 0 rng).rng
        = (candidate generate rng ((uniqueLoop generate db 0 rng).attempts - 1)).2 := by
  obtain ⟨j, hj, ha, hp, hr, -, -⟩ := uniqueLoop_run generate db 99 0 rng (by decide)
  have hidx : (uniqueLoop generate db 0 rng).attempts - 1 = j := by omega
  rw [hidx]
  exact ⟨by omega, by omega, hp, hr⟩

/-- C11. For every store, every generator and every random source the uniqueness guard
returns (the loop is a total function) after at least one and at most 100 calls of the
generator: its counter `attempts`, incremented once per call, ends between 1 and 100, and the
random source it leaves is the one after exactly that many calls. This holds for the loop
over any generator and so for `generateUniquePassword`, `generateUniqueMemorablePassword` and
`generateUniquePIN`. -/
theorem uniqueGuard_attempts_bounded (db : List Record) (rng : Rng) :
    (∀ generate : Rng → String × Rng,
        1 ≤ (uniqueLoop generate db 0 rng).attempts ∧
        (uniqueLoop generate db 0 rng).attempts ≤ 100 ∧
        (uniqueLoop generate db 0 rng).rng
          = (candidate generate rng ((uniqueLoop generate db 0 rng).attempts - 1)).2) ∧
      (∀ (length : Nat) (options : RandomOptions),
        1 ≤ (generateUniquePassword length options db rng).attempts ∧
        (generateUniquePassword length options db rng).attempts ≤ 100) ∧
      (∀ (wordCount : Nat) (options : MemorableOptions),
        1 ≤ (generateUniqueMemorablePassword wordCount options db rng).attempts ∧
        (generateUniqueMemorablePassword wordCount options db rng).attempts ≤ 100) ∧
      (∀ length : Nat,
        1 ≤ (generateUniquePIN length db rng).attempts ∧
        (generateUniquePIN length db rng).attempts ≤ 100) := by
  refine ⟨fun generate => ?_, fun length options => ?_, fun wordCount options => ?_,
    fun length => ?_⟩
  · have h := uniqueLoop_attempts generate db rng
    exact ⟨h.1, h.2.1, h.2.2.2⟩
  · have h := uniqueLoop_attempts (generateRandomPassword length options) db rng
    exact ⟨h.1, h.2.1⟩
  · have h := uniqueLoop_attempts (generateMemorablePassword wordCount options) db rng
    exact ⟨h.1, h.2.1⟩
  · have h := uniqueLoop_attempts (generatePIN length) db rng
    exact ⟨h.1, h.2.1⟩

theorem uniqueLoop_result (generate : Rng → String × Rng) (db : List Record) (rng : Rng) :
    (∀ j, j < 100 → collides db (candidate generate rng j).1 = false →
        (∀ i, i < j → collides db (candidate generate rng i).1 = true) →
        (uniqueLoop generate db 0 rng).password = (candidate generate rng j).1 ∧
          (uniqueLoop generate db 0 rng).attempts = j + 1) ∧
      ((∀ j, j < 100 → collides db (candidate generate rng j).1 = true) →
        (uniqueLoop generate db 0 rng).password = (candidate generate rng 99).1 ∧
          (uniqueLoop generate db 0 rng).attempts = 100) ∧
      (collides db (uniqueLoop generate db 0 rng).password = true →
        ∀ j, j < 100 → collides db (candidate generate rng j).1 = true) := by
  obtain ⟨k, hk, ha, hp, -, hall, hlast⟩ := uniqueLoop_run generate db 99 0 rng (by decide)
  refine ⟨?_, ?_, ?_⟩
  · intro j hj hfree hbefore
    have hkj : k = j := by
      rcases Nat.lt_trichotomy k j with h | h | h
      · have := hbefore k h
        have hk99 : k < 99 := by omega
        rw [hlast hk99] at this
        exact Bool.noConfusion this
      · exact h
      · have := hall j h
        rw [hfree] at this
        exact Bool.noConfusion this
    subst hkj
    exact ⟨hp, by omega⟩
  · intro hcol
    have hk99 : k = 99 := by
      by_contra hne
      have hlt : k < 99 := by omega
      have := hcol k (by omega)
      rw [hlast hlt] at this
      exact Bool.noConfusion this
    subst hk99
    exact ⟨hp, by omega⟩
  · intro hres j hj
    rw [hp] at hres
    have hk99 : k = 99 := by
      by_contra hne
      have hlt : k < 99 := by omega
      rw [hlast hlt] at hres
      exact Bool.noConfusion hres
    subst hk99
    rcases Nat.lt_or_ge j 99 with h | h
    · exact hall j h
    · have : j = 99 := by omega
      rw [this]; exact hres

/-- C12. With `c j` the candidate of call number `j` (from 0) of `generateRandomPassword`:
`generateUniquePassword` returns the first candidate that is the password of no stored record
when there is one among the first 100 (and has then made that many calls); it returns the
100th candidate when all 100 collide; so the value it returns is a stored password only when
all 100 candidates collided. -/
theorem generateUniquePassword_result (length : Nat) (options : RandomOptions)
    (db : List Record) (rng : Rng) :
    (∀ j, j < 100 →
        collides db (candidate (generateRandomPassword length options) rng j).1 = false →
        (∀ i, i < j →
          collides db (candidate (generateRandomPassword length options) rng i).1 = true) →
        (generateUniquePassword length options db rng).password
            = (candidate (generateRandomPassword length options) rng j).1 ∧
          (generateUniquePassword length options db rng).attempts = j + 1) ∧
      ((∀ j, j < 100 →
          collides db (candidate (generateRandomPassword length options) rng j).1 = true) →
        (generateUniquePassword length options db rng).password
            = (candidate (generateRandomPassword length options) rng 99).1 ∧
          (generateUniquePassword length options db rng).attempts = 100) ∧
      (collides db (generateUniquePassword length options db rng).password = true →
        ∀ j, j < 100 →
          collides db (candidate (generateRandomPassword length options) rng j).1 = true) :=
  uniqueLoop_result (generateRandomPassword length options) db rng

set_option maxRecDepth 100000 in
theorem demo_all_collide :
    ∀ j, j < 100 →
      collides demoDigitStore (candidate (generateRandomPassword 1 digitsOnly) demoRng j).1
        = true := by
  decide

/-- Run of C12: with the first candidate stored the second one is returned; with every
one-digit password stored the 100th candidate is returned although it collides. -/
theorem generateUniquePassword_result_witness :
    ((generateUniquePassword 4 ⟨true, true, true, true⟩ [demoStored "MYlx"] demoRng).password
        = "9_.E" ∧
      (generateUniquePassword 4 ⟨true, true, true, true⟩ [demoStored "MYlx"] demoRng).attempts
        = 1 + 1) ∧
      ((generateUniquePassword 1 digitsOnly demoDigitStore demoRng).password
        = (candidate (generateRandomPassword 1 digitsOnly) demoRng 99).1 ∧
      (generateUniquePassword 1 digitsOnly demoDigitStore demoRng).attempts = 100) ∧
      collides demoDigitStore (candidate (generateRandomPassword 1 digitsOnly) demoRng 99).1
        = true :=
  ⟨(generateUniquePassword_result 4 ⟨true, true, true, true⟩ [demoStored "MYlx"] demoRng).1 1
      (by decide) (by decide) (by decide),
    (generateUniquePassword_result 1 digitsOnly demoDigitStore demoRng).2.1 demo_all_collide,
    demo_all_collide 99 (by decide)⟩

/-- Run of C17: eight characters from uppercase letters and digits. -/
theorem generateRandomPassword_spec_witness :
    (generateRandomPassword 8 ⟨true, false, true, false⟩ demoRng).1 = "EJOTY38B" ∧
      (generateRandomPassword 8 ⟨true, false, true, false⟩ demoRng).1.data.length = 8 :=
  ⟨by decide,
    (generateRandomPassword_spec 8 ⟨true, false, true, false⟩ demoRng (Or.inl rfl)).1⟩

/-! ## Expiration status -/

/-- The instant `setDate(getDate() + n)` leads to: `n` days on, shifted by the change of the
offset between the start and the new local time. -/
theorem setDateAhead_eq (zone : Zone) (t n : Int) :
    setDateAhead zone t n
      = t + n * msPerDay
        + (zone.offsetAt t - zone.offsetOfLocal (t + zone.offsetAt t + n * msPerDay)) := by
  simp only [setDateAhead]
  have h := Int.ediv_add_emod (t + zone.offsetAt t) msPerDay
  have h2 : ((t + zone.offsetAt t) / msPerDay + n) * msPerDay + (t + zone.offsetAt t) % msPerDay
      = t + zone.offsetAt t + n * msPerDay := by
    have h3 : ((t + zone.offsetAt t) / msPerDay + n) * msPerDay
        = msPerDay * ((t + zone.offsetAt t) / msPerDay) + n * msPerDay := by ring
    rw [h3]
    omega
  rw [h2]
  omega

/-- In a zone without offset changes `setDate(getDate() + n)` adds exactly `n` days. -/
theorem setDateAhead_fixed (tzOffset t n : Int) :
    setDateAhead (fixedZone tzOffset) t n = t + n * msPerDay := by
  rw [setDateAhead_eq]
  simp only [fixedZone]
  omega

theorem ceilDiv_eq_ceil (a : Int) : ceilDiv a msPerDay = ⌈(a : ℚ) / (msPerDay : ℚ)⌉ := by
  have h2 : msPerDay = ((86400000 : ℕ) : Int) := by norm_num [msPerDay]
  have h3 : (a : ℚ) / (msPerDay : ℚ) = -(((-a : Int) : ℚ) / ((86400000 : ℕ) : ℚ)) := by
    rw [h2]; push_cast; ring
  rw [h3, Int.ceil_neg, Rat.floor_intCast_div_natCast, ceilDiv, h2]

theorem floorDiv_eq_floor (a : Int) : a / msPerDay = ⌊(a : ℚ) / (msPerDay : ℚ)⌋ := by
  have h2 : msPerDay = ((86400000 : ℕ) : Int) := by norm_num [msPerDay]
  rw [h2]
  exact (Rat.floor_intCast_div_natCast a 86400000).symm

/-- The function in closed form: the three branches on the days from the current time to the
expiration instant `setDateAhead zone created 30`. -/
theorem getPasswordExpirationStatus_eq (zone : Zone) (c t : Int) :
    getPasswordExpirationStatus zone c t =
      if ceilDiv (setDateAhead zone c 30 - t) msPerDay ≤ 0 then
        { status := "expired", days := -ceilDiv (setDateAhead zone c 30 - t) msPerDay }
      else if ceilDiv (setDateAhead zone c 30 - t) msPerDay ≤ 5 then
        { status := "expiring-soon", days := ceilDiv (setDateAhead zone c 30 - t) msPerDay }
      else { status := "valid", days := ceilDiv (setDateAhead zone c 30 - t) msPerDay } := by
  simp only [getPasswordExpirationStatus]
  generalize ceilDiv (setDateAhead zone c 30 - t) msPerDay = d
  split_ifs with h1
  · have : ((d.natAbs : Nat) : Int) = -d := by omega
    rw [this]
  · rfl
  · rfl

/-- The days remaining are at most `k` exactly when the current time is at least `k` days
before the expiration instant. -/
theorem ceilDiv_le_iff (a k : Int) : ceilDiv a msPerDay ≤ k ↔ a ≤ k * msPerDay := by
  simp only [ceilDiv, msPerDay]
  omega

/-- C21. With `d = ceil((c + 30 days - t) / 1 day)`, `getPasswordExpirationStatus` returns
`expired` with `days = -d` when `d ≤ 0`, `expiring-soon` with `days = d` when `1 ≤ d ≤ 5` and
`valid` with `days = d` otherwise, in every time zone with a fixed offset; a record is expired
exactly from the expiration instant on, and the days reported for an expired record are the
whole days elapsed since then, `floor((t - (c + 30 days)) / 1 day)`. -/
theorem getPasswordExpirationStatus_spec (tzOffset c t : Int) :
    getPasswordExpirationStatus (fixedZone tzOffset) c t
        = specExpirationStatus ⌈((c + 30 * msPerDay - t : Int) : ℚ) / (msPerDay : ℚ)⌉ ∧
      ((getPasswordExpirationStatus (fixedZone tzOffset) c t).status = "expired" ↔
        c + 30 * msPerDay ≤ t) ∧
      ((getPasswordExpirationStatus (fixedZone tzOffset) c t).status = "expired" →
        (getPasswordExpirationStatus (fixedZone tzOffset) c t).days
          = ⌊((t - (c + 30 * msPerDay) : Int) : ℚ) / (msPerDay : ℚ)⌋) := by
  rw [← ceilDiv_eq_ceil, ← floorDiv_eq_floor, getPasswordExpirationStatus_eq,
    setDateAhead_fixed]
  have hle := ceilDiv_le_iff (c + 30 * msPerDay - t) 0
  have hneg : -ceilDiv (c + 30 * msPerDay - t) msPerDay = (t - (c + 30 * msPerDay)) / msPerDay := by
    simp only [ceilDiv, neg_neg, neg_sub]
  generalize ceilDiv (c + 30 * msPerDay - t) msPerDay = d at hle hneg ⊢
  have e1 : ("expiring-soon" : String) ≠ "expired" := by decide
  have e2 : ("valid" : String) ≠ "expired" := by decide
  refine ⟨?_, ?_, ?_⟩
  · simp only [specExpirationStatus]
    split_ifs with h1 h2 h3 h4
    · rfl
    · rfl
    · omega
    · omega
    · rfl
  · split_ifs with h1 h2
    · simp only [true_iff]; omega
    · simp only [e1, false_iff]; omega
    · simp only [e2, false_iff]; omega
  · split_ifs with h1 h2
    · intro _; exact hneg
    · intro h; exact absurd h e1
    · intro h; exact absurd h e2

/-- C21 on a record created at the epoch and looked at 32 days and 5 hours later. -/
theorem getPasswordExpirationStatus_spec_witness :
    getPasswordExpirationStatus (fixedZone 3600000) 0 2782800000 = ⟨"expired", 2⟩ ∧
      (2 : Int) = ⌊((2782800000 - (0 + 30 * msPerDay) : Int) : ℚ) / (msPerDay : ℚ)⌋ :=
  ⟨by decide,
    (getPasswordExpirationStatus_spec 3600000 0 2782800000).2.2 (by decide)⟩

/-- C22 (as amended). Boundaries in a time zone without offset changes, at any current time `t`:
a record created exactly 30 days before `t` is `expired` with `days = 0`, one created exactly
25 days before is `expiring-soon` with `days = 5`, one created exactly 24 days before is
`valid` (with 6 days). -/
theorem getPasswordExpirationStatus_boundaries (tzOffset t : Int) :
    getPasswordExpirationStatus (fixedZone tzOffset) (t - 30 * msPerDay) t = ⟨"expired", 0⟩ ∧
      getPasswordExpirationStatus (fixedZone tzOffset) (t - 25 * msPerDay) t
        = ⟨"expiring-soon", 5⟩ ∧
      getPasswordExpirationStatus (fixedZone tzOffset) (t - 24 * msPerDay) t = ⟨"valid", 6⟩ := by
  have h0 : ceilDiv (t - 30 * msPerDay + 30 * msPerDay - t) msPerDay = 0 := by
    simp only [ceilDiv, msPerDay]; omega
  have h5 : ceilDiv (t - 25 * msPerDay + 30 * msPerDay - t) msPerDay = 5 := by
    simp only [ceilDiv, msPerDay]; omega
  have h6 : ceilDiv (t - 24 * msPerDay + 30 * msPerDay - t) msPerDay = 6 := by
    simp only [ceilDiv, msPerDay]; omega
  refine ⟨?_, ?_, ?_⟩
  · rw [getPasswordExpirationStatus_eq, setDateAhead_fixed, h0]; rfl
  · rw [getPasswordExpirationStatus_eq, setDateAhead_fixed, h5]; rfl
  · rw [getPasswordExpirationStatus_eq, setDateAhead_fixed, h6]; rfl

/-- C22 (counterexample). In a zone that leaves daylight-saving time between creation and
expiry, a record created on 2025-10-09T08:53:20Z, exactly 30 days and 0 seconds before the
current time, is not `expired` with `days = 0`: its expiry is 30 days and one hour after its
creation, and it is `expiring-soon` with `days = 1`. -/
theorem getPasswordExpirationStatus_boundary_across_dst :
    setDateAhead demoAutumnZone 1760000000000 30 = 1760000000000 + 30 * msPerDay + 3600000 ∧
      getPasswordExpirationStatus demoAutumnZone 1760000000000 (1760000000000 + 30 * msPerDay)
        = ⟨"expiring-soon", 1⟩ ∧
      getPasswordExpirationStatus demoAutumnZone 1760000000000 (1760000000000 + 30 * msPerDay)
        ≠ ⟨"expired", 0⟩ := by
  decide

theorem ceilDiv_mono (a b : Int) (h : a ≤ b) : ceilDiv a msPerDay ≤ ceilDiv b msPerDay := by
  simp only [ceilDiv, msPerDay]
  omega

/-- C29. For a fixed creation time and current times `t1 ≤ t2`, in any time zone: a record
expired at `t1` is expired at `t2`, and a record expiring soon at `t1` is not valid at `t2`. -/
theorem getPasswordExpirationStatus_never_improves (zone : Zone) (c t1 t2 : Int)
    (h : t1 ≤ t2) :
    ((getPasswordExpirationStatus zone c t1).status = "expired" →
        (getPasswordExpirationStatus zone c t2).status = "expired") ∧
      ((getPasswordExpirationStatus zone c t1).status = "expiring-soon" →
        (getPasswordExpirationStatus zone c t2).status ≠ "valid") := by
  have hm := ceilDiv_mono (setDateAhead zone c 30 - t2) (setDateAhead zone c 30 - t1) (by omega)
  rw [getPasswordExpirationStatus_eq, getPasswordExpirationStatus_eq]
  generalize ceilDiv (setDateAhead zone c 30 - t1) msPerDay = d1 at hm ⊢
  generalize ceilDiv (setDateAhead zone c 30 - t2) msPerDay = d2 at hm ⊢
  have e1 : ("expiring-soon" : String) ≠ "expired" := by decide
  have e2 : ("valid" : String) ≠ "expired" := by decide
  have e3 : ("valid" : String) ≠ "expiring-soon" := by decide
  have e4 : ("expired" : String) ≠ "valid" := by decide
  have e5 : ("expired" : String) ≠ "expiring-soon" := by decide
  constructor
  · split_ifs with a1 a2 b1 b2 <;> first | (intro _; rfl) | (intro hx; first | exact absurd hx e1 | exact absurd hx e2) | omega
  · split_ifs with a1 a2 b1 b2 <;>
      first
        | (intro hx; first | exact absurd hx e5 | exact absurd hx e3)
        | (intro _; first | exact e4 | exact e3.symm)
        | omega

/-- C29 on a record created at the epoch: expiring soon on day 27, and not valid six days
later (it is expired by then). -/
theorem getPasswordExpirationStatus_never_improves_witness :
    (27 * msPerDay ≤ 33 * msPerDay) ∧
      (getPasswordExpirationStatus (fixedZone 0) 0 (27 * msPerDay)).status = "expiring-soon" ∧
      (getPasswordExpirationStatus (fixedZone 0) 0 (33 * msPerDay)).status ≠ "valid" :=
  ⟨by decide, by decide,
    (getPasswordExpirationStatus_never_improves (fixedZone 0) 0 (27 * msPerDay)
      (33 * msPerDay) (by decide)).2 (by decide)⟩

/-! ## Import merge: uniqueness and idempotence -/

theorem findIndex_none_forall (p : Record → Bool) (db : List Record)
    (h : findIndex p db = none) : ∀ e ∈ db, p e = false := by
  induction db with
  | nil => intro e he; simp at he
  | cons a t ih =>
    simp only [findIndex] at h
    by_cases ha : p a = true
    · simp [ha] at h
    · have ha2 : p a = false := by simpa using ha
      simp only [ha2, Bool.false_eq_true, if_false, Option.map_eq_none'] at h
      intro e he
      rcases List.mem_cons.mp he with rfl | he
      · exact ha2
      · exact ih h e he

theorem findIndex_isSome_iff (db : List Record) (r : Record) :
    (findIndex (fun existing => existing.site == r.site && existing.username == r.username)
      db).isSome = true ↔ ∃ e ∈ db, sameKey e r := by
  constructor
  · intro h
    by_contra hno
    have hnone := findIndex_eq_none
      (fun existing => existing.site == r.site && existing.username == r.username) db
      (by
        intro e he
        by_cases h1 : e.site = r.site
        · by_cases h2 : e.username = r.username
          · exact absurd ⟨e, he, h1, h2⟩ hno
          · simp [h2]
        · simp [h1])
    rw [hnone] at h
    simp at h
  · rintro ⟨e, he, h1, h2⟩
    cases hf : findIndex
        (fun existing => existing.site == r.site && existing.username == r.username) db with
    | some i => rfl
    | none =>
      have := findIndex_none_forall _ db hf e he
      simp [h1, h2] at this

/-- One iteration of the merge: a record whose pair is in the store leaves the store as it is;
any other record is appended with its own site and username. -/
theorem importRecord_cases (freshId now : String) (db : List Record) (r : Record) :
    ((∃ e ∈ db, sameKey e r) ∧ importRecord freshId now db r = db) ∨
      ((∀ e ∈ db, ¬ sameKey e r) ∧
        ∃ n, importRecord freshId now db r = db ++ [n] ∧ sameKey n r) := by
  by_cases h : ∃ e ∈ db, sameKey e r
  · left
    refine ⟨h, ?_⟩
    simp only [importRecord]
    rw [if_pos ((findIndex_isSome_iff db r).mpr h)]
  · right
    refine ⟨fun e he hs => h ⟨e, he, hs⟩,
      { r with id := orElse r.id freshId, createdAt := orElse r.createdAt now }, ?_, rfl, rfl⟩
    have hn : ¬ (findIndex
        (fun existing => existing.site == r.site && existing.username == r.username)
        db).isSome = true := fun hs => h ((findIndex_isSome_iff db r).mp hs)
    simp only [importRecord]
    rw [if_neg hn]

theorem importRecord_unique (freshId now : String) (db : List Record) (r : Record)
    (h : UniqueKeys db) : UniqueKeys (importRecord freshId now db r) := by
  rcases importRecord_cases freshId now db r with ⟨_, heq⟩ | ⟨hno, n, heq, hn⟩
  · rw [heq]; exact h
  · rw [heq]
    unfold UniqueKeys at h ⊢
    rw [List.pairwise_append]
    refine ⟨h, List.pairwise_singleton _ _, ?_⟩
    intro a ha b hb
    rw [List.mem_singleton] at hb
    subst hb
    intro hs
    exact hno a ha ⟨hs.1.trans hn.1, hs.2.trans hn.2⟩

theorem importMergeFrom_unique (uid clock : Nat → String) (incoming : List Record) :
    ∀ (i : Nat) (db : List Record), UniqueKeys db →
      UniqueKeys (importMergeFrom uid clock i db incoming) := by
  induction incoming with
  | nil => intro i db h; exact h
  | cons r rest ih =>
    intro i db h
    exact ih (i + 1) _ (importRecord_unique (uid i) (clock i) db r h)

/-- C26. Import-merge keeps the (site, username) pairs of the store unique: when no two records
of the store share a pair before the import handler runs, no two share one afterwards, for
every incoming list, also one in which several records carry the same pair. -/
theorem confirmImport_preserves_unique (pf : Platform (List Record)) (env : Env)
    (uid clock : Nat → String) (importedPasswords : List Record) (localIv salt iv : Bytes)
    (w : World) (h : UniqueKeys w.passwordDatabase) :
    UniqueKeys
      (confirmImport pf env uid clock importedPasswords localIv salt iv w).2.passwordDatabase := by
  rw [confirmImport_passwordDatabase]
  exact importMergeFrom_unique uid clock importedPasswords 0 w.passwordDatabase h

/-- Run of C26: the incoming list holds the pair of `demoIncoming` three times and the pair of
the stored record once; the store ends with two records. -/
theorem confirmImport_preserves_unique_witness :
    UniqueKeys demoOpenWorld.passwordDatabase ∧
      ¬ UniqueKeys demoBatch ∧
      ((confirmImport demoVault demoEnv demoUid demoClock demoBatch demoIv demoSalt demoIv
        demoOpenWorld).2.passwordDatabase).length = 2 ∧
      UniqueKeys (confirmImport demoVault demoEnv demoUid demoClock demoBatch demoIv demoSalt
        demoIv demoOpenWorld).2.passwordDatabase :=
  ⟨by decide, by decide, by decide,
    confirmImport_preserves_unique demoVault demoEnv demoUid demoClock demoBatch demoIv demoSalt
      demoIv demoOpenWorld (by decide)⟩

theorem covered_of_extends (db db2 : List Record) (r : Record) (hp : db <+: db2)
    (h : ∃ e ∈ db, sameKey e r) : ∃ e ∈ db2, sameKey e r := by
  obtain ⟨e, he, hs⟩ := h
  obtain ⟨t, ht⟩ := hp
  exact ⟨e, by rw [← ht]; exact List.mem_append_left _ he, hs⟩

theorem importRecord_covers (freshId now : String) (db : List Record) (r : Record) :
    ∃ e ∈ importRecord freshId now db r, sameKey e r := by
  rcases importRecord_cases freshId now db r with ⟨hex, heq⟩ | ⟨_, n, heq, hn⟩
  · rw [heq]; exact hex
  · rw [heq]; exact ⟨n, by simp, hn⟩

/-- After the merge every incoming record finds its pair in the store. -/
theorem importMergeFrom_covers (uid clock : Nat → String) (incoming : List Record) :
    ∀ (i : Nat) (db : List Record), ∀ r ∈ incoming,
      ∃ e ∈ importMergeFrom uid clock i db incoming, sameKey e r := by
  induction incoming with
  | nil => intro i db r hr; simp at hr
  | cons a rest ih =>
    intro i db r hr
    rcases List.mem_cons.mp hr with rfl | hr
    · exact covered_of_extends _ _ _
        (importMergeFrom_extends uid clock rest (i + 1) (importRecord (uid i) (clock i) db r))
        (importRecord_covers (uid i) (clock i) db r)
    · exact ih (i + 1) _ r hr

/-- A merge of records whose pairs are all in the store appends nothing. -/
theorem importMergeFrom_of_covered (uid clock : Nat → String) (incoming : List Record) :
    ∀ (i : Nat) (db : List Record), (∀ r ∈ incoming, ∃ e ∈ db, sameKey e r) →
      importMergeFrom uid clock i db incoming = db := by
  induction incoming with
  | nil => intro i db _; rfl
  | cons a rest ih =>
    intro i db h
    have ha : importRecord (uid i) (clock i) db a = db := by
      rcases importRecord_cases (uid i) (clock i) db a with ⟨_, heq⟩ | ⟨hno, _⟩
      · exact heq
      · obtain ⟨e, he, hs⟩ := h a (by simp)
        exact absurd hs (hno e he)
    simp only [importMergeFrom, ha]
    exact ih (i + 1) db (fun r hr => h r (by simp [hr]))

/-- C27. Import-merge is idempotent: running the import handler on the incoming list `I` a second
time, on the world the first run left (in any browser, with any identifiers and clock), appends
nothing: the store after the second run is the store after the first. -/
theorem confirmImport_idempotent (pf pf2 : Platform (List Record)) (env env2 : Env)
    (uid clock uid2 clock2 : Nat → String) (importedPasswords : List Record)
    (localIv salt iv localIv2 salt2 iv2 : Bytes) (w : World) :
    (confirmImport pf2 env2 uid2 clock2 importedPasswords localIv2 salt2 iv2
        (confirmImport pf env uid clock importedPasswords localIv salt iv w).2).2.passwordDatabase
      = (confirmImport pf env uid clock importedPasswords localIv salt iv w).2.passwordDatabase := by
  rw [confirmImport_passwordDatabase, confirmImport_passwordDatabase]
  exact importMergeFrom_of_covered uid2 clock2 importedPasswords 0 _
    (importMergeFrom_covers uid clock importedPasswords 0 w.passwordDatabase)

/-! ## Saving one credential -/

theorem findIndex_some (p : Record → Bool) :
    ∀ (db : List Record) (i : Nat), findIndex p db = some i →
      (∃ e, db[i]? = some e ∧ p e = true) ∧
        ∀ (j : Nat) (e : Record), j < i → db[j]? = some e → p e = false := by
  intro db
  induction db with
  | nil => intro i h; simp [findIndex] at h
  | cons a t ih =>
    intro i h
    simp only [findIndex] at h
    by_cases ha : p a = true
    · simp only [ha, if_true, Option.some.injEq] at h
      subst h
      exact ⟨⟨a, by simp, ha⟩, fun j e hj _ => absurd hj (Nat.not_lt_zero j)⟩
    · have ha2 : p a = false := by simpa using ha
      simp only [ha2, Bool.false_eq_true, if_false, Option.map_eq_some'] at h
      obtain ⟨k, hk, rfl⟩ := h
      obtain ⟨⟨e, he, hpe⟩, hbefore⟩ := ih k hk
      refine ⟨⟨e, by simpa using he, hpe⟩, ?_⟩
      intro j e2 hj hget
      cases j with
      | zero =>
        simp only [List.getElem?_cons_zero, Option.some.injEq] at hget
        subst hget
        exact ha2
      | succ j =>
        simp only [List.getElem?_cons_succ] at hget
        exact hbefore j e2 (by omega) hget

theorem showNotification_passwordDatabase (message : String) (w : World) :
    (showNotification message w).2.passwordDatabase = w.passwordDatabase := by
  rw [showNotification_eq]
  split_ifs <;> rfl

theorem saveAndNotify_passwordDatabase (pf : Platform (List Record)) (env : Env)
    (localIv salt iv : Bytes) (w : World) :
    (saveAndNotify pf env localIv salt iv w).2.passwordDatabase = w.passwordDatabase := by
  have h := savePasswords_passwordDatabase pf env localIv salt iv w
  simp only [saveAndNotify, JS.bind, js_bind_eq]
  rcases hs : savePasswords pf env localIv salt iv w with ⟨r, w1⟩
  rw [hs] at h
  simp only at h
  cases r with
  | error e => exact h
  | ok b =>
    cases b
    · simp only [Bool.false_eq_true, if_false]
      rw [showNotification_passwordDatabase]
      exact h
    · simp only [if_true]
      rw [showNotification_passwordDatabase]
      exact h

/-- What a confirmed overwrite leaves in memory: the record at the index `findIndex` returned
is rebuilt, nothing else moves. -/
theorem savePasswordToDatabase_overwrite (pf : Platform (List Record)) (env : Env)
    (site username password freshId : String) (clock : Nat → String) (localIv salt iv : Bytes)
    (w : World) (i : Nat)
    (h : findIndex (fun entry => entry.site == some site && entry.username == some username)
      w.passwordDatabase = some i) :
    (savePasswordToDatabase pf env site username password true freshId clock localIv salt iv
        w).2.passwordDatabase
      = w.passwordDatabase.modify
          (fun existing =>
            { existing with
                site := some site
                username := some username
                password := some password
                createdAt := some (clock 0)
                updatedAt := some (clock 1) })
          i := by
  simp only [savePasswordToDatabase, JS.bind, js_bind_eq, getPasswordDatabase, h, if_true,
    setPasswordDatabase]
  have hn := showNotification_passwordDatabase passwordUpdatedMessage
    { w with passwordDatabase := (w.passwordDatabase.modify
        (fun existing =>
          { existing with
              site := some site
              username := some username
              password := some password
              createdAt := some (clock 0)
              updatedAt := some (clock 1) })
        i) }
  rcases hs : showNotification passwordUpdatedMessage
    { w with passwordDatabase := (w.passwordDatabase.modify
        (fun existing =>
          { existing with
              site := some site
              username := some username
              password := some password
              createdAt := some (clock 0)
              updatedAt := some (clock 1) })
        i) } with ⟨r, w1⟩
  rw [hs] at hn
  simp only at hn
  cases r with
  | error e => exact hn
  | ok u =>
    simp only
    rw [saveAndNotify_passwordDatabase]
    exact hn

/-- C25. When the store holds a record with the given site and username and the user confirms,
`savePasswordToDatabase` replaces the first such record, at its index `i`, by a record with
the same id, site and username, the new password, and createdAt and updatedAt read from the
clock during the call; the store keeps its length and every record at another index. -/
theorem savePasswordToDatabase_overwrites_in_place (pf : Platform (List Record)) (env : Env)
    (site username password freshId : String) (clock : Nat → String) (localIv salt iv : Bytes)
    (w : World)
    (hex : ∃ e ∈ w.passwordDatabase, e.site = some site ∧ e.username = some username) :
    ∃ (i : Nat) (old : Record),
      w.passwordDatabase[i]? = some old ∧
      old.site = some site ∧ old.username = some username ∧
      (∀ (j : Nat) (e : Record), j < i → w.passwordDatabase[j]? = some e →
        ¬(e.site = some site ∧ e.username = some username)) ∧
      (savePasswordToDatabase pf env site username password true freshId clock localIv salt iv
          w).2.passwordDatabase[i]?
        = some { id := old.id, site := some site, username := some username,
                 password := some password, createdAt := some (clock 0),
                 updatedAt := some (clock 1) } ∧
      (savePasswordToDatabase pf env site username password true freshId clock localIv salt iv
          w).2.passwordDatabase.length = w.passwordDatabase.length ∧
      ∀ j, j ≠ i →
        (savePasswordToDatabase pf env site username password true freshId clock localIv salt
          iv w).2.passwordDatabase[j]? = w.passwordDatabase[j]? := by
  cases hf : findIndex (fun entry => entry.site == some site && entry.username == some username)
      w.passwordDatabase with
  | none =>
    obtain ⟨e, he, h1, h2⟩ := hex
    have := findIndex_none_forall _ _ hf e he
    simp [h1, h2] at this
  | some i =>
    obtain ⟨⟨old, hold, hp⟩, hbefore⟩ := findIndex_some _ _ i hf
    simp only [Bool.and_eq_true, beq_iff_eq] at hp
    refine ⟨i, old, hold, hp.1, hp.2, ?_, ?_, ?_, ?_⟩
    · intro j e hj hget hm
      have := hbefore j e hj hget
      simp [hm.1, hm.2] at this
    · rw [savePasswordToDatabase_overwrite _ _ _ _ _ _ _ _ _ _ _ i hf, List.getElem?_modify, hold]
      simp
    · rw [savePasswordToDatabase_overwrite _ _ _ _ _ _ _ _ _ _ _ i hf, List.length_modify]
    · intro j hj
      rw [savePasswordToDatabase_overwrite _ _ _ _ _ _ _ _ _ _ _ i hf, List.getElem?_modify]
      cases w.passwordDatabase[j]? with
      | none => rfl
      | some e => simp [Ne.symm hj]

/-- Run of C25 on a store whose second and third record share site and username: the second one
is rewritten, the first and the third stay. -/
theorem savePasswordToDatabase_overwrites_in_place_witness :
    (∃ e ∈ demoThreeWorld.passwordDatabase, e.site = some "ss" ∧ e.username = some "ada") ∧
      (savePasswordToDatabase demoVault demoEnv "ss" "ada" "n3w" true "fresh" demoTicks demoIv
          demoSalt demoIv demoThreeWorld).2.passwordDatabase
        = [demoRecord 3,
            { demoRecord 2 with password := some "n3w"
                                createdAt := some "2025-06-01T12:00:00.000Z"
                                updatedAt := some "2025-06-01T12:00:00.001Z" },
            { demoRecord 2 with id := some "zz" }] ∧
      ∃ (i : Nat) (old : Record),
        demoThreeWorld.passwordDatabase[i]? = some old ∧
        old.site = some "ss" ∧ old.username = some "ada" ∧
        (∀ (j : Nat) (e : Record), j < i → demoThreeWorld.passwordDatabase[j]? = some e →
          ¬(e.site = some "ss" ∧ e.username = some "ada")) ∧
        (savePasswordToDatabase demoVault demoEnv "ss" "ada" "n3w" true "fresh" demoTicks demoIv
            demoSalt demoIv demoThreeWorld).2.passwordDatabase[i]?
          = some { id := old.id, site := some "ss", username := some "ada",
                   password := some "n3w", createdAt := some (demoTicks 0),
                   updatedAt := some (demoTicks 1) } ∧
        (savePasswordToDatabase demoVault demoEnv "ss" "ada" "n3w" true "fresh" demoTicks demoIv
            demoSalt demoIv demoThreeWorld).2.passwordDatabase.length
          = demoThreeWorld.passwordDatabase.length ∧
        ∀ j, j ≠ i →
          (savePasswordToDatabase demoVault demoEnv "ss" "ada" "n3w" true "fresh" demoTicks
            demoIv demoSalt demoIv demoThreeWorld).2.passwordDatabase[j]?
            = demoThreeWorld.passwordDatabase[j]? :=
  ⟨⟨demoRecord 2, by decide, by decide, by decide⟩, by decide,
    savePasswordToDatabase_overwrites_in_place demoVault demoEnv "ss" "ada" "n3w" "fresh"
      demoTicks demoIv demoSalt demoIv demoThreeWorld
      ⟨demoRecord 2, by decide, by decide, by decide⟩⟩

/-! ## The fingerprint key -/

theorem fingerprint_eq (env : Env) :
    fingerprint env = env.userAgent ++ "|" ++ env.language ++ "|" ++ env.platform ++ "|" ++
      toString env.screenWidth ++ "|" ++ toString env.screenHeight ++ "|" ++
      toString env.colorDepth ++ "|" ++ toString env.timezoneOffset ++ "|" ++
      (match env.hardwareConcurrency with
        | some n => if n = 0 then "unknown" else toString n
        | none => "unknown") := rfl

theorem digitChar_latin1 (d : Nat) : (Nat.digitChar d).toNat < 256 := by
  rcases Nat.lt_or_ge d 16 with h | h
  · interval_cases d <;> decide
  · have hstar : Nat.digitChar d = '*' := by
      unfold Nat.digitChar
      iterate 16 rw [if_neg (by omega)]
    rw [hstar]
    decide

theorem toDigitsCore_latin1 (fuel : Nat) :
    ∀ (n : Nat) (acc : List Char), (∀ c ∈ acc, c.toNat < 256) →
      ∀ c ∈ Nat.toDigitsCore 10 fuel n acc, c.toNat < 256 := by
  induction fuel with
  | zero => intro n acc h; simpa [Nat.toDigitsCore] using h
  | succ f ih =>
    intro n acc h
    simp only [Nat.toDigitsCore]
    have hacc : ∀ c ∈ Nat.digitChar (n % 10) :: acc, c.toNat < 256 := by
      intro c hc
      rcases List.mem_cons.mp hc with rfl | hc
      · exact digitChar_latin1 _
      · exact h c hc
    split_ifs
    · exact hacc
    · exact ih _ _ hacc

theorem natToString_latin1 (n : Nat) : Latin1 (toString n) := by
  intro c hc
  exact toDigitsCore_latin1 (n + 1) n [] (by simp) c hc

theorem intToString_latin1 (x : Int) : Latin1 (toString x) := by
  cases x with
  | ofNat m => exact natToString_latin1 m
  | negSucc m =>
    intro c hc
    have : (toString (Int.negSucc m)) = "-" ++ toString (m.succ) := rfl
    rw [this, String.data_append] at hc
    rcases List.mem_append.mp hc with h | h
    · simp at h; subst h; decide
    · exact natToString_latin1 _ c h

theorem Latin1_append (a b : String) (ha : Latin1 a) (hb : Latin1 b) : Latin1 (a ++ b) := by
  intro c hc
  rw [String.data_append] at hc
  rcases List.mem_append.mp hc with h | h
  · exact ha c h
  · exact hb c h

/-- The joined fingerprint is Latin-1 as soon as its three free-text parts are: the numbers
print as digits and a sign. -/
theorem fingerprint_latin1 (env : Env) (hu : Latin1 env.userAgent) (hl : Latin1 env.language)
    (hp : Latin1 env.platform) : Latin1 (fingerprint env) := by
  have bar : Latin1 "|" := by intro c hc; simp at hc; subst hc; decide
  have hc : Latin1 (match env.hardwareConcurrency with
      | some n => if n = 0 then "unknown" else toString n
      | none => "unknown") := by
    cases env.hardwareConcurrency with
    | none => decide
    | some n =>
      simp only
      split_ifs
      · decide
      · exact natToString_latin1 n
  rw [fingerprint_eq]
  iterate 14 apply Latin1_append
  all_goals first | assumption | exact intToString_latin1 _

theorem b64Body_append (n : Nat) :
    ∀ (a t : Bytes), a.length = 3 * n → b64Body (a ++ t) = b64Body a ++ b64Body t := by
  induction n with
  | zero =>
    intro a t h
    have : a = [] := List.length_eq_zero.mp (by omega)
    subst this
    simp [b64Body]
  | succ k ih =>
    intro a t h
    match a, h with
    | x :: y :: z :: rest, h =>
      have hr : rest.length = 3 * k := by simp only [List.length_cons] at h; omega
      show b64Body (x :: y :: z :: (rest ++ t)) = b64Body (x :: y :: z :: rest) ++ b64Body t
      simp only [b64Body, ih rest t hr, List.cons_append]

/-- The first 32 characters of a base64 text encode the first 24 bytes and nothing else. -/
theorem b64Encode_take (a t : Bytes) (h : a.length = 24) :
    (b64Encode (a ++ t)).take 32 = b64Encode a := by
  have hlen : ((b64Body a).map b64Char).length = 32 := by
    rw [List.length_map, b64Body_length, h]
    rfl
  have hpad : b64Pad a.length = [] := by rw [h]; rfl
  simp only [b64Encode, b64Body_append 8 a t (by omega), List.map_append, List.append_assoc, hpad,
    List.append_nil]
  rw [List.take_append_of_le_length (by omega), List.take_of_length_le (by omega)]

/-- The value of `generateLocalStorageKey()`: `btoa` of the first 24 characters of the user
agent. -/
theorem generateLocalStorageKey_eq (env : Env) (w : World) (hu : Latin1 env.userAgent)
    (hl : Latin1 env.language) (hp : Latin1 env.platform) (hlen : 24 ≤ env.userAgent.length) :
    generateLocalStorageKey env w
      = (.ok (String.mk
          (b64Encode ((env.userAgent.data.take 24).map (fun c => toByte c.toNat)))), w) := by
  have hlat := fingerprint_latin1 env hu hl hp
  have hall : (fingerprint env).data.all (fun c => decide (c.toNat < 256)) = true := by
    rw [List.all_eq_true]
    intro c hc
    exact decide_eq_true (hlat c hc)
  obtain ⟨rest, hrest⟩ : ∃ rest : List Char,
      (fingerprint env).data = env.userAgent.data.take 24 ++ rest := by
    refine ⟨env.userAgent.data.drop 24 ++ ("|" ++ env.language ++ "|" ++ env.platform ++ "|" ++
      toString env.screenWidth ++ "|" ++ toString env.screenHeight ++ "|" ++
      toString env.colorDepth ++ "|" ++ toString env.timezoneOffset ++ "|" ++
      (match env.hardwareConcurrency with
        | some n => if n = 0 then "unknown" else toString n
        | none => "unknown")).data, ?_⟩
    rw [fingerprint_eq, ← List.append_assoc, List.take_append_drop]
    simp only [String.data_append, List.append_assoc]
  have htake : ((env.userAgent.data.take 24).map (fun c => toByte c.toNat)).length = 24 := by
    rw [List.length_map, List.length_take]
    have : env.userAgent.data.length = env.userAgent.length := rfl
    omega
  simp only [generateLocalStorageKey, btoa, hall, if_true, JS.bind, js_bind_eq, js_pure_eq,
    JS.pure]
  rw [hrest, List.map_append, b64Encode_take _ _ htake]

/-- C28. Two environments whose user agents are Latin-1 strings of at least 24 characters that
agree on the first 24 get the same 32-character key from `generateLocalStorageKey`, whatever
their (Latin-1) language and platform names, screen width, height and colour depth, time zone
offset and processor count are: the key is `btoa` of those 24 characters. -/
theorem generateLocalStorageKey_first24 (env1 env2 : Env) (w1 w2 : World)
    (hu1 : Latin1 env1.userAgent) (hu2 : Latin1 env2.userAgent)
    (hl1 : Latin1 env1.language) (hl2 : Latin1 env2.language)
    (hp1 : Latin1 env1.platform) (hp2 : Latin1 env2.platform)
    (hlen1 : 24 ≤ env1.userAgent.length) (hlen2 : 24 ≤ env2.userAgent.length)
    (hagree : env1.userAgent.data.take 24 = env2.userAgent.data.take 24) :
    ∃ key : String, key.length = 32 ∧
      generateLocalStorageKey env1 w1 = (.ok key, w1) ∧
      generateLocalStorageKey env2 w2 = (.ok key, w2) := by
  refine ⟨String.mk (b64Encode ((env1.userAgent.data.take 24).map (fun c => toByte c.toNat))),
    ?_, generateLocalStorageKey_eq env1 w1 hu1 hl1 hp1 hlen1, ?_⟩
  · have htake : ((env1.userAgent.data.take 24).map (fun c => toByte c.toNat)).length = 24 := by
      rw [List.length_map, List.length_take]
      have : env1.userAgent.data.length = env1.userAgent.length := rfl
      omega
    have h := b64Encode_take _ [] htake
    rw [List.append_nil] at h
    show (b64Encode _).length = 32
    rw [← h, List.length_take]
    have h4 := b64Body_length ((env1.userAgent.data.take 24).map (fun c => toByte c.toNat))
    rw [htake] at h4
    simp only [b64Encode, List.length_append, List.length_map, h4]
    simp
  · rw [hagree]
    exact generateLocalStorageKey_eq env2 w2 hu2 hl2 hp2 hlen2

/-- Run of C28: a Firefox on x86-64 and a Chrome on ARM, on different screens and in different
time zones, get the same key. -/
theorem generateLocalStorageKey_first24_witness :
    demoEnv.language ≠ demoOtherEnv.language ∧ demoEnv.platform ≠ demoOtherEnv.platform ∧
      demoEnv.userAgent ≠ demoOtherEnv.userAgent ∧
      (generateLocalStorageKey demoEnv emptyWorld).1
        = .ok "TW96aWxsYS81LjAgKFgxMTsgTGludXgg" ∧
      ∃ key : String, key.length = 32 ∧
        generateLocalStorageKey demoEnv emptyWorld = (.ok key, emptyWorld) ∧
        generateLocalStorageKey demoOtherEnv emptyWorld = (.ok key, emptyWorld) :=
  ⟨by decide, by decide, by decide, by decide,
    generateLocalStorageKey_first24 demoEnv demoOtherEnv emptyWorld emptyWorld (by decide)
      (by decide) (by decide) (by decide) (by decide) (by decide) (by decide) (by decide)
      (by decide)⟩

/-! ## Round trip of the local format -/

theorem generateLocalStorageKey_world (env : Env) (w w2 : World) :
    ∃ r, generateLocalStorageKey env w = (r, w) ∧ generateLocalStorageKey env w2 = (r, w2) := by
  simp only [generateLocalStorageKey, btoa, JS.bind, js_bind_eq, js_pure_eq]
  split_ifs
  · exact ⟨_, rfl, rfl⟩
  · exact ⟨_, rfl, rfl⟩

theorem map_toByte_val (bs : Bytes) : (bs.map Fin.val).map toByte = bs := by
  induction bs with
  | nil => rfl
  | cons a t ih =>
    simp only [List.map_cons, ih, List.cons.injEq, and_true]
    apply Fin.ext
    simp only [toByte]
    exact Nat.mod_eq_of_lt a.isLt

/-- The value of `encryptForLocalStorage`, step by step. -/
theorem encryptForLocalStorage_eq {P : Type} (pf : Platform P) (env : Env) (data : P)
    (iv : Bytes) (w : World) :
    (∃ ks b c, generateLocalStorageKey env w = (.ok ks, w) ∧
      ((utf8Encode ks).length = 16 ∨ (utf8Encode ks).length = 24 ∨ (utf8Encode ks).length = 32) ∧
      pf.jsonEncode data = some b ∧
      pf.gcmEncrypt (utf8Encode ks) iv b = some c ∧
      encryptForLocalStorage pf env data iv w
        = (.ok { iv := iv.map Fin.val, data := c.map Fin.val },
            { w with log := w.log ++ [.importKey (utf8Encode ks)] ++
              [.gcmEncrypt (utf8Encode ks) iv b] })) ∨
    ∃ lg, encryptForLocalStorage pf env data iv w
      = (.error (.error localEncryptFailedMessage), { w with log := lg }) := by
  obtain ⟨rk, hk⟩ := generateLocalStorageKey_frame env w
  cases rk with
  | error e =>
    right
    refine ⟨w.log, ?_⟩
    simp only [encryptForLocalStorage, JS.tryCatch, JS.bind, js_bind_eq, hk, JS.throw]
  | ok ks =>
    by_cases hlen : (utf8Encode ks).length = 16 ∨ (utf8Encode ks).length = 24 ∨
        (utf8Encode ks).length = 32
    · cases h2 : pf.jsonEncode data with
      | none =>
        right
        refine ⟨w.log ++ [.importKey (utf8Encode ks)], ?_⟩
        simp only [encryptForLocalStorage, JS.tryCatch, JS.bind, js_bind_eq, js_pure_eq, hk,
          importKey_eq, if_pos hlen, h2, JS.ofOption, JS.throw]
      | some b =>
        cases h3 : pf.gcmEncrypt (utf8Encode ks) iv b with
        | none =>
          right
          refine ⟨w.log ++ [.importKey (utf8Encode ks)] ++ [.gcmEncrypt (utf8Encode ks) iv b], ?_⟩
          simp only [encryptForLocalStorage, aesEncrypt, JS.tryCatch, JS.bind, js_bind_eq,
            js_pure_eq, hk, importKey_eq, if_pos hlen, h2, h3, JS.ofOption, JS.logEvent,
            JS.pure, JS.throw]
        | some c =>
          left
          refine ⟨ks, b, c, hk, hlen, rfl, h3, ?_⟩
          simp only [encryptForLocalStorage, aesEncrypt, JS.tryCatch, JS.bind, js_bind_eq,
            js_pure_eq, hk, importKey_eq, if_pos hlen, h2, h3, JS.ofOption, JS.logEvent,
            JS.pure, JS.throw]
    · right
      refine ⟨w.log ++ [.importKey (utf8Encode ks)], ?_⟩
      simp only [encryptForLocalStorage, JS.tryCatch, JS.bind, js_bind_eq, hk,
        importKey_eq, if_neg hlen, JS.throw]

/-- What a successful `savePasswordDatabase` has done: it computed the key, encoded and
encrypted the collection, and stored the text of the package under the local key. -/
theorem savePasswordDatabase_true (pf : Platform (List Record)) (env : Env) (iv : Bytes)
    (w w1 : World) (hsave : savePasswordDatabase pf env iv w = (.ok true, w1)) :
    ∃ ks b c, generateLocalStorageKey env w = (.ok ks, w) ∧
      ((utf8Encode ks).length = 16 ∨ (utf8Encode ks).length = 24 ∨ (utf8Encode ks).length = 32) ∧
      pf.jsonEncode w.passwordDatabase = some b ∧
      pf.gcmEncrypt (utf8Encode ks) iv b = some c ∧
      pf.storageDenied = false ∧
      w1.storage = w.storage.set localDataKey
        (pf.stringifyLocal { iv := iv.map Fin.val, data := c.map Fin.val }) := by
  have hfalse : ∀ (w9 : World), ((Except.ok false : Except JsError Bool), w9) ≠ (.ok true, w1) := by
    intro w9 h9
    cases h9
  rcases encryptForLocalStorage_eq pf env w.passwordDatabase iv w with
    ⟨ks, b, c, hk, hlen, hb, hc, henc⟩ | ⟨lg, henc⟩
  · rcases hset : setItem pf localDataKey
        (pf.stringifyLocal { iv := iv.map Fin.val, data := c.map Fin.val })
        { w with log := w.log ++ [.importKey (utf8Encode ks)] ++
          [.gcmEncrypt (utf8Encode ks) iv b] } with ⟨r2, wb⟩
    have hval : savePasswordDatabase pf env iv w
        = (match r2 with
            | .ok _ => (.ok true, wb)
            | .error _ => (.ok false, wb)) := by
      simp only [savePasswordDatabase, JS.tryCatch, JS.bind, js_bind_eq, js_pure_eq,
        getPasswordDatabase, henc, hset, JS.pure]
      cases r2 <;> rfl
    rw [hval] at hsave
    cases r2 with
    | error e => exact absurd hsave (hfalse wb)
    | ok u =>
      have hw : wb = w1 := congrArg Prod.snd hsave
      subst hw
      have hsto := setItem_ok pf _ _ _ _ hset
      refine ⟨ks, b, c, hk, hlen, hb, hc, ?_, hsto⟩
      by_contra hden
      have hden2 : pf.storageDenied = true := by simpa using hden
      have hthrow : setItem pf localDataKey
          (pf.stringifyLocal { iv := iv.map Fin.val, data := c.map Fin.val })
          { w with log := w.log ++ [.importKey (utf8Encode ks)] ++
            [.gcmEncrypt (utf8Encode ks) iv b] }
          = (.error .securityError, { w with log := w.log ++ [.importKey (utf8Encode ks)] ++
            [.gcmEncrypt (utf8Encode ks) iv b] ++ [.setItem localDataKey
              (pf.stringifyLocal { iv := iv.map Fin.val, data := c.map Fin.val })] }) := by
        simp only [setItem, JS.bind, js_bind_eq, JS.logEvent, hden2, if_true, JS.throw]
      rw [hthrow] at hset
      have := congrArg Prod.fst hset
      exact absurd this (by simp)
  · have hval : savePasswordDatabase pf env iv w = (.ok false, { w with log := lg }) := by
      simp only [savePasswordDatabase, JS.tryCatch, JS.bind, js_bind_eq, js_pure_eq,
        getPasswordDatabase, henc, JS.pure]
    rw [hval] at hsave
    exact absurd hsave (hfalse _)

/-- What `loadPasswordDatabase` returns when every step on the stored text succeeds. -/
theorem loadPasswordDatabase_ok (pf : Platform (List Record)) (env : Env) (w : World)
    (text ks : String) (pkg : LocalPackage) (b : Bytes) (D : List Record)
    (hden : pf.storageDenied = false)
    (hget : w.storage.get localDataKey = some text) (hne : text ≠ "")
    (hparse : pf.parseLocal text = some pkg)
    (hk : ∀ w2 : World, generateLocalStorageKey env w2 = (.ok ks, w2))
    (hlen : (utf8Encode ks).length = 16 ∨ (utf8Encode ks).length = 24 ∨
      (utf8Encode ks).length = 32)
    (hopen : pf.gcmDecrypt (utf8Encode ks) (pkg.iv.map toByte) (pkg.data.map toByte) = some b)
    (hdec : pf.jsonDecode b = some D) :
    (loadPasswordDatabase pf env w).1 = .ok D := by
  simp only [loadPasswordDatabase, loadPasswordDatabaseBody, decryptFromLocalStorage,
    JS.tryCatch, JS.bind, js_bind_eq, js_pure_eq, getItem_eq, hden, Bool.false_eq_true, if_false,
    hget, ne_eq, hne, not_false_eq_true, if_true, hparse, JS.ofOption, JS.pure, hk, importKey_eq,
    if_pos hlen, aesDecrypt_eq, hopen, hdec]

/-- C30. Round trip of the local format: when `savePasswordDatabase` returns `true` while the
collection in memory is `D`, `loadPasswordDatabase`, run in the same environment on any page
whose storage is the one the save left, returns `D`. Taken from the browser: AES-GCM opens what
it sealed, `JSON.parse` reads back the package of two byte arrays and the record list that
`JSON.stringify` wrote. -/
theorem local_format_roundtrip (pf : Platform (List Record)) (hl : pf.Lawful)
    (hj : pf.LocalJson) (env : Env) (iv : Bytes) (w w1 w2 : World)
    (hjson : ∀ b, pf.jsonEncode w.passwordDatabase = some b →
      pf.jsonDecode b = some w.passwordDatabase)
    (hsave : savePasswordDatabase pf env iv w = (.ok true, w1))
    (hstore : w2.storage = w1.storage) :
    (loadPasswordDatabase pf env w2).1 = .ok w.passwordDatabase ∧
      (loadPasswordDatabase pf env w2).2.storage = w1.storage := by
  obtain ⟨ks, b, c, hk, hlen, henc, hc, hden, hst⟩ := savePasswordDatabase_true pf env iv w w1 hsave
  have hkall : ∀ w3 : World, generateLocalStorageKey env w3 = (.ok ks, w3) := by
    intro w3
    obtain ⟨r, h1, h2⟩ := generateLocalStorageKey_world env w w3
    rw [hk] at h1
    have : r = .ok ks := by
      have := congrArg Prod.fst h1
      exact this.symm
    rw [h2, this]
  have hget : w2.storage.get localDataKey
      = some (pf.stringifyLocal { iv := iv.map Fin.val, data := c.map Fin.val }) := by
    rw [hstore, hst, Storage.get_set]
  have h1 : (loadPasswordDatabase pf env w2).1 = .ok w.passwordDatabase :=
    loadPasswordDatabase_ok pf env w2 _ ks { iv := iv.map Fin.val, data := c.map Fin.val } b
      w.passwordDatabase hden hget (hj.stringify_ne_empty _) (hj.parse_stringify iv c) hkall hlen
      (by
        simp only [map_toByte_val]
        exact hl.gcm_open _ _ _ _ hc)
      (hjson b henc)
  refine ⟨h1, ?_⟩
  rw [loadPasswordDatabase_eq]
  obtain ⟨r, lg, hbody, _⟩ := loadPasswordDatabaseBody_spec pf env w2
  rw [hbody]
  exact hstore

set_option maxRecDepth 100000 in
theorem demoChar_spec : ∀ x : Fin 256,
    (Char.ofNat (x.val + 33) != ' ') = true ∧ (Char.ofNat (x.val + 33)).toNat - 33 = x.val := by
  decide

theorem span_until (p : Char → Bool) (x : Char) (r : List Char) (hx : p x = false) :
    ∀ l : List Char, (∀ c ∈ l, p c = true) → (l ++ x :: r).span p = (l, x :: r) := by
  intro l hl
  rw [List.span_eq_take_drop]
  induction l with
  | nil => simp [List.takeWhile, List.dropWhile, hx]
  | cons a t ih =>
    have ha : p a = true := hl a (by simp)
    have ht := ih (fun c hc => hl c (by simp [hc]))
    simp only [Prod.mk.injEq] at ht
    simp [List.takeWhile, List.dropWhile, ha, ht.1, ht.2]

/-- The demonstration browser reads back the local packages it writes. -/
theorem demo_localJson {P : Type} (enc : P → Option Bytes) (dec : Bytes → Option P) :
    (demoPlatform enc dec).LocalJson := by
  constructor
  · intro iv data
    have hspan := span_until (fun c => c != ' ') ' '
      ((data.map Fin.val).map (fun n => Char.ofNat (n + 33))) (by decide)
      ((iv.map Fin.val).map (fun n => Char.ofNat (n + 33)))
      (by
        intro c hc
        simp only [List.map_map, List.mem_map, Function.comp_apply] at hc
        obtain ⟨x, _, rfl⟩ := hc
        exact (demoChar_spec x).1)
    have hback : ∀ bs : Bytes,
        ((bs.map Fin.val).map (fun n => Char.ofNat (n + 33))).map (fun c => c.toNat - 33)
          = bs.map Fin.val := by
      intro bs
      simp only [List.map_map]
      apply List.map_congr_left
      intro x _
      exact (demoChar_spec x).2
    simp only [demoPlatform, demoStringifyLocal, demoParseLocal, hspan, hback]
  · intro p h
    have := congrArg String.data h
    simp [demoPlatform, demoStringifyLocal] at this

/-- Run of C30: two records are saved, the page is reloaded (memory and trace empty, storage
kept), and the load returns the two records. -/
theorem local_format_roundtrip_witness :
    savePasswordDatabase demoVault demoEnv demoIv
        { emptyWorld with passwordDatabase := [demoRecord 3, demoRecord 2] }
      = (.ok true, (savePasswordDatabase demoVault demoEnv demoIv
          { emptyWorld with passwordDatabase := [demoRecord 3, demoRecord 2] }).2) ∧
    (loadPasswordDatabase demoVault demoEnv
        { (savePasswordDatabase demoVault demoEnv demoIv
            { emptyWorld with passwordDatabase := [demoRecord 3, demoRecord 2] }).2 with
          passwordDatabase := [], log := [] }).1
      = .ok [demoRecord 3, demoRecord 2] :=
  ⟨by decide,
    (local_format_roundtrip demoVault (demo_lawful _ _) (demo_localJson _ _) demoEnv demoIv
        { emptyWorld with passwordDatabase := [demoRecord 3, demoRecord 2] }
        (savePasswordDatabase demoVault demoEnv demoIv
          { emptyWorld with passwordDatabase := [demoRecord 3, demoRecord 2] }).2
        { (savePasswordDatabase demoVault demoEnv demoIv
            { emptyWorld with passwordDatabase := [demoRecord 3, demoRecord 2] }).2 with
          passwordDatabase := [], log := [] }
        (by
          intro b hb
          simp only [demoVault, demoPlatform, demoEncodeRecords, Option.some.injEq] at hb
          subst hb
          decide)
        (by decide) rfl).1⟩

/-! ## The export package and the key derivation -/

theorem getRandomValues_length (n : Nat) (entropy : Nat → Byte) :
    (getRandomValues n entropy).length = n := by
  simp [getRandomValues]

/-- What a successful `encrypt` has done. -/
theorem encrypt_ok {P : Type} (pf : Platform P) (data : P) (password : String)
    (salt iv : Bytes) (w : World) (pkg : EncryptedPackage)
    (h : (PasswordEncryption.encrypt pf data password salt iv w).1 = .ok pkg) :
    ∃ key b ct, pf.pbkdf2 password salt 150000 = some key ∧ pf.jsonEncode data = some b ∧
      pf.gcmEncrypt key iv b = some ct ∧
      pkg = ⟨some 1, some (btoaBytes salt), some (btoaBytes iv), some (btoaBytes ct),
        some 150000⟩ ∧
      (PasswordEncryption.encrypt pf data password salt iv w).2.log
        = w.log ++ [.deriveKey password salt 150000, .gcmEncrypt key iv b] := by
  rcases encrypt_eq pf data password salt iv w with
    ⟨key, b, ct, h1, h2, h3, _, _, _, heq⟩ | ⟨lg, heq⟩
  · rw [heq] at h ⊢
    simp only [Except.ok.injEq] at h
    exact ⟨key, b, ct, h1, h2, h3, h.symm, by simp⟩
  · rw [heq] at h
    cases h

/-- The value and the trace of `decrypt` on a package that passes the shape check and whose
three texts are base64. -/
theorem decrypt_checked {P : Type} (pf : Platform P) (arg : PackageArg) (password : String)
    (w : World) (s i c : String) (n : Nat) (salt iv ct : Bytes)
    (hc : arg.checked = some (s, i, c, n)) (hs : b64Decode s.data = some salt)
    (hi : b64Decode i.data = some iv) (hct : b64Decode c.data = some ct) :
    (PasswordEncryption.decrypt pf arg password w).1
        = (match ((pf.pbkdf2 password salt n).bind (fun key => pf.gcmDecrypt key iv ct)).bind
              pf.jsonDecode with
            | some p => .ok p
            | none => .error (.error decryptFailedMessage)) ∧
      (PasswordEncryption.decrypt pf arg password w).2.log
        = w.log ++ .deriveKey password salt n ::
            (match pf.pbkdf2 password salt n with
              | some key => [.gcmDecrypt key iv ct]
              | none => []) := by
  cases h1 : pf.pbkdf2 password salt n with
  | none =>
    simp [PasswordEncryption.decrypt, PasswordEncryption.decryptBody, hc, atobBytes, hs, hi,
      hct, PasswordEncryption.deriveKey, JS.tryCatch, JS.bind, JS.pure, JS.logEvent,
      JS.ofOption, JS.throw, h1]
  | some key =>
    cases h2 : pf.gcmDecrypt key iv ct with
    | none =>
      simp [PasswordEncryption.decrypt, PasswordEncryption.decryptBody, hc, atobBytes, hs, hi,
        hct, PasswordEncryption.deriveKey, aesDecrypt, JS.tryCatch, JS.bind, JS.pure,
        JS.logEvent, JS.ofOption, JS.throw, h1, h2]
    | some d =>
      cases h3 : pf.jsonDecode d with
      | none =>
        simp [PasswordEncryption.decrypt, PasswordEncryption.decryptBody, hc, atobBytes, hs,
          hi, hct, PasswordEncryption.deriveKey, aesDecrypt, JS.tryCatch, JS.bind, JS.pure,
          JS.logEvent, JS.ofOption, JS.throw, h1, h2, h3]
      | some p =>
        simp [PasswordEncryption.decrypt, PasswordEncryption.decryptBody, hc, atobBytes, hs,
          hi, hct, PasswordEncryption.deriveKey, aesDecrypt, JS.tryCatch, JS.bind, JS.pure,
          JS.logEvent, JS.ofOption, JS.throw, h1, h2, h3]

/-- A package that passes the shape check carries the four values the check hands on. -/
theorem checked_some (q : EncryptedPackage) (s i c : String) (n : Nat)
    (h : (PackageArg.object q).checked = some (s, i, c, n)) :
    q.salt = some s ∧ q.iv = some i ∧ q.ciphertext = some c ∧ q.iterations = some n := by
  obtain ⟨qv, qs, qi, qc, qn⟩ := q
  rcases qv with _ | v <;> rcases qs with _ | s2 <;> rcases qi with _ | i2 <;>
    rcases qc with _ | c2 <;> rcases qn with _ | n2 <;>
    simp only [PackageArg.checked, reduceCtorEq] at h
  split_ifs at h
  simp only [Option.some.injEq, Prod.mk.injEq] at h
  obtain ⟨rfl, rfl, rfl, rfl⟩ := h
  exact ⟨rfl, rfl, rfl, rfl⟩

/-- C23. A package returned by `encrypt` has version 1, a salt text that base64-decodes to the
16 bytes drawn, an iv text that decodes to the 12 bytes drawn and iterations 150000, and the
one key derivation of the run was made with that salt and 150000 iterations; `decrypt`, on any
package that passes its checks, derives its key once, with the salt and the iterations value
stored in the package, whatever that value is. -/
theorem encrypt_package_fields {P : Type} (pf : Platform P) (data : P) (password : String)
    (entropy : Nat → Byte) (w : World) (pkg : EncryptedPackage)
    (h : (PasswordEncryption.encryptWithEntropy pf data password entropy w).1 = .ok pkg) :
    pkg.version = some 1 ∧ pkg.iterations = some 150000 ∧
      (∃ saltText ivText salt iv key b,
        pkg.salt = some saltText ∧ b64Decode saltText.data = some salt ∧ salt.length = 16 ∧
        pkg.iv = some ivText ∧ b64Decode ivText.data = some iv ∧ iv.length = 12 ∧
        pf.pbkdf2 password salt 150000 = some key ∧
        (PasswordEncryption.encryptWithEntropy pf data password entropy w).2.log
          = w.log ++ [.deriveKey password salt 150000, .gcmEncrypt key iv b]) ∧
      ∀ (q : EncryptedPackage) (passphrase : String) (w2 : World) (s i c : String) (n : Nat)
        (salt iv ct : Bytes),
        (PackageArg.object q).checked = some (s, i, c, n) → b64Decode s.data = some salt →
        b64Decode i.data = some iv → b64Decode c.data = some ct →
        q.iterations = some n ∧ q.salt = some s ∧
          (PasswordEncryption.decrypt pf (.object q) passphrase w2).2.log
            = w2.log ++ .deriveKey passphrase salt n ::
                (match pf.pbkdf2 passphrase salt n with
                  | some key => [.gcmDecrypt key iv ct]
                  | none => []) := by
  obtain ⟨key, b, ct, h1, _, _, hpkg, hlog⟩ := encrypt_ok pf data password _ _ w pkg h
  subst hpkg
  refine ⟨rfl, rfl, ⟨_, _, getRandomValues 16 entropy,
    getRandomValues 12 (fun i => entropy (i + 16)), key, b, rfl, ?_,
    getRandomValues_length _ _, rfl, ?_, getRandomValues_length _ _, h1, hlog⟩, ?_⟩
  · exact b64Decode_b64Encode _
  · exact b64Decode_b64Encode _
  · intro q passphrase w2 s i c n salt iv ct hc hs hi hct
    have hq := checked_some q s i c n hc
    exact ⟨hq.2.2.2, hq.1, (decrypt_checked pf (.object q) passphrase w2 s i c n salt iv ct hc hs
      hi hct).2⟩

/-- Run of C23: a fresh package carries 150000; a package written with 100000 iterations is
opened with a key derived with 100000 iterations. -/
theorem encrypt_package_fields_witness :
    (PasswordEncryption.encryptWithEntropy demoVault [demoRecord 3] "pw" demoEntropy
        emptyWorld).1
      = .ok ⟨some 1, some "CzBVep/E6Q4zWH2ix+wRNg==", some "W4Clyu8UOV6DqM3y",
          some "BV1dXV1dXV1dXV1dXV1dXV0=", some 150000⟩ ∧
    (PasswordEncryption.decrypt demoVault (.object demoOldPackage) "pw" emptyWorld).1
      = .ok [demoRecord 3] ∧
    (PasswordEncryption.decrypt demoVault (.object demoOldPackage) "pw" emptyWorld).2.log
      = [.deriveKey "pw" (List.replicate 16 7) 100000,
          .gcmDecrypt (List.replicate 32 178) (List.replicate 12 9)
            (181 :: List.replicate 16 187)] ∧
    (∃ saltText ivText salt iv key b,
      some "CzBVep/E6Q4zWH2ix+wRNg==" = some saltText ∧
      b64Decode saltText.data = some salt ∧ salt.length = 16 ∧
      some "W4Clyu8UOV6DqM3y" = some ivText ∧ b64Decode ivText.data = some iv ∧
      iv.length = 12 ∧
      demoVault.pbkdf2 "pw" salt 150000 = some key ∧
      (PasswordEncryption.encryptWithEntropy demoVault [demoRecord 3] "pw" demoEntropy
          emptyWorld).2.log
        = emptyWorld.log ++ [.deriveKey "pw" salt 150000, .gcmEncrypt key iv b]) :=
  ⟨by decide, by decide, by decide,
    (encrypt_package_fields demoVault [demoRecord 3] "pw" demoEntropy emptyWorld
      ⟨some 1, some "CzBVep/E6Q4zWH2ix+wRNg==", some "W4Clyu8UOV6DqM3y",
        some "BV1dXV1dXV1dXV1dXV1dXV0=", some 150000⟩ (by decide)).2.2.1⟩

/-! ## Tamper detection -/

theorem set_ne_self {α : Type} (l : List α) (i : Nat) (b : α) (hi : i < l.length)
    (hb : l[i]? ≠ some b) : l.set i b ≠ l := by
  intro h
  have := @List.getElem?_set_self _ l i b hi
  rw [h] at this
  exact hb this

theorem sum_set_ne (l : Bytes) : ∀ (i : Nat) (b : Byte), i < l.length → l[i]? ≠ some b →
    (l.set i b).sum ≠ l.sum := by
  induction l with
  | nil => intro i b hi; simp at hi
  | cons a t ih =>
    intro i b hi hb
    cases i with
    | zero =>
      simp only [List.set_cons_zero, List.sum_cons]
      intro h
      have : b = a := add_right_cancel h
      subst this
      simp at hb
    | succ j =>
      simp only [List.set_cons_succ, List.sum_cons]
      intro h
      have h2 : (t.set j b).sum = t.sum := add_left_cancel h
      simp only [List.length_cons] at hi
      exact ih j b (by omega) (by simpa using hb) h2

theorem demoSealTag_length (k iv m : Bytes) : (demoSealTag k iv m).length = 16 := by
  simp [demoSealTag]

theorem map_sub_add (m : Bytes) (k0 : Byte) :
    (m.map (fun b => b + k0)).map (fun b => b - k0) = m := by
  simp [List.map_map, Function.comp_def]

/-- The cipher of the sealing browser opens what it sealed. -/
theorem demoSealed_lawful : demoSealedVault.Lawful := by
  constructor
  · intro k iv m ct h
    simp only [demoSealedVault, demoSealEncrypt, Option.some.injEq] at h
    subst h
    have hlen : (m.map (fun b => b + k.headD 0) ++ demoSealTag k iv m).length - 16
        = (m.map (fun b => b + k.headD 0)).length := by
      simp [demoSealTag_length]
    simp only [demoSealedVault, demoSealDecrypt, hlen, List.take_left, List.drop_left,
      map_sub_add]
    rw [if_pos]
    exact ⟨by simp [demoSealTag_length], trivial⟩
  · intro k iv m ct h
    simp only [demoSealedVault, demoSealEncrypt, Option.some.injEq] at h
    subst h
    simp [demoSealTag_length]

/-- The cipher and the key derivation of the sealing browser notice every change of one
byte. -/
theorem demoSealed_tamperEvident : demoSealedVault.TamperEvident := by
  constructor
  · intro k iv m ct i b h hi hb
    simp only [demoSealedVault, demoSealEncrypt, Option.some.injEq] at h
    subst h
    simp only [demoSealedVault, demoSealDecrypt]
    rw [if_neg]
    rintro ⟨_, hcond⟩
    have hl : ((m.map (fun b => b + k.headD 0) ++ demoSealTag k iv m).set i b).length - 16
        = (m.map (fun b => b + k.headD 0)).length := by
      simp [demoSealTag_length]
    rw [hl] at hcond
    by_cases him : i < (m.map (fun b => b + k.headD 0)).length
    · rw [List.set_append_left i b him] at hcond
      have hl2 : ((m.map (fun b => b + k.headD 0)).set i b).length
          = (m.map (fun b => b + k.headD 0)).length := List.length_set _ _ _
      rw [← hl2, List.take_left, List.drop_left] at hcond
      have hplain : ((m.map (fun b => b + k.headD 0)).set i b).map (fun b => b - k.headD 0)
          = m.set i (b - k.headD 0) := by
        rw [List.map_set, map_sub_add]
      rw [hplain] at hcond
      simp only [demoSealTag, List.cons.injEq, true_and] at hcond
      have hsum : iv.sum + m.sum = iv.sum + (m.set i (b - k.headD 0)).sum :=
        List.replicate_right_injective (by decide) hcond
      have hsum2 : (m.set i (b - k.headD 0)).sum = m.sum := (add_left_cancel hsum).symm
      simp only [List.length_map] at him
      refine sum_set_ne m i (b - k.headD 0) him ?_ hsum2
      intro hm
      apply hb
      rw [List.getElem?_append_left (by simpa using him), List.getElem?_map, hm]
      simp
    · have hge : (m.map (fun b => b + k.headD 0)).length ≤ i := by omega
      rw [List.set_append_right i b hge, List.take_left, List.drop_left, map_sub_add] at hcond
      refine set_ne_self (demoSealTag k iv m) (i - (m.map (fun b => b + k.headD 0)).length) b
        ?_ ?_ hcond
      · simp only [List.length_append, demoSealTag_length] at hi
        rw [demoSealTag_length]
        omega
      · intro ht
        apply hb
        rw [List.getElem?_append_right hge]
        exact ht
  · intro k iv m ct i b h hi hb
    simp only [demoSealedVault, demoSealEncrypt, Option.some.injEq] at h
    subst h
    simp only [demoSealedVault, demoSealDecrypt]
    rw [if_neg]
    rintro ⟨_, hcond⟩
    have hl : (m.map (fun b => b + k.headD 0) ++ demoSealTag k iv m).length - 16
        = (m.map (fun b => b + k.headD 0)).length := by
      simp [demoSealTag_length]
    rw [hl, List.take_left, List.drop_left, map_sub_add] at hcond
    simp only [demoSealTag, List.cons.injEq, true_and] at hcond
    have hsum : iv.sum + m.sum = (iv.set i b).sum + m.sum :=
      List.replicate_right_injective (by decide) hcond
    exact sum_set_ne iv i b hi hb (add_right_cancel hsum).symm
  · intro password salt n k k2 iv m ct i b hk hi hb hk2 h
    simp only [demoSealedVault, demoSealEncrypt, Option.some.injEq] at h
    subst h
    simp only [demoSealedVault, demoSealKey] at hk hk2
    split_ifs at hk hk2
    simp only [Option.some.injEq] at hk hk2
    subst hk
    subst hk2
    simp only [demoSealedVault, demoSealDecrypt]
    rw [if_neg]
    rintro ⟨_, hcond⟩
    have hl : ∀ x : Byte, (m.map (fun b => b + x) ++ demoSealTag (List.replicate 32 x) iv m).length
        - 16 = (m.map (fun b => b + x)).length := by
      intro x
      simp [demoSealTag_length]
    simp only [List.replicate, List.headD_cons] at hcond hl
    rw [hl, List.take_left, List.drop_left] at hcond
    simp only [demoSealTag, List.headD_cons, List.cons.injEq] at hcond
    have hsum : (salt.set i b).sum = salt.sum := (add_left_cancel hcond.1).symm
    exact sum_set_ne salt i b hi hb hsum

/-- A package of the shape `encrypt` writes is rejected by `decrypt` as soon as the key derived
from its salt does not open its ciphertext under its nonce. -/
theorem decrypt_rejects {P : Type} (pf : Platform P) (passphrase : String) (salt iv ct : Bytes)
    (w : World)
    (h : (pf.pbkdf2 passphrase salt 150000).bind (fun key => pf.gcmDecrypt key iv ct) = none) :
    (PasswordEncryption.decrypt pf
        (.object ⟨some 1, some (btoaBytes salt), some (btoaBytes iv), some (btoaBytes ct),
          some 150000⟩) passphrase w).1
      = .error (.error decryptFailedMessage) := by
  cases hchk : (PackageArg.object ⟨some 1, some (btoaBytes salt), some (btoaBytes iv),
      some (btoaBytes ct), some 150000⟩).checked with
  | none =>
    rw [(decrypt_unchecked pf _ passphrase w hchk).2]
  | some t =>
    obtain ⟨s, i, c, n⟩ := t
    obtain ⟨h1, h2, h3, h4⟩ := checked_some _ s i c n hchk
    simp only [Option.some.injEq] at h1 h2 h3 h4
    subst h1 h2 h3 h4
    have := (decrypt_checked pf _ passphrase w _ _ _ _ salt iv ct hchk
      (b64Decode_b64Encode salt) (b64Decode_b64Encode iv) (b64Decode_b64Encode ct)).1
    rw [this, h]
    rfl

/-- C24. Tamper detection, given the tamper evidence of AES-GCM and PBKDF2: for the package that
`encrypt` returns for a payload and a passphrase, with salt, nonce and ciphertext bytes `salt`,
`iv` and `ct`, changing one byte of `ct`, of `iv` or of `salt` and encoding the result back
into the package makes `decrypt` under the same passphrase fail with the decryption error; it
returns no payload at all, so never one different from the original. -/
theorem decrypt_detects_tampering {P : Type} (pf : Platform P) (ht : pf.TamperEvident) (p : P)
    (passphrase : String) (entropy : Nat → Byte) (w : World) (pkg : EncryptedPackage)
    (henc : (PasswordEncryption.encryptWithEntropy pf p passphrase entropy w).1 = .ok pkg) :
    ∃ salt iv ct : Bytes,
      pkg.salt = some (btoaBytes salt) ∧ pkg.iv = some (btoaBytes iv) ∧
      pkg.ciphertext = some (btoaBytes ct) ∧
      ∀ (i : Nat) (b : Byte) (w2 : World),
        (i < ct.length → ct[i]? ≠ some b →
          (PasswordEncryption.decrypt pf
              (.object { pkg with ciphertext := some (btoaBytes (ct.set i b)) })
              passphrase w2).1 = .error (.error decryptFailedMessage)) ∧
        (i < iv.length → iv[i]? ≠ some b →
          (PasswordEncryption.decrypt pf
              (.object { pkg with iv := some (btoaBytes (iv.set i b)) })
              passphrase w2).1 = .error (.error decryptFailedMessage)) ∧
        (i < salt.length → salt[i]? ≠ some b →
          (PasswordEncryption.decrypt pf
              (.object { pkg with salt := some (btoaBytes (salt.set i b)) })
              passphrase w2).1 = .error (.error decryptFailedMessage)) := by
  obtain ⟨key, m, ct, hk, _, hc, hpkg, _⟩ := encrypt_ok pf p passphrase _ _ w pkg henc
  subst hpkg
  refine ⟨getRandomValues 16 entropy, getRandomValues 12 (fun i => entropy (i + 16)), ct,
    rfl, rfl, rfl, ?_⟩
  intro i b w2
  refine ⟨?_, ?_, ?_⟩
  · intro hi hb
    refine decrypt_rejects pf passphrase _ _ _ w2 ?_
    rw [hk]
    exact ht.ciphertext key _ m ct i b hc hi hb
  · intro hi hb
    refine decrypt_rejects pf passphrase _ _ _ w2 ?_
    rw [hk]
    exact ht.nonce key _ m ct i b hc hi hb
  · intro hi hb
    refine decrypt_rejects pf passphrase _ _ _ w2 ?_
    cases hk2 : pf.pbkdf2 passphrase ((getRandomValues 16 entropy).set i b) 150000 with
    | none => rfl
    | some k2 =>
      exact ht.salt passphrase _ 150000 key k2 _ m ct i b hk hi hb hk2 hc

/-- Run of C24 in the sealing browser: the package opens as written, and it is rejected after a
change of the first ciphertext byte (253 to 252), of the sixth salt byte (196 to 0) or of the
last nonce byte (242 to 1). -/
theorem decrypt_detects_tampering_witness :
    (PasswordEncryption.encryptWithEntropy demoSealedVault [demoRecord 3] "pw" demoEntropy
        emptyWorld).1 = .ok demoSealedPackage ∧
    (PasswordEncryption.decrypt demoSealedVault (.object demoSealedPackage) "pw"
        emptyWorld).1 = .ok [demoRecord 3] ∧
    (PasswordEncryption.decrypt demoSealedVault
        (.object { demoSealedPackage with ciphertext := some "/PrR0dHR0dHR0dHR0dHR0dE=" }) "pw"
        emptyWorld).1 = .error (.error decryptFailedMessage) ∧
    (PasswordEncryption.decrypt demoSealedVault
        (.object { demoSealedPackage with salt := some "CzBVep8A6Q4zWH2ix+wRNg==" }) "pw"
        emptyWorld).1 = .error (.error decryptFailedMessage) ∧
    (PasswordEncryption.decrypt demoSealedVault
        (.object { demoSealedPackage with iv := some "W4Clyu8UOV6DqM0B" }) "pw"
        emptyWorld).1 = .error (.error decryptFailedMessage) ∧
    ∃ salt iv ct : Bytes,
      demoSealedPackage.salt = some (btoaBytes salt) ∧
      demoSealedPackage.iv = some (btoaBytes iv) ∧
      demoSealedPackage.ciphertext = some (btoaBytes ct) ∧
      ∀ (i : Nat) (b : Byte) (w2 : World),
        (i < ct.length → ct[i]? ≠ some b →
          (PasswordEncryption.decrypt demoSealedVault
              (.object { demoSealedPackage with ciphertext := some (btoaBytes (ct.set i b)) })
              "pw" w2).1 = .error (.error decryptFailedMessage)) ∧
        (i < iv.length → iv[i]? ≠ some b →
          (PasswordEncryption.decrypt demoSealedVault
              (.object { demoSealedPackage with iv := some (btoaBytes (iv.set i b)) })
              "pw" w2).1 = .error (.error decryptFailedMessage)) ∧
        (i < salt.length → salt[i]? ≠ some b →
          (PasswordEncryption.decrypt demoSealedVault
              (.object { demoSealedPackage with salt := some (btoaBytes (salt.set i b)) })
              "pw" w2).1 = .error (.error decryptFailedMessage)) :=
  ⟨by decide, by decide, by decide, by decide, by decide,
    decrypt_detects_tampering demoSealedVault demoSealed_tamperEvident [demoRecord 3] "pw"
      demoEntropy emptyWorld demoSealedPackage (by decide)⟩

end PassVault
